import Mathlib

/-!
# A shallow embedding of the Tomasulo simulator core

The development follows `src/defines.hpp`, `src/decode.hpp` and `src/state.hpp`.

* A `word` (`uint32_t`) is a natural number; every arithmetic operation that can leave the
  32-bit range is reduced modulo `2^32` where the source performs it.
* A `std::array<T, n>` is a function `Fin n → T`.  Wherever the source indexes an array with a
  word that is not in range by construction, the model checks the bound and answers
  `Outcome.undef` (undefined behaviour) when it fails; `__builtin_unreachable()` is `undef` too.
* `throw TomasuloError(...)` is `Outcome.raised`, carrying the opcode, the pc and the machine
  state as mutated up to the throw.
* The only source of randomness, the victim drawn in `updateBTB` when the BTB holds no invalid
  slot, is a parameter `rnd : Fin 8` of the functions that can reach it.
-/

namespace Tomasulo

/-! ## defines.hpp -/

/-- Number of values of a `word`, `2^32`. -/
abbrev WORD : Nat := 4294967296

abbrev MEMSIZE : Nat := 10000
abbrev NUMREGS : Nat := 32

abbrev RR_ALU : Nat := 0
abbrev LW : Nat := 35
abbrev SW : Nat := 43
abbrev ADDI : Nat := 8
abbrev ANDI : Nat := 12
abbrev BEQZ : Nat := 4
abbrev J : Nat := 2
abbrev HALT : Nat := 1
abbrev NOOP : Nat := 3

abbrev FUNC_ADD : Nat := 32
abbrev FUNC_SUB : Nat := 34
abbrev FUNC_AND : Nat := 36

abbrev NOOP_INSTR : Nat := 0x0c000000

abbrev READY : Nat := 0
abbrev LOAD1 : Nat := 1
abbrev LOAD2 : Nat := 2
abbrev STORE1 : Nat := 3
abbrev STORE2 : Nat := 4
abbrev INT1 : Nat := 5
abbrev INT2 : Nat := 6
abbrev NUMUNITS : Nat := 6

abbrev BRANCHEXEC : Nat := 3
abbrev LDEXEC : Nat := 2
abbrev STEXEC : Nat := 2
abbrev INTEXEC : Nat := 1

abbrev ISSUING : Nat := 0
abbrev EXECUTING : Nat := 1
abbrev WRITING_RESULT : Nat := 2
abbrev COMMITTING : Nat := 3

abbrev ROBSIZE : Nat := 16
abbrev BTBSIZE : Nat := 8

/-- Unsigned 32-bit addition. -/
def wadd (a b : Nat) : Nat := (a + b) % WORD

/-- Unsigned 32-bit subtraction. -/
def wsub (a b : Nat) : Nat := (a + (WORD - b % WORD)) % WORD

/-- The 2-bit branch history, `enum BHT`. -/
inductive BHT where
  | STRONGNOT
  | WEAKNOT
  | WEAKTAKEN
  | STRONGTAKEN
deriving DecidableEq, Repr

/-- A reservation station, `struct ResStation`; the default is the value-initialised one. -/
structure ResStation where
  busy : Bool := false
  instr : Nat := 0
  Vj : Nat := 0
  Vk : Nat := 0
  Qj : Nat := 0
  Qk : Nat := 0
  exTimeLeft : Nat := 0
  robIdx : Nat := 0
deriving DecidableEq, Repr

/-- A reorder-buffer entry, `struct ROBEntry`. -/
structure ROBEntry where
  busy : Bool := false
  valid : Bool := false
  pc : Nat := 0
  instr : Nat := 0
  execUnit : Nat := 0
  instrStatus : Nat := 0
  result : Nat := 0
  address : Nat := 0
deriving DecidableEq, Repr

/-- A register-status entry, `struct RegResultEntry` (valid by default). -/
structure RegResultEntry where
  valid : Bool := true
  robIdx : Nat := 0
deriving DecidableEq, Repr

/-- A branch-target-buffer entry, `struct BTBEntry`. -/
structure BTBEntry where
  valid : Bool := false
  branchPred : BHT := BHT.STRONGNOT
  branchPc : Nat := 0
  targetPc : Nat := 0
deriving DecidableEq, Repr

/-! ## decode.hpp -/

/-- The field `w[from:to]`: `(w >> to) & ((1 << (from - to + 1)) - 1)`. -/
def getField (w hi lo : Nat) : Nat :=
  (w >>> lo) &&& ((1 <<< (hi - lo + 1)) - 1)

/-- Reading a word as a two's-complement `int32_t`. -/
def toSigned (w : Nat) : Int :=
  if w % WORD < 2147483648 then ((w % WORD : Nat) : Int) else ((w % WORD : Nat) : Int) - 4294967296

/-- Converting an `int32_t` back to a `word`. -/
def toWord (i : Int) : Nat := (i % 4294967296).toNat

/-- Sign extension of an `N`-bit number, `signExtend<N>`:
`(int32_t(num) << shift) >> shift` with `shift = 32 - N`, the right shift being arithmetic. -/
def signExtend (N num : Nat) : Nat :=
  let shift := 32 - N
  toWord (toSigned ((num <<< shift) % WORD) >>> shift)

def opcode (instr : Nat) : Nat := getField instr 31 26
def reg1 (instr : Nat) : Nat := getField instr 25 21
def reg2 (instr : Nat) : Nat := getField instr 20 16
def reg3 (instr : Nat) : Nat := getField instr 15 11
def func (instr : Nat) : Nat := getField instr 10 0
def immEx (instr : Nat) : Nat := signExtend 16 (getField instr 15 0)
def jmpOffsetEx (instr : Nat) : Nat := signExtend 26 (getField instr 25 0)

/-- The register index `reg1(instr)`, which is below `NUMREGS` since the field has five bits. -/
def reg1Idx (instr : Nat) : Fin 32 :=
  ⟨reg1 instr, Nat.lt_succ_of_le Nat.and_le_right⟩

/-- The register index `reg2(instr)`. -/
def reg2Idx (instr : Nat) : Fin 32 :=
  ⟨reg2 instr, Nat.lt_succ_of_le Nat.and_le_right⟩

/-- The register index `reg3(instr)`. -/
def reg3Idx (instr : Nat) : Fin 32 :=
  ⟨reg3 instr, Nat.lt_succ_of_le Nat.and_le_right⟩

/-! ## state.hpp -/

/-- The saturating 2-bit counter update `newBHT`. -/
def newBHT (old : BHT) (taken : Bool) : BHT :=
  if taken then
    match old with
    | BHT.STRONGTAKEN => BHT.STRONGTAKEN
    | BHT.WEAKTAKEN => BHT.STRONGTAKEN
    | BHT.WEAKNOT => BHT.WEAKTAKEN
    | BHT.STRONGNOT => BHT.WEAKNOT
  else
    match old with
    | BHT.STRONGNOT => BHT.STRONGNOT
    | BHT.WEAKNOT => BHT.STRONGNOT
    | BHT.WEAKTAKEN => BHT.WEAKNOT
    | BHT.STRONGTAKEN => BHT.WEAKTAKEN

/-- The machine state, `struct MachineState`, with its default member initialisers. -/
structure MachineState where
  pc : Nat := 16
  cycles : Nat := 0
  robHeadIdx : Nat := 0
  robTailIdx : Nat := 0
  memorySize : Nat := 0
  rob : Fin 16 → ROBEntry := fun _ => {}
  reservation : Fin 7 → ResStation := fun _ => {}
  btb : Fin 8 → BTBEntry := fun _ => {}
  regResult : Fin 32 → RegResultEntry := fun _ => {}
  memory : Fin 10000 → Nat := fun _ => 0
  regFile : Fin 32 → Nat := fun _ => 0

/-- The default-initialised machine state. -/
def newMachineState : MachineState := {}

/-- The result of running a piece of the simulator: it returns a value, throws
`TomasuloError` (opcode, pc and the state at the throw), or has undefined behaviour. -/
inductive Outcome (α : Type) where
  | ok (a : α)
  | raised (op pc : Nat) (s : MachineState)
  | undef

/-- Sequencing of outcomes. -/
def Outcome.bind {α β : Type} (x : Outcome α) (f : α → Outcome β) : Outcome β :=
  match x with
  | Outcome.ok a => f a
  | Outcome.raised op pc s => Outcome.raised op pc s
  | Outcome.undef => Outcome.undef

/-- The checked index into an array of `n` cells. -/
def idx? (n i : Nat) : Option (Fin n) :=
  if h : i < n then some ⟨i, h⟩ else none

/-- The array `f` with cell `i` assigned `v`. -/
def setIdx {n : Nat} {α : Type} (f : Fin n → α) (i : Fin n) (v : α) : Fin n → α :=
  fun j => if j = i then v else f j

/-- The effect of `broadcastUpdate(unit, value)` on one reservation station. -/
def broadcastStation (unit value : Nat) (r : ResStation) : ResStation :=
  if r.busy then
    let r1 := if r.Qj = unit then { r with Vj := value, Qj := READY } else r
    if r1.Qk = unit then { r1 with Vk := value, Qk := READY } else r1
  else r

/-- The effect of `broadcastUpdate(unit, value)` on one ROB entry. -/
def broadcastROB (unit value : Nat) (e : ROBEntry) : ROBEntry :=
  if e.busy ∧ e.valid = false ∧ e.execUnit = unit then
    { e with result := value, valid := true }
  else e

/-- The common-data-bus broadcast `broadcastUpdate`: both loops act cell by cell. -/
def broadcastUpdate (s : MachineState) (unit value : Nat) : MachineState :=
  { s with
    reservation := fun i => broadcastStation unit value (s.reservation i),
    rob := fun i => broadcastROB unit value (s.rob i) }

def resetROB (s : MachineState) : MachineState :=
  { s with robHeadIdx := 0, robTailIdx := 0, rob := fun _ => {} }

def resetReserve (s : MachineState) : MachineState :=
  { s with reservation := fun _ => {} }

def resetRegResult (s : MachineState) : MachineState :=
  { s with regResult := fun _ => {} }

/-- Operand capture into `Vj`/`Qj` from source register `rs`, whose register-status entry
(as copied before any rename) is `rg`; `rob[rg.robIdx]` is undefined when out of range. -/
def captureJ (s : MachineState) (rg : RegResultEntry) (rs : Fin 32) (r : ResStation) :
    Outcome ResStation :=
  if rg.valid then Outcome.ok { r with Qj := READY, Vj := s.regFile rs }
  else
    match idx? 16 rg.robIdx with
    | none => Outcome.undef
    | some p =>
      if (s.rob p).valid then Outcome.ok { r with Qj := READY, Vj := (s.rob p).result }
      else Outcome.ok { r with Qj := (s.rob p).execUnit }

/-- Operand capture into `Vk`/`Qk`, the same code on the second operand. -/
def captureK (s : MachineState) (rg : RegResultEntry) (rs : Fin 32) (r : ResStation) :
    Outcome ResStation :=
  if rg.valid then Outcome.ok { r with Qk := READY, Vk := s.regFile rs }
  else
    match idx? 16 rg.robIdx with
    | none => Outcome.undef
    | some p =>
      if (s.rob p).valid then Outcome.ok { r with Qk := READY, Vk := (s.rob p).result }
      else Outcome.ok { r with Qk := (s.rob p).execUnit }

/-- The first `switch` of `issueInstr` for the opcodes that do not return early:
the execution time, or `none` for the `default` branch that throws. -/
def issueExTime (op : Nat) : Option Nat :=
  if op = RR_ALU ∨ op = ADDI ∨ op = ANDI ∨ op = J ∨ op = SW then some INTEXEC
  else if op = LW then some LDEXEC
  else if op = BEQZ then some BRANCHEXEC
  else none

/-- The second `switch` of `issueInstr`: renaming of the destination and operand capture.
Here `s` already holds the new ROB entry, `r` is the station as filled so far, and the
opcode is one that the first `switch` gave an execution time. -/
def issueOperands (s : MachineState) (u : Fin 7) (instr pc robIdx : Nat) (r : ResStation) :
    Outcome MachineState :=
  let op := opcode instr
  if op = RR_ALU then
    let rg1 := s.regResult (reg1Idx instr)
    let rg2 := s.regResult (reg2Idx instr)
    let rg3 : RegResultEntry := { valid := false, robIdx := robIdx }
    let s1 : MachineState := { s with regResult := setIdx s.regResult (reg3Idx instr) rg3 }
    (captureJ s1 rg1 (reg1Idx instr) r).bind fun r2 =>
      (captureK s1 rg2 (reg2Idx instr) r2).bind fun r3 =>
        Outcome.ok { s1 with reservation := setIdx s.reservation u r3 }
  else if op = LW ∨ op = ADDI ∨ op = ANDI ∨ op = BEQZ then
    let rg1 := s.regResult (reg1Idx instr)
    let rg2 : RegResultEntry := { valid := false, robIdx := robIdx }
    let s1 : MachineState := { s with regResult := setIdx s.regResult (reg2Idx instr) rg2 }
    (captureJ s1 rg1 (reg1Idx instr) r).bind fun r2 =>
      Outcome.ok { s1 with reservation := setIdx s.reservation u r2 }
  else if op = SW then
    let rg1 := s.regResult (reg1Idx instr)
    let rg2 := s.regResult (reg2Idx instr)
    (captureJ s rg1 (reg1Idx instr) r).bind fun r2 =>
      (captureK s rg2 (reg2Idx instr) r2).bind fun r3 =>
        Outcome.ok { s with reservation := setIdx s.reservation u r3 }
  else
    -- `case J`, the only opcode left with an execution time
    let r2 : ResStation := { r with Qk := READY, Vk := wadd pc 1 }
    Outcome.ok { s with reservation := setIdx s.reservation u r2 }

/-- The issue of the instruction at `pc` into station `unit` and ROB slot `robIdx`,
`issueInstr`. -/
def issueInstr (s : MachineState) (pc unit robIdx : Nat) : Outcome MachineState :=
  match idx? 10000 pc, idx? 7 unit, idx? 16 robIdx with
  | some a, some u, some i =>
    let instr := s.memory a
    let op := opcode instr
    let r0 : ResStation := { s.reservation u with busy := true, robIdx := robIdx, instr := instr }
    let e0 : ROBEntry :=
      { s.rob i with busy := true, instr := instr, instrStatus := ISSUING, execUnit := unit, pc := pc }
    let s0 : MachineState := { s with rob := setIdx s.rob i e0 }
    if op = NOOP ∨ op = HALT then
      Outcome.ok { s0 with reservation := setIdx s.reservation u { r0 with exTimeLeft := INTEXEC } }
    else
      match issueExTime op with
      | none => Outcome.raised op pc { s0 with reservation := setIdx s.reservation u r0 }
      | some t => issueOperands s0 u instr pc robIdx { r0 with exTimeLeft := t }
  | _, _, _ => Outcome.undef

/-- The scan of `updateBTB` over the indices still to visit: `Sum.inl i` when the valid entry
`i` matches both `branchPc` and `targetPc` (the loop returns there), otherwise `Sum.inr` of
the victim recorded so far, the last invalid slot seen. -/
def scanBTB (btb : Fin 8 → BTBEntry) (branchPc targetPc : Nat) :
    List (Fin 8) → Option (Fin 8) → Sum (Fin 8) (Option (Fin 8))
  | [], victim => Sum.inr victim
  | i :: rest, victim =>
    if (btb i).valid then
      if (btb i).branchPc = branchPc ∧ (btb i).targetPc = targetPc then Sum.inl i
      else scanBTB btb branchPc targetPc rest victim
    else scanBTB btb branchPc targetPc rest (some i)

/-- The BTB update `updateBTB`; `rnd` is the value the uniform generator over `[0, 8)` yields
if it is consulted. -/
def updateBTB (s : MachineState) (branchPc targetPc : Nat) (taken : Bool) (rnd : Fin 8) :
    MachineState :=
  match scanBTB s.btb branchPc targetPc (List.finRange 8) none with
  | Sum.inl i =>
    let entry : BTBEntry := { s.btb i with branchPred := newBHT (s.btb i).branchPred taken }
    { s with btb := setIdx s.btb i entry }
  | Sum.inr victim =>
    let victimIdx : Fin 8 :=
      match victim with
      | some i => i
      | none => rnd
    let entry : BTBEntry :=
      { valid := true,
        branchPred := if taken then BHT.STRONGTAKEN else BHT.STRONGNOT,
        branchPc := branchPc,
        targetPc := targetPc }
    { s with btb := setIdx s.btb victimIdx entry }

/-- The lookup loop of `getTarget` over the indices still to visit. -/
def getTargetFrom (btb : Fin 8 → BTBEntry) (branchPc : Nat) : List (Fin 8) → Nat
  | [] => wadd branchPc 1
  | i :: rest =>
    if (btb i).valid ∧ (btb i).branchPc = branchPc then
      match (btb i).branchPred with
      | BHT.STRONGNOT => wadd branchPc 1
      | BHT.WEAKNOT => wadd branchPc 1
      | BHT.WEAKTAKEN => (btb i).targetPc
      | BHT.STRONGTAKEN => (btb i).targetPc
    else getTargetFrom btb branchPc rest

/-- The predicted next pc of the branch at `branchPc`, `getTarget`. -/
def getTarget (s : MachineState) (branchPc : Nat) : Nat :=
  getTargetFrom s.btb branchPc (List.finRange 8)

/-- The head index of the ROB, `robHead`; `none` is the all-ones sentinel. -/
def robHead (s : MachineState) : Option Nat :=
  if s.robHeadIdx = s.robTailIdx then none else some s.robHeadIdx

/-- Popping the head of the ROB, `robPop`: the returned index (`none` is the sentinel) and the
new state. -/
def robPop (s : MachineState) : Outcome (Option Nat × MachineState) :=
  if s.robHeadIdx = s.robTailIdx then Outcome.ok (none, s)
  else
    match idx? 16 s.robHeadIdx with
    | none => Outcome.undef
    | some i =>
      Outcome.ok (some s.robHeadIdx,
        { s with rob := setIdx s.rob i ({} : ROBEntry), robHeadIdx := wadd s.robHeadIdx 1 % ROBSIZE })

/-- Pushing at the tail of the ROB, `robPush`. -/
def robPush (s : MachineState) : Option Nat × MachineState :=
  if wsub s.robHeadIdx s.robTailIdx % ROBSIZE = 1 then (none, s)
  else (some s.robTailIdx, { s with robTailIdx := wadd s.robTailIdx 1 % ROBSIZE })

/-- Loading the instruction word `instr` at address `pc`, `loadInstr` (the four bytes copied
are those of a 32-bit word). -/
def loadInstr (s : MachineState) (pc instr : Nat) : Outcome MachineState :=
  match idx? 10000 pc with
  | none => Outcome.undef
  | some a => Outcome.ok { s with memory := setIdx s.memory a (instr % WORD) }

def setMemorySize (s : MachineState) (size : Nat) : MachineState :=
  { s with memorySize := size }

/-- The body shared by the register-writing cases of `commitInstr` (`LW`, `ADDI`, `ANDI` with
`rd = reg2(instr)`, `RR_ALU` with `rd = reg3(instr)`): clear the rename if it still names this
ROB index, write the register, pop the ROB. -/
def commitRegister (s : MachineState) (robIdx : Nat) (rd : Fin 32) (result : Nat) :
    Outcome MachineState :=
  let regResult1 :=
    if (s.regResult rd).robIdx = robIdx then setIdx s.regResult rd ({} : RegResultEntry)
    else s.regResult
  let s1 : MachineState := { s with regResult := regResult1, regFile := setIdx s.regFile rd result }
  (robPop s1).bind fun p => Outcome.ok p.2

/-- The `SW` case of `commitInstr` for a store not yet in a store station: the loop over
`{STORE1, STORE2}`. -/
def commitStoreTransfer (s : MachineState) (robIdx : Nat) (i : Fin 16) : MachineState :=
  let robEntry := s.rob i
  let reserv : ResStation :=
    { busy := true, instr := robEntry.instr, Vj := robEntry.result, Vk := robEntry.address,
      Qj := READY, Qk := READY, exTimeLeft := STEXEC - 1, robIdx := robIdx }
  if (s.reservation 3).busy = false then
    { s with
      reservation := setIdx s.reservation 3 reserv,
      rob := setIdx s.rob i { robEntry with execUnit := STORE1 } }
  else if (s.reservation 4).busy = false then
    { s with
      reservation := setIdx s.reservation 4 reserv,
      rob := setIdx s.rob i { robEntry with execUnit := STORE2 } }
  else s

/-- Committing the instruction in ROB slot `robIdx`, `commitInstr`. -/
def commitInstr (rnd : Fin 8) (s : MachineState) (robIdx : Nat) : Outcome MachineState :=
  match idx? 16 robIdx with
  | none => Outcome.undef
  | some i =>
    let robEntry := s.rob i
    let op := opcode robEntry.instr
    let result := robEntry.result
    let instr := robEntry.instr
    if op = LW ∨ op = ADDI ∨ op = ANDI then
      commitRegister s robIdx (reg2Idx instr) result
    else if op = RR_ALU then
      commitRegister s robIdx (reg3Idx instr) result
    else if op = BEQZ then
      let branchTarget := wadd (wadd (immEx instr) 1) robEntry.pc
      let taken : Bool := decide (result = 0)
      let s1 := updateBTB s robEntry.pc branchTarget taken rnd
      if (taken = true ∧ robEntry.address ≠ branchTarget)
          ∨ (taken = false ∧ robEntry.address ≠ wadd robEntry.pc 1) then
        Outcome.ok { resetRegResult (resetReserve (resetROB s1)) with pc := branchTarget }
      else
        (robPop s1).bind fun p => Outcome.ok p.2
    else if op = SW then
      let unit := robEntry.execUnit
      if unit ≠ STORE1 ∧ unit ≠ STORE2 then
        Outcome.ok (commitStoreTransfer s robIdx i)
      else
        match idx? 7 unit with
        | none => Outcome.undef
        | some u =>
          if (s.reservation u).exTimeLeft = 0 then
            let value := (s.reservation u).Vj
            let address := (s.reservation u).Vk
            match idx? 10000 address with
            | none => Outcome.undef
            | some a =>
              let s1 : MachineState :=
                { s with
                  memory := setIdx s.memory a value,
                  reservation := setIdx s.reservation u ({} : ResStation) }
              (robPop s1).bind fun p => Outcome.ok p.2
          else
            let r : ResStation :=
              { s.reservation u with exTimeLeft := wsub (s.reservation u).exTimeLeft 1 }
            Outcome.ok { s with reservation := setIdx s.reservation u r }
    else if op = J then
      (robPop s).bind fun p => Outcome.ok p.2
    else
      Outcome.ok s

/-- The result an instruction produces once executed, `getResult`; it reads the state and
changes nothing. -/
def getResult (s : MachineState) (reservIdx : Nat) : Outcome Nat :=
  match idx? 7 reservIdx with
  | none => Outcome.undef
  | some u =>
    let reserv := s.reservation u
    let instr := reserv.instr
    let op := opcode instr
    let imm16 := immEx instr
    let imm26 := jmpOffsetEx instr
    let funccode := func instr
    if op = ANDI then Outcome.ok (reserv.Vj &&& imm16)
    else if op = ADDI then Outcome.ok (wadd reserv.Vj imm16)
    else if op = RR_ALU then
      if funccode = FUNC_ADD then Outcome.ok (wadd reserv.Vj reserv.Vk)
      else if funccode = FUNC_SUB then Outcome.ok (wsub reserv.Vj reserv.Vk)
      else if funccode = FUNC_AND then Outcome.ok (reserv.Vj &&& reserv.Vk)
      else Outcome.undef
    else if op = LW then
      match idx? 10000 (wadd reserv.Vj imm16) with
      | none => Outcome.undef
      | some a => Outcome.ok (s.memory a)
    else if op = SW then Outcome.ok reserv.Vk
    else if op = BEQZ then Outcome.ok reserv.Vj
    else if op = J then Outcome.ok imm26
    else Outcome.ok 0

/-- The commit phase of `nextStep`: the flag tells whether a `HALT` was retired, in which
case `nextStep` returns `true` at once. -/
def commitPhase (rnd : Fin 8) (s : MachineState) : Outcome (Bool × MachineState) :=
  match robHead s with
  | none => Outcome.ok (false, s)
  | some head =>
    match idx? 16 head with
    | none => Outcome.undef
    | some i =>
      let robEntry := s.rob i
      if robEntry.busy = true ∧ robEntry.valid = true ∧ robEntry.instrStatus = COMMITTING then
        if opcode robEntry.instr ≠ HALT then
          (commitInstr rnd s head).bind fun s1 => Outcome.ok (false, s1)
        else
          (robPop s).bind fun p => Outcome.ok (true, p.2)
      else Outcome.ok (false, s)

/-- One iteration of the processing loop of `nextStep`, on ROB slot `robIdx`. -/
def advanceEntry (s : MachineState) (robIdx : Fin 16) : Outcome MachineState :=
  let robEntry := s.rob robIdx
  let unit := robEntry.execUnit
  match idx? 7 unit with
  | none => Outcome.undef
  | some u =>
    let reserv := s.reservation u
    let instr := robEntry.instr
    if robEntry.busy = true then
      if robEntry.instrStatus = EXECUTING then
        if reserv.exTimeLeft ≠ 0 then
          let r : ResStation := { reserv with exTimeLeft := wsub reserv.exTimeLeft 1 }
          Outcome.ok { s with reservation := setIdx s.reservation u r }
        else
          let e1 : ROBEntry := { robEntry with instrStatus := WRITING_RESULT }
          let e2 : ROBEntry :=
            if opcode instr = SW then { e1 with address := wadd reserv.Vj (immEx instr) } else e1
          let s1 : MachineState := { s with rob := setIdx s.rob robIdx e2 }
          (getResult s1 unit).bind fun value =>
            let s2 := broadcastUpdate s1 unit value
            Outcome.ok { s2 with reservation := setIdx s2.reservation u ({} : ResStation) }
      else if robEntry.instrStatus = WRITING_RESULT then
        let e1 : ROBEntry := { robEntry with instrStatus := COMMITTING }
        Outcome.ok { s with rob := setIdx s.rob robIdx e1 }
      else if robEntry.instrStatus = ISSUING ∧ reserv.Qj = READY ∧ reserv.Qk = READY then
        let e1 : ROBEntry := { robEntry with instrStatus := EXECUTING }
        let r : ResStation := { reserv with exTimeLeft := wsub reserv.exTimeLeft 1 }
        Outcome.ok { s with rob := setIdx s.rob robIdx e1, reservation := setIdx s.reservation u r }
      else Outcome.ok s
    else Outcome.ok s

/-- The processing loop of `nextStep` over the ROB slots still to visit. -/
def advanceFrom : List (Fin 16) → MachineState → Outcome MachineState
  | [], s => Outcome.ok s
  | robIdx :: rest, s => (advanceEntry s robIdx).bind (advanceFrom rest)

/-- The advance phase of `nextStep`: the loop over ROB indices `0..15`. -/
def advancePhase (s : MachineState) : Outcome MachineState :=
  advanceFrom (List.finRange 16) s

/-- The value `INVALID = (word)-1`. -/
abbrev INVALID : Nat := 4294967295

/-- The station choice of the issue phase: the first non-busy station among `a`, `b`,
else `INVALID`. -/
def pickUnit (s : MachineState) (a b : Fin 7) : Nat :=
  if (s.reservation a).busy = false then a.val
  else if (s.reservation b).busy = false then b.val
  else INVALID

/-- The station-choice `switch` of the issue phase: a station of the pool of the opcode
(possibly `INVALID`), or `none` for the `default` branch, which throws. -/
def chooseUnit (s : MachineState) (op : Nat) : Option Nat :=
  if op = RR_ALU ∨ op = SW ∨ op = ADDI ∨ op = ANDI ∨ op = J ∨ op = HALT ∨ op = NOOP
      ∨ op = BEQZ then
    some (pickUnit s 5 6)
  else if op = LW then some (pickUnit s 1 2)
  else none

/-- The pc update that follows `issueInstr` in the issue phase, for the instruction `instr`
just issued into ROB slot `robIdx`. -/
def afterIssue (s : MachineState) (instr robIdx : Nat) : Outcome (Bool × MachineState) :=
  if opcode instr = BEQZ then
    match idx? 16 robIdx with
    | none => Outcome.undef
    | some i =>
      let pc1 := getTarget s s.pc
      let e : ROBEntry := { s.rob i with address := pc1 }
      Outcome.ok (false, { s with pc := pc1, rob := setIdx s.rob i e })
  else if opcode instr = J then
    Outcome.ok (false, { s with pc := wadd s.pc (wadd (jmpOffsetEx instr) 1) })
  else if s.pc < wsub s.memorySize 1 then
    Outcome.ok (false, { s with pc := wadd s.pc 1 })
  else Outcome.ok (false, s)

/-- The issue phase of `nextStep`. -/
def issuePhase (s : MachineState) : Outcome (Bool × MachineState) :=
  if s.pc ≥ s.memorySize then Outcome.ok (false, s)
  else
    match idx? 10000 s.pc with
    | none => Outcome.undef
    | some a =>
      let instr := s.memory a
      let op := opcode instr
      match chooseUnit s op with
      | none => Outcome.raised op s.pc s
      | some unit =>
        if unit ≠ INVALID then
          match robPush s with
          | (none, s1) => Outcome.ok (false, s1)
          | (some robIdx, s1) =>
            (issueInstr s1 s1.pc unit robIdx).bind fun s2 => afterIssue s2 instr robIdx
        else Outcome.ok (false, s)

/-- One clock tick, `nextStep`: the returned flag is `true` iff a `HALT` was retired. -/
def nextStep (rnd : Fin 8) (s : MachineState) : Outcome (Bool × MachineState) :=
  (commitPhase rnd { s with cycles := wadd s.cycles 1 }).bind fun r =>
    if r.1 = true then Outcome.ok (true, r.2)
    else (advancePhase r.2).bind issuePhase

/-- The state after `n` successive calls of `nextStep` that all returned `false`, the `k`-th
call (from 0) drawing `rnd k`; `none` when one of these calls returned `true`, raised or was
undefined. -/
def idleSteps (rnd : Nat → Fin 8) : Nat → MachineState → Option MachineState
  | 0, s => some s
  | n + 1, s =>
    match idleSteps rnd n s with
    | none => none
    | some s1 =>
      match nextStep (rnd n) s1 with
      | Outcome.ok (false, s2) => some s2
      | _ => none

/-- Calling `nextStep` repeatedly on `s`, the call number `n` (from 0) is the first that
returns `true`, and it leaves the machine in state `t`. -/
def HaltsAt (rnd : Nat → Fin 8) (s : MachineState) (n : Nat) (t : MachineState) : Prop :=
  ∃ s1, idleSteps rnd n s = some s1 ∧ nextStep (rnd n) s1 = Outcome.ok (true, t)

/-- Loading a program: the words of `prog` at consecutive addresses from `pc`. -/
def loadProgram : List Nat → Nat → MachineState → Outcome MachineState
  | [], _, s => Outcome.ok s
  | w :: rest, pc, s => (loadInstr s pc w).bind (loadProgram rest (pc + 1))

/-- The encoding of an I-type instruction: opcode, `reg1`, `reg2` and a 16-bit immediate. -/
def encodeI (op r1 r2 imm : Nat) : Nat :=
  op * 67108864 + r1 * 2097152 + r2 * 65536 + imm

/-- The state a scenario starts from: the words of `prog` loaded from address 16 into `s`, and
`memorySize` set to the address one past the last instruction. -/
def startState (prog : List Nat) (s : MachineState) : Outcome MachineState :=
  (loadProgram prog 16 s).bind fun s1 => Outcome.ok (setMemorySize s1 (16 + prog.length))

/-- What is seen of a run from `init`: the flag returned by call number `n` (from 0) of
`nextStep`, the `n` calls before it having all returned `false`, and the observation `f` of
the state that call leaves. -/
def observeCall {α : Type} (rnd : Nat → Fin 8) (n : Nat) (init : Outcome MachineState)
    (f : MachineState → α) : Option (Bool × α) :=
  match init with
  | Outcome.ok s =>
    match idleSteps rnd n s with
    | some s1 =>
      match nextStep (rnd n) s1 with
      | Outcome.ok (b, t) => some (b, f t)
      | _ => none
    | none => none
  | _ => none

/-- Scenario 1, `NOOP` then `HALT`. -/
def noopHaltProgram : List Nat := [NOOP_INSTR, encodeI HALT 0 0 0]

/-- Scenario 3, `LW r1, 0(r0)`; `SW r1, 1(r0)`; `HALT`. -/
def lwSwProgram : List Nat := [encodeI LW 0 1 0, encodeI SW 0 1 1, encodeI HALT 0 0 0]

/-- The start state of scenario 3 with the memory word at address 0 equal to `v`. -/
def lwSwStart (v : Nat) : Outcome MachineState :=
  startState lwSwProgram { newMachineState with memory := setIdx newMachineState.memory 0 v }

/-- Scenario 5: `ADDI r1, r0, 0`; `BEQZ r1` with immediate 1 (target 19); `ADDI r2, r0, 99`;
`ADDI r3, r0, 7`; `HALT`. -/
def beqzProgram : List Nat :=
  [encodeI ADDI 0 1 0, encodeI BEQZ 1 0 1, encodeI ADDI 0 2 99, encodeI ADDI 0 3 7,
   encodeI HALT 0 0 0]

/-- Whether BTB slot `i` is valid and records the branch at `branchPc`. -/
def btbHolds (s : MachineState) (branchPc : Nat) (i : Fin 8) : Bool :=
  (s.btb i).valid && decide ((s.btb i).branchPc = branchPc)

/-- Scenario 3 as observed: call number 9 is the first to return `true`, and it leaves
`memory[1]` and `regFile[1]` equal to `p.2`, the word placed at address 0. -/
def LwSwObserved (p : (Nat → Fin 8) × Nat) : Prop :=
  observeCall p.1 9 (lwSwStart p.2) (fun t => (t.memory 1, t.regFile 1)) = some (true, (p.2, p.2))

/-- Scenario 5 as observed: call number 12 is the first to return `true`, and it leaves
`regFile[2] = 0`, `regFile[3] = 7` and the branch at 17 recorded in BTB slot 7 only. -/
def BeqzObserved (rnd : Nat → Fin 8) : Prop :=
  observeCall rnd 12 (startState beqzProgram newMachineState)
    (fun t => (t.regFile 2, t.regFile 3, (List.finRange 8).map (btbHolds t 17)))
    = some (true, (0, 7, [false, false, false, false, false, false, false, true]))

/-- Scenario 1 as observed: the calls number 0 to 7 all return `false`, and after them every
register is zero. -/
def NoopHaltObserved (rnd : Nat → Fin 8) : Prop :=
  observeCall rnd 7 (startState noopHaltProgram newMachineState)
    (fun t => (List.finRange 32).all fun r => decide (t.regFile r = 0)) = some (false, true)

/-- An outcome that is not a raised `TomasuloError`. -/
def Outcome.NoRaise {α : Type} (x : Outcome α) : Prop :=
  ∀ op pc t, x ≠ Outcome.raised op pc t

/-- The opcodes the simulator recognises. -/
def recognised : List Nat := [RR_ALU, HALT, J, NOOP, BEQZ, ADDI, ANDI, LW, SW]

/-- A state whose ROB holds the single entry `e`, at the head (slot 0), everything else being
as in `newMachineState`. -/
def headState (e : ROBEntry) : MachineState :=
  { newMachineState with robTailIdx := 1, rob := setIdx newMachineState.rob 0 e }

/-- A ROB entry that is busy, valid and `COMMITTING`, holding `instr` fetched at pc 16 and
executed on `INT1`, with the given `result` and `address`. -/
def committable (instr result address : Nat) : ROBEntry :=
  { busy := true, valid := true, pc := 16, instr := instr, execUnit := INT1,
    instrStatus := COMMITTING, result := result, address := address }

/-- The head holds `ADDI r1, r0, 5` with result 5, ready to commit. -/
def addiHead : MachineState := headState (committable (encodeI ADDI 0 1 5) 5 0)

/-- The head holds a `BEQZ r1` with immediate 1 fetched at 16 (target 18) whose tested value
is 0, so that it is taken, and whose speculative next pc was 17: a misprediction. -/
def beqzHead : MachineState := headState (committable (encodeI BEQZ 1 0 1) 0 17)

/-- The head holds an `SW r1, 1(r0)` with datum 42 and target address 1, still attached to
its issue-time station `INT1`. -/
def swHead : MachineState := headState (committable (encodeI SW 0 1 1) 42 1)

/-- The head holds a `NOOP`, ready to commit. -/
def noopHead : MachineState := headState (committable NOOP_INSTR 0 0)

/-- The head holds a `J` with offset 2, ready to commit. -/
def jHead : MachineState := headState (committable (J * 67108864 + 2) 2 0)

/-- The misprediction test of the `BEQZ` commit on the head entry `e`. -/
def Mispredicted (e : ROBEntry) : Prop :=
  (e.result = 0 ∧ e.address ≠ (e.pc + 1 + immEx e.instr) % 4294967296) ∨
    (e.result ≠ 0 ∧ e.address ≠ (e.pc + 1) % 4294967296)

instance (e : ROBEntry) : Decidable (Mispredicted e) := by
  unfold Mispredicted
  infer_instance

/-- The station content the first phase of a store commit installs for the head entry `e`
at ROB index `robIdx`: busy, `Vj` the datum, `Vk` the target address, both tags `READY`,
one cycle left. -/
def storeStation (e : ROBEntry) (robIdx : Nat) : ResStation :=
  { busy := true, instr := e.instr, Vj := e.result, Vk := e.address, Qj := READY, Qk := READY,
    exTimeLeft := 1, robIdx := robIdx }

/-- The station `r` with `exTimeLeft` one less. -/
def decrement (r : ResStation) : ResStation :=
  { r with exTimeLeft := r.exTimeLeft - 1 }

/-- The ROB is non-empty and its head entry is busy, valid, `COMMITTING` and holds a `NOOP`
(with the tail index in range). -/
def StuckAtNoop (s : MachineState) : Prop :=
  s.robHeadIdx ≠ s.robTailIdx ∧ s.robTailIdx < 16 ∧
    ∃ i : Fin 16, i.val = s.robHeadIdx ∧ (s.rob i).busy = true ∧ (s.rob i).valid = true ∧
      (s.rob i).instrStatus = COMMITTING ∧ opcode (s.rob i).instr = NOOP

/-- Scenario 1 as observed at call number 3: it returns `false` and leaves the `NOOP` at the
head of the ROB (slot 0), busy, valid and `COMMITTING`, with the tail at 4. -/
def NoopStuckObserved (rnd : Nat → Fin 8) : Prop :=
  observeCall rnd 3 (startState noopHaltProgram newMachineState)
    (fun t => (t.robHeadIdx, t.robTailIdx, (t.rob 0).busy, (t.rob 0).valid,
      (t.rob 0).instrStatus, opcode (t.rob 0).instr))
    = some (false, (0, 4, true, true, COMMITTING, NOOP))

/-- The value the specification gives a captured source operand read from register `r`: the
architectural register when the register status is valid; otherwise the producer's result
when the producing ROB entry is valid, and the old content `old` of the `V` field when it
is not. -/
def sourceValue (s : MachineState) (r : Fin 32) (old : Nat) : Nat :=
  if (s.regResult r).valid then s.regFile r
  else
    match idx? 16 (s.regResult r).robIdx with
    | some p => if (s.rob p).valid then (s.rob p).result else old
    | none => old

/-- The tag the specification gives a captured source operand read from register `r`:
`READY` when the register status is valid or the producing ROB entry is valid, otherwise the
producer's `execUnit`. -/
def sourceTag (s : MachineState) (r : Fin 32) : Nat :=
  if (s.regResult r).valid then READY
  else
    match idx? 16 (s.regResult r).robIdx with
    | some p => if (s.rob p).valid then READY else (s.rob p).execUnit
    | none => READY

/-- The source register `r` can be captured at the issue into ROB slot `robIdx`: its status
is valid, or its producer slot is a ROB index other than the slot being allocated. -/
def SourceOk (s : MachineState) (robIdx : Nat) (r : Fin 32) : Prop :=
  (s.regResult r).valid = true ∨
    ((s.regResult r).robIdx < 16 ∧ (s.regResult r).robIdx ≠ robIdx)

/-- The reset machine with `LW r1, 0(r0)` stored at address 0. -/
def lwAtZero : MachineState :=
  { newMachineState with memory := setIdx newMachineState.memory 0 (encodeI LW 0 1 0) }

/-- The entry `updateBTB` installs for a branch seen for the first time. -/
def freshBTBEntry (branchPc targetPc : Nat) (taken : Bool) : BTBEntry :=
  { valid := true, branchPred := if taken then BHT.STRONGTAKEN else BHT.STRONGNOT,
    branchPc := branchPc, targetPc := targetPc }

/-- The ROB entry `e` as the write-result step of the advance phase leaves it before the
broadcast, `r` being its station: `WRITING_RESULT`, with the store address latched for `SW`. -/
def writeResultEntry (e : ROBEntry) (r : ResStation) : ROBEntry :=
  if opcode e.instr = SW then
    { e with instrStatus := WRITING_RESULT, address := wadd r.Vj (immEx e.instr) }
  else { e with instrStatus := WRITING_RESULT }

/-- The fields of the state outside the ROB entries and the reservation stations are the
same in `s` and `t`. -/
def SameOutside (s t : MachineState) : Prop :=
  t.pc = s.pc ∧ t.cycles = s.cycles ∧ t.robHeadIdx = s.robHeadIdx ∧
    t.robTailIdx = s.robTailIdx ∧ t.memorySize = s.memorySize ∧ t.btb = s.btb ∧
    t.regResult = s.regResult ∧ t.memory = s.memory ∧ t.regFile = s.regFile

/-- The head holds `ADDI r1, r0, 5` with result 5 written but not yet `COMMITTING`. -/
def pendingHead : MachineState :=
  headState { committable (encodeI ADDI 0 1 5) 5 0 with instrStatus := WRITING_RESULT }

/-- The state `pendingHead` one tick later: the entry has moved to `COMMITTING`. -/
def pendingNext : MachineState :=
  { pendingHead with
    cycles := 1,
    rob := setIdx pendingHead.rob 0 { pendingHead.rob 0 with instrStatus := COMMITTING } }

/-- The states reachable from `newMachineState` by calls of `loadInstr`, `setMemorySize` and
`nextStep` that return (without raising, every array access being in range). -/
inductive Reachable : MachineState → Prop where
  | init : Reachable newMachineState
  | load {s t : MachineState} (pc instr : Nat) :
      Reachable s → loadInstr s pc instr = Outcome.ok t → Reachable t
  | size {s : MachineState} (n : Nat) : Reachable s → Reachable (setMemorySize s n)
  | step {s t : MachineState} (rnd : Fin 8) (b : Bool) :
      Reachable s → nextStep rnd s = Outcome.ok (b, t) → Reachable t

/-- A commit phase that pops nothing: the queue indices stay, a ROB entry changes at most in
a `COMMITTING` entry that keeps its status, `busy` and `valid` flags (the store moved to a
store station), and a station changes at most in `STORE1` or `STORE2`, which is given one
cycle or has its non-zero `exTimeLeft` decremented. -/
def CommitKeep (s t : MachineState) : Prop :=
  t.robHeadIdx = s.robHeadIdx ∧ t.robTailIdx = s.robTailIdx ∧
  (∀ j : Fin 16, t.rob j = s.rob j ∨
    ((s.rob j).instrStatus = COMMITTING ∧ (t.rob j).instrStatus = COMMITTING ∧
      (t.rob j).busy = (s.rob j).busy ∧ (t.rob j).valid = (s.rob j).valid)) ∧
  (∀ k : Fin 7, t.reservation k = s.reservation k ∨
    ((k.val = 3 ∨ k.val = 4) ∧ ((t.reservation k).exTimeLeft = 1 ∨
      ((s.reservation k).exTimeLeft ≠ 0 ∧
        (t.reservation k).exTimeLeft = wsub (s.reservation k).exTimeLeft 1))))

/-- A commit phase that pops the busy head `i` of a non-empty ROB: the head index advances,
the entry is cleared, and a station changes at most in `STORE1` or `STORE2`, which is
cleared. -/
def CommitPop (s t : MachineState) : Prop :=
  ∃ i : Fin 16, i.val = s.robHeadIdx ∧ s.robHeadIdx ≠ s.robTailIdx ∧ (s.rob i).busy = true ∧
    t.robHeadIdx = (s.robHeadIdx + 1) % 16 ∧ t.robTailIdx = s.robTailIdx ∧
    t.rob = setIdx s.rob i {} ∧
    ∀ k : Fin 7, t.reservation k = s.reservation k ∨
      ((k.val = 3 ∨ k.val = 4) ∧ t.reservation k = {})

/-- A commit phase that squashes: the ROB and the stations are reset. -/
def CommitReset (t : MachineState) : Prop :=
  t.robHeadIdx = 0 ∧ t.robTailIdx = 0 ∧ (∀ j : Fin 16, t.rob j = {}) ∧
    ∀ k : Fin 7, t.reservation k = {}

/-- The ROB queue invariant: both indices are in `[0, 16)` and the busy entries are exactly
those whose index lies in the circular range from `robHeadIdx` (inclusive) to `robTailIdx`
(exclusive). -/
def RobInv (s : MachineState) : Prop :=
  s.robHeadIdx < 16 ∧ s.robTailIdx < 16 ∧
    ∀ i : Fin 16, (s.rob i).busy = true ↔
      (i.val + 16 - s.robHeadIdx) % 16 < (s.robTailIdx + 16 - s.robHeadIdx) % 16

/-- The number of busy ROB entries. -/
def busyCount (s : MachineState) : Nat :=
  ((List.finRange 16).filter fun i => (s.rob i).busy).length

/-- A branch that is not taken and predicted so: `ADDI r1, r0, 5`; `BEQZ r1` with immediate 1
and 2 in its `reg2` field; `HALT`. -/
def branchProgram : List Nat := [encodeI ADDI 0 1 5, encodeI BEQZ 1 2 1, encodeI HALT 0 0 0]

/-- The state the program `prog`, loaded at 16 into the reset machine, is in after `n` calls
of `nextStep` that returned `false` (the start state if there is no such run). -/
def runState (prog : List Nat) (n : Nat) : MachineState :=
  match startState prog newMachineState with
  | Outcome.ok s0 => (idleSteps (fun _ => 0) n s0).getD s0
  | _ => newMachineState

/-- The run of `branchProgram` as observed at call number 7, the call that commits the
`BEQZ`: it returns `false` and leaves `regResult[2]` invalid, naming ROB slot 1, which is
not busy. -/
def DanglingObserved (rnd : Nat → Fin 8) : Prop :=
  observeCall rnd 7 (startState branchProgram newMachineState)
    (fun t => ((t.regResult 2).valid, (t.regResult 2).robIdx, (t.rob 1).busy))
    = some (false, (false, 1, false))

/-- ROB entry `i` is in flight in the execution pipeline: busy and `ISSUING` or
`EXECUTING`. -/
def Active (s : MachineState) (i : Fin 16) : Prop :=
  (s.rob i).busy = true ∧
    ((s.rob i).instrStatus = ISSUING ∨ (s.rob i).instrStatus = EXECUTING)

/-- The invariant tying the ROB entries in flight to their reservation stations: such an
entry sits on one of `LOAD1`, `LOAD2`, `INT1`, `INT2`, has no result yet, its station is busy
and, while `ISSUING`, has at least one cycle left; no two entries in flight share a station;
no station has more than three cycles left; an entry that is not busy is not valid. -/
structure UnitInv (s : MachineState) : Prop where
  unit : ∀ i : Fin 16, Active s i →
    (s.rob i).execUnit = 1 ∨ (s.rob i).execUnit = 2 ∨ (s.rob i).execUnit = 5 ∨
      (s.rob i).execUnit = 6
  fresh : ∀ i : Fin 16, Active s i → (s.rob i).valid = false
  held : ∀ (i : Fin 16) (u : Fin 7), Active s i → u.val = (s.rob i).execUnit →
    (s.reservation u).busy = true
  timed : ∀ (i : Fin 16) (u : Fin 7), (s.rob i).busy = true →
    (s.rob i).instrStatus = ISSUING → u.val = (s.rob i).execUnit →
    1 ≤ (s.reservation u).exTimeLeft
  own : ∀ i j : Fin 16, Active s i → Active s j →
    (s.rob i).execUnit = (s.rob j).execUnit → i = j
  bound : ∀ u : Fin 7, (s.reservation u).exTimeLeft ≤ 3
  idle : ∀ i : Fin 16, (s.rob i).busy = false → (s.rob i).valid = false

/-- The state of `branchProgram` in the fourth tick, after its commit phase (which commits
nothing): the `ADDI` is `WRITING_RESULT` in slot 0, the `BEQZ` is `EXECUTING` on `INT2` with
two cycles left in slot 1, the `HALT` is `ISSUING` on `INT1` in slot 2. -/
def midTick : MachineState :=
  { runState branchProgram 3 with cycles := wadd (runState branchProgram 3).cycles 1 }

/-- The state the advance phase leaves from `s` (`s` itself if it does not return). -/
def advanced (s : MachineState) : MachineState :=
  match advancePhase s with
  | Outcome.ok t => t
  | _ => s

/-- A loop whose branch is taken once and then not taken: `ADDI r1, r0, 0` at 16; `BEQZ r1`
with immediate 1 (target 19) at 17; `HALT` at 18; `ADDI r1, r0, 1` at 19; `J` with offset -4
(back to 17) at 20. -/
def loopProgram : List Nat :=
  [encodeI ADDI 0 1 0, encodeI BEQZ 1 7 1, encodeI HALT 0 0 0, encodeI ADDI 0 1 1,
   J * 67108864 + 67108860]

/-- The state the commit phase of the next tick leaves from `s` (`s` itself if it does not
return). -/
def committed (rnd : Fin 8) (s : MachineState) : MachineState :=
  match commitPhase rnd { s with cycles := wadd s.cycles 1 } with
  | Outcome.ok r => r.2
  | _ => s

/-- Every reservation station that is not busy is the default, all-zero one. -/
def IdleZero (s : MachineState) : Prop :=
  ∀ u : Fin 7, (s.reservation u).busy = false → s.reservation u = {}

/-- The opcodes whose issue captures no second operand: the I-type ones, `HALT` and
`NOOP`. -/
def singleSource : List Nat := [ADDI, ANDI, LW, BEQZ, HALT, NOOP]

/-- The state the issue phase leaves from `s` (`s` itself if it does not return). -/
def issued (s : MachineState) : MachineState :=
  match issuePhase s with
  | Outcome.ok r => r.2
  | _ => s

/-- Every ROB entry in flight that holds an instruction without a second source operand has
`Qk = READY` and `Vk = 0` in its station. -/
def SingleReady (s : MachineState) : Prop :=
  ∀ (i : Fin 16) (u : Fin 7), Active s i → u.val = (s.rob i).execUnit →
    opcode (s.rob i).instr ∈ singleSource →
    (s.reservation u).Qk = READY ∧ (s.reservation u).Vk = 0

/-- The state of `branchProgram` in the second tick, after its commit and advance phases:
the `ADDI` is `EXECUTING` on `INT1`, `INT2` is free, and the `BEQZ` at 17 is about to be
issued. -/
def beforeIssue : MachineState := advanced (committed 0 (runState branchProgram 1))

/-- A producer and its consumer across the wrap-around of the ROB: fifteen `ADDI r3, r0, 0`
at 16 to 30 (ROB slots 0 to 14), `ADDI r1, r0, 5` at 31 (slot 15), `ADDI r2, r1, 1` at 32
(slot 0 again), `HALT` at 33. -/
def wrapProgram : List Nat :=
  List.replicate 15 (encodeI ADDI 0 3 0) ++
    [encodeI ADDI 0 1 5, encodeI ADDI 1 2 1, encodeI HALT 0 0 0]

/-- The state the issue phase leaves when it issues a word `m` with opcode `ADDI`, source
register `r1` (not renamed) and destination `r2` into station `u` and ROB slot `i`. -/
def issuedImmediate (s : MachineState) (i : Fin 16) (u : Fin 7) (m : Nat) (r1 r2 : Fin 32) :
    MachineState :=
  { s with
    robTailIdx := wadd s.robTailIdx 1 % ROBSIZE,
    rob := setIdx s.rob i { s.rob i with busy := true, instr := m, instrStatus := ISSUING, execUnit := u.val, pc := s.pc },
    regResult := setIdx s.regResult r2 { valid := false, robIdx := s.robTailIdx },
    reservation := setIdx s.reservation u { s.reservation u with busy := true, robIdx := s.robTailIdx, instr := m, exTimeLeft := INTEXEC, Qj := READY, Vj := s.regFile r1 },
    pc := wadd s.pc 1 }

/-- The state one iteration of the advance loop leaves when the entry in slot `i`, on station
`u`, writes the result `value` back (an opcode other than `SW`). -/
def wroteBack (s : MachineState) (i : Fin 16) (u : Fin 7) (value : Nat) : MachineState :=
  { s with
    rob := fun j => broadcastROB (s.rob i).execUnit value (setIdx s.rob i { s.rob i with instrStatus := WRITING_RESULT } j),
    reservation := setIdx (fun k => broadcastStation (s.rob i).execUnit value (s.reservation k)) u {} }

/-- The state the commit of a register-writing head entry (slot `i`, destination `rd`)
leaves. -/
def retiredRegister (s : MachineState) (i : Fin 16) (rd : Fin 32) : MachineState :=
  { s with
    regFile := setIdx s.regFile rd (s.rob i).result,
    regResult := if (s.regResult rd).robIdx = s.robHeadIdx then setIdx s.regResult rd {} else s.regResult,
    rob := setIdx s.rob i {},
    robHeadIdx := (s.robHeadIdx + 1) % 16 }



/-- The address the programs are loaded at, as an index into `memory`. -/
def entryPoint : Fin 10000 := 16

/-- The ROB slot 0. -/
def firstSlot : Fin 16 := 0

/-- The station `INT1`. -/
def int1Station : Fin 7 := 5

/-- The register `r0`. -/
def regZero : Fin 32 := 0

/-- The register `r1`. -/
def regOne : Fin 32 := 1

/-- The register `r2`. -/
def regTwo : Fin 32 := 2

/-- The data address `a < 16` as an index into `memory`. -/
def dataCell (a : Fin 16) : Fin 10000 := Fin.castLE (by decide) a

/-- The program of the store-then-load scenario with `w` as its first word: `w` at 16,
`SW r1, a(r0)` at 17, `LW r2, a(r0)` at 18, `HALT` at 19. -/
def storeLoadWords (w a : Nat) : List Nat :=
  [w, encodeI SW 0 1 a, encodeI LW 0 2 a, encodeI HALT 0 0 0]

/-- The store-then-load scenario: `ADDI r1, r0, v` at 16, `SW r1, a(r0)` at 17,
`LW r2, a(r0)` at 18, `HALT` at 19. -/
def storeLoadProgram (v a : Nat) : List Nat := storeLoadWords (encodeI ADDI 0 1 v) a

/-- The state `startState` leaves for `prog` on the reset machine. -/
def loaded (prog : List Nat) : MachineState :=
  match startState prog newMachineState with
  | Outcome.ok s => s
  | _ => newMachineState

/-- The state at the start of a tick, once `cycles` is incremented. -/
def ticked (s : MachineState) : MachineState := { s with cycles := wadd s.cycles 1 }

/-- The state one call of `nextStep` leaves. -/
def stepped (rnd : Fin 8) (s : MachineState) : MachineState :=
  match nextStep rnd s with
  | Outcome.ok r => r.2
  | _ => s

/-- The state the advance loop over the slots of `l`, then the issue phase, leave. -/
def finished (l : List (Fin 16)) (s : MachineState) : MachineState :=
  match (advanceFrom l s).bind issuePhase with
  | Outcome.ok r => r.2
  | _ => s

/-- The ROB slots the advance loop visits after slot 0. -/
def laterSlots : List (Fin 16) := [1, 2, 3, 4, 5, 6, 7, 8, 9, 10, 11, 12, 13, 14, 15]

/-- The store-then-load run from the first word `w` after call 0, which issues `w` as an
`ADDI r1, r0, _` into `INT1` and ROB slot 0. -/
def storeLoadIssued (w a : Nat) : MachineState :=
  issuedImmediate (ticked (loaded (storeLoadWords w a))) firstSlot int1Station (w % WORD)
    regZero regOne

/-- The run after the commit phase of call 2. -/
def storeLoadBeforeWrite (rnd : Nat → Fin 8) (w a : Nat) : MachineState :=
  committed (rnd 2) (stepped (rnd 1) (storeLoadIssued w a))

/-- The run inside call 2, once slot 0 has written back the result `0 + x`, `x` being the
extended immediate of `w`. -/
def storeLoadWritten (rnd : Nat → Fin 8) (w x a : Nat) : MachineState :=
  wroteBack (storeLoadBeforeWrite rnd w a) firstSlot int1Station
    (wadd ((storeLoadBeforeWrite rnd w a).reservation int1Station).Vj x)

/-- The run after call 3. -/
def storeLoadBeforeRetire (rnd : Nat → Fin 8) (w x a : Nat) : MachineState :=
  stepped (rnd 3) (finished laterSlots (storeLoadWritten rnd w x a))

/-- The run after the commit phase of call 4, which retires slot 0 into `r1`. -/
def storeLoadRetired (rnd : Nat → Fin 8) (w x a : Nat) : MachineState :=
  retiredRegister (ticked (storeLoadBeforeRetire rnd w x a)) firstSlot regOne

/-- The state of the store-then-load run after call `5 + n`. -/
def storeLoadAfter (rnd : Nat → Fin 8) (w x a : Nat) : Nat → MachineState
  | 0 => finished (List.finRange 16) (storeLoadRetired rnd w x a)
  | n + 1 => stepped (rnd (n + 5)) (storeLoadAfter rnd w x a n)

/-- The store-then-load run tick by tick, from the first word `p.2.1`, whose immediate
extends to `p.2.2`, and the address `a`. -/
def StoreLoadTrace (p : (Nat → Fin 8) × Nat × Nat) (a : Fin 16) : Prop :=
  let s0 := loaded (storeLoadWords p.2.1 a.val)
  let s2 := storeLoadBeforeWrite p.1 p.2.1 a.val
  let s4 := storeLoadBeforeRetire p.1 p.2.1 p.2.2 a.val
  startState (storeLoadWords p.2.1 a.val) newMachineState = Outcome.ok s0 ∧
  commitPhase (p.1 0) (ticked s0) = Outcome.ok (false, ticked s0) ∧
  advancePhase (ticked s0) = Outcome.ok (ticked s0) ∧
  (entryPoint.val = (ticked s0).pc ∧ (ticked s0).pc = 16 ∧ (ticked s0).memorySize = 20 ∧
    (ticked s0).memory entryPoint = p.2.1 % WORD ∧
    chooseUnit (ticked s0) ADDI = some int1Station.val ∧ (ticked s0).robHeadIdx = 0 ∧
    (ticked s0).robTailIdx = 0 ∧ firstSlot.val = (ticked s0).robTailIdx ∧
    ((ticked s0).regResult regZero).valid = true) ∧
  nextStep (p.1 1) (storeLoadIssued p.2.1 a.val) =
    Outcome.ok (false, stepped (p.1 1) (storeLoadIssued p.2.1 a.val)) ∧
  commitPhase (p.1 2) (ticked (stepped (p.1 1) (storeLoadIssued p.2.1 a.val))) =
    Outcome.ok (false, s2) ∧
  (int1Station.val = (s2.rob firstSlot).execUnit ∧ (s2.rob firstSlot).busy = true ∧
    (s2.rob firstSlot).instrStatus = EXECUTING ∧ (s2.reservation int1Station).exTimeLeft = 0 ∧
    (s2.rob firstSlot).instr = p.2.1 % WORD ∧ (s2.reservation int1Station).instr = p.2.1 % WORD) ∧
  (advanceFrom laterSlots (storeLoadWritten p.1 p.2.1 p.2.2 a.val)).bind issuePhase =
    Outcome.ok (false, finished laterSlots (storeLoadWritten p.1 p.2.1 p.2.2 a.val)) ∧
  nextStep (p.1 3) (finished laterSlots (storeLoadWritten p.1 p.2.1 p.2.2 a.val)) =
    Outcome.ok (false, s4) ∧
  (firstSlot.val = (ticked s4).robHeadIdx ∧ (ticked s4).robHeadIdx = 0 ∧
    (ticked s4).robTailIdx = 4 ∧ ((ticked s4).rob firstSlot).busy = true ∧
    ((ticked s4).rob firstSlot).valid = true ∧
    ((ticked s4).rob firstSlot).instrStatus = COMMITTING ∧
    ((ticked s4).rob firstSlot).instr = p.2.1 % WORD) ∧
  (advancePhase (storeLoadRetired p.1 p.2.1 p.2.2 a.val)).bind issuePhase =
    Outcome.ok (false, storeLoadAfter p.1 p.2.1 p.2.2 a.val 0) ∧
  nextStep (p.1 5) (storeLoadAfter p.1 p.2.1 p.2.2 a.val 0) =
    Outcome.ok (false, storeLoadAfter p.1 p.2.1 p.2.2 a.val 1) ∧
  nextStep (p.1 6) (storeLoadAfter p.1 p.2.1 p.2.2 a.val 1) =
    Outcome.ok (false, storeLoadAfter p.1 p.2.1 p.2.2 a.val 2) ∧
  nextStep (p.1 7) (storeLoadAfter p.1 p.2.1 p.2.2 a.val 2) =
    Outcome.ok (false, storeLoadAfter p.1 p.2.1 p.2.2 a.val 3) ∧
  nextStep (p.1 8) (storeLoadAfter p.1 p.2.1 p.2.2 a.val 3) =
    Outcome.ok (false, storeLoadAfter p.1 p.2.1 p.2.2 a.val 4) ∧
  nextStep (p.1 9) (storeLoadAfter p.1 p.2.1 p.2.2 a.val 4) =
    Outcome.ok (true, storeLoadAfter p.1 p.2.1 p.2.2 a.val 5) ∧
  (storeLoadAfter p.1 p.2.1 p.2.2 a.val 5).memory (dataCell a) = wadd 0 p.2.2 ∧
  (storeLoadAfter p.1 p.2.1 p.2.2 a.val 5).regFile regOne = wadd 0 p.2.2 ∧
  (storeLoadAfter p.1 p.2.1 p.2.2 a.val 5).regFile regTwo = 0

/-! ## Theorems -/

/-! ### Outcomes and checked indices -/

theorem idx?_eq_some_iff {n k : Nat} {i : Fin n} : idx? n k = some i ↔ i.val = k := by
  unfold idx?
  by_cases h : k < n
  · rw [dif_pos h]
    constructor
    · intro h1
      rw [← Option.some.inj h1]
    · intro h1
      exact congrArg some (Fin.ext h1.symm)
  · rw [dif_neg h]
    constructor
    · intro h1
      cases h1
    · intro h1
      exact absurd (h1 ▸ i.isLt) h

theorem idx?_val {n : Nat} (i : Fin n) : idx? n i.val = some i := idx?_eq_some_iff.mpr rfl

theorem Outcome.bind_eq_ok_iff {α β : Type} {x : Outcome α} {f : α → Outcome β} {b : β} :
    x.bind f = Outcome.ok b ↔ ∃ a, x = Outcome.ok a ∧ f a = Outcome.ok b := by
  cases x <;> simp [Outcome.bind]

theorem Outcome.bind_eq_raised_iff {α β : Type} {x : Outcome α} {f : α → Outcome β}
    {op pc : Nat} {t : MachineState} :
    x.bind f = Outcome.raised op pc t ↔
      x = Outcome.raised op pc t ∨ ∃ a, x = Outcome.ok a ∧ f a = Outcome.raised op pc t := by
  cases x <;> simp [Outcome.bind]

theorem afterIssue_flag {s t : MachineState} {instr robIdx : Nat} {b : Bool}
    (h : afterIssue s instr robIdx = Outcome.ok (b, t)) : b = false := by
  unfold afterIssue at h
  split_ifs at h
  · cases hi : idx? 16 robIdx with
    | none => simp [hi] at h
    | some i => simp [hi] at h; exact h.1
  all_goals (simp at h; exact h.1)

theorem issuePhase_flag {s t : MachineState} {b : Bool}
    (h : issuePhase s = Outcome.ok (b, t)) : b = false := by
  unfold issuePhase at h
  split_ifs at h with h1
  · simp at h; exact h.1
  · cases ha : idx? 10000 s.pc with
    | none => simp [ha] at h
    | some a =>
      simp only [ha] at h
      cases hu : chooseUnit s (opcode (s.memory a)) with
      | none => simp [hu] at h
      | some unit =>
        simp only [hu] at h
        split_ifs at h with h2
        · rcases hp : robPush s with ⟨_ | robIdx, s1⟩
          · simp [hp] at h; exact h.1
          · simp only [hp] at h
            obtain ⟨s2, _, h3⟩ := Outcome.bind_eq_ok_iff.mp h
            exact afterIssue_flag h3
        · simp at h; exact h.1


theorem robPop_of_ne {s : MachineState} (i : Fin 16) (hi : i.val = s.robHeadIdx)
    (hne : s.robHeadIdx ≠ s.robTailIdx) :
    robPop s = Outcome.ok (some s.robHeadIdx,
      { s with rob := setIdx s.rob i {}, robHeadIdx := (s.robHeadIdx + 1) % 16 }) := by
  have hlt : s.robHeadIdx < 16 := hi ▸ i.isLt
  have hw : wadd s.robHeadIdx 1 % ROBSIZE = (s.robHeadIdx + 1) % 16 := by
    show (s.robHeadIdx + 1) % 4294967296 % 16 = (s.robHeadIdx + 1) % 16
    omega
  unfold robPop
  rw [if_neg hne, idx?_eq_some_iff.mpr hi, hw]

theorem commitPhase_true_iff (rnd : Fin 8) (s t : MachineState) :
    commitPhase rnd s = Outcome.ok (true, t) ↔
      s.robHeadIdx ≠ s.robTailIdx ∧
      ∃ i : Fin 16, i.val = s.robHeadIdx ∧
        (s.rob i).busy = true ∧ (s.rob i).valid = true ∧ (s.rob i).instrStatus = COMMITTING ∧
        opcode (s.rob i).instr = HALT ∧
        t = { s with rob := setIdx s.rob i {}, robHeadIdx := (s.robHeadIdx + 1) % 16 } := by
  unfold commitPhase robHead
  by_cases hne : s.robHeadIdx = s.robTailIdx
  · simp [hne]
  · rw [if_neg hne]
    dsimp only
    cases hi : idx? 16 s.robHeadIdx with
    | none =>
      constructor
      · intro h
        cases h
      · rintro ⟨-, i, hi2, -⟩
        rw [idx?_eq_some_iff.mpr hi2] at hi
        cases hi
    | some i =>
      have hi2 : i.val = s.robHeadIdx := idx?_eq_some_iff.mp hi
      dsimp only
      by_cases hc : (s.rob i).busy = true ∧ (s.rob i).valid = true ∧
          (s.rob i).instrStatus = COMMITTING
      · rw [if_pos hc]
        by_cases hop : opcode (s.rob i).instr = HALT
        · rw [if_neg (not_not.mpr hop), robPop_of_ne i hi2 hne]
          simp only [Outcome.bind, Outcome.ok.injEq, Prod.mk.injEq, true_and]
          constructor
          · intro h
            exact ⟨hne, i, hi2, hc.1, hc.2.1, hc.2.2, hop, h.symm⟩
          · rintro ⟨-, j, hj, -, -, -, -, rfl⟩
            have : j = i := Fin.ext (hj.trans hi2.symm)
            rw [this]
        · rw [if_pos hop]
          constructor
          · intro h
            obtain ⟨a, -, h2⟩ := Outcome.bind_eq_ok_iff.mp h
            simp at h2
          · rintro ⟨-, j, hj, -, -, -, hop2, -⟩
            have : j = i := Fin.ext (hj.trans hi2.symm)
            rw [this] at hop2
            exact absurd hop2 hop
      · rw [if_neg hc]
        constructor
        · intro h
          simp at h
        · rintro ⟨-, j, hj, h1, h2, h3, -⟩
          have : j = i := Fin.ext (hj.trans hi2.symm)
          rw [this] at h1 h2 h3
          exact absurd ⟨h1, h2, h3⟩ hc

/-- C1: `nextStep` returns `true`, leaving state `t`, if and only if at the start of the
tick the ROB is non-empty and its head entry is busy, valid, `COMMITTING` and holds a `HALT`;
and then `t` is the start state with `cycles` incremented, the head entry cleared to its default
value and `robHeadIdx` advanced by one modulo 16, every other field being unchanged. -/
theorem nextStep_true_iff (rnd : Fin 8) (s t : MachineState) :
    nextStep rnd s = Outcome.ok (true, t) ↔
      s.robHeadIdx ≠ s.robTailIdx ∧
      ∃ i : Fin 16, i.val = s.robHeadIdx ∧
        (s.rob i).busy = true ∧ (s.rob i).valid = true ∧ (s.rob i).instrStatus = COMMITTING ∧
        opcode (s.rob i).instr = HALT ∧
        t = { s with
              cycles := (s.cycles + 1) % 4294967296,
              rob := setIdx s.rob i {},
              robHeadIdx := (s.robHeadIdx + 1) % 16 } := by
  have key : nextStep rnd s = Outcome.ok (true, t) ↔
      commitPhase rnd { s with cycles := wadd s.cycles 1 } = Outcome.ok (true, t) := by
    unfold nextStep
    constructor
    · intro h
      obtain ⟨r, h1, h2⟩ := Outcome.bind_eq_ok_iff.mp h
      by_cases hr : r.1 = true
      · rw [if_pos hr] at h2
        rw [h1]
        cases h2
        rw [← hr]
      · rw [if_neg hr] at h2
        obtain ⟨s2, -, h3⟩ := Outcome.bind_eq_ok_iff.mp h2
        exact absurd (issuePhase_flag h3) (by simp)
    · intro h
      rw [h]
      rfl
  rw [key, commitPhase_true_iff]
  rfl

/-! ### Runs of the test scenarios

The scenarios are settled by evaluating the model.  A run that holds for every random draw
and every datum is evaluated once, at the input that `Classical.epsilon` picks among the
counterexamples: that input is a term without structure, so the evaluation succeeds only if
no branch of the run inspects it, and the property then holds at every input. -/

theorem forall_of_generic {α : Type} [Nonempty α] (P : α → Prop)
    (h : P (Classical.epsilon fun a => ¬ P a)) : ∀ a, P a := by
  intro a
  by_contra hne
  exact Classical.epsilon_spec (p := fun a => ¬ P a) ⟨a, hne⟩ h

theorem idleSteps_succ {rnd : Nat → Fin 8} {n : Nat} {s t : MachineState}
    (h : idleSteps rnd (n + 1) s = some t) :
    ∃ s1, idleSteps rnd n s = some s1 ∧ nextStep (rnd n) s1 = Outcome.ok (false, t) := by
  unfold idleSteps at h
  cases h1 : idleSteps rnd n s with
  | none => rw [h1] at h; cases h
  | some s1 =>
    rw [h1] at h
    dsimp only at h
    cases h2 : nextStep (rnd n) s1 with
    | ok r =>
      obtain ⟨b, t2⟩ := r
      rw [h2] at h
      cases b with
      | false =>
        dsimp only at h
        cases h
        exact ⟨s1, rfl, h2⟩
      | true => cases h
    | raised op pc s2 => rw [h2] at h; cases h
    | undef => rw [h2] at h; cases h

theorem idleSteps_prefix {rnd : Nat → Fin 8} {s : MachineState} :
    ∀ {m : Nat} {t : MachineState}, idleSteps rnd m s = some t →
      ∀ n, n < m → ∃ s1 t1, idleSteps rnd n s = some s1 ∧
        nextStep (rnd n) s1 = Outcome.ok (false, t1) := by
  intro m
  induction m with
  | zero => intro t _ n hn; omega
  | succ m ih =>
    intro t h n hn
    obtain ⟨s1, h1, h2⟩ := idleSteps_succ h
    by_cases hnm : n = m
    · subst hnm
      exact ⟨s1, t, h1, h2⟩
    · exact ih h1 n (by omega)

theorem observeCall_eq_some {α : Type} {rnd : Nat → Fin 8} {n : Nat}
    {init : Outcome MachineState} {f : MachineState → α} {b : Bool} {a : α}
    (h : observeCall rnd n init f = some (b, a)) :
    ∃ s0, init = Outcome.ok s0 ∧ ∃ s1 t, idleSteps rnd n s0 = some s1 ∧
      nextStep (rnd n) s1 = Outcome.ok (b, t) ∧ f t = a := by
  unfold observeCall at h
  cases init with
  | ok s0 =>
    refine ⟨s0, rfl, ?_⟩
    dsimp only at h
    cases h1 : idleSteps rnd n s0 with
    | none => rw [h1] at h; cases h
    | some s1 =>
      rw [h1] at h
      dsimp only at h
      cases h2 : nextStep (rnd n) s1 with
      | ok r =>
        obtain ⟨b2, t⟩ := r
        rw [h2] at h
        dsimp only at h
        have hb : b2 = b := by injection h with h; exact (Prod.mk.inj h).1
        have ha : f t = a := by injection h with h; exact (Prod.mk.inj h).2
        subst hb
        exact ⟨s1, t, rfl, h2, ha⟩
      | raised op pc s2 => rw [h2] at h; cases h
      | undef => rw [h2] at h; cases h
  | raised op pc s => cases h
  | undef => cases h

theorem lwSw_generic : LwSwObserved (Classical.epsilon fun p => ¬ LwSwObserved p) := rfl

theorem beqz_generic : BeqzObserved (Classical.epsilon fun p => ¬ BeqzObserved p) := rfl

theorem noopHalt_generic : NoopHaltObserved (Classical.epsilon fun p => ¬ NoopHaltObserved p) :=
  rfl

/-- C3: for every 32-bit value `v` and whatever the random draws, the run of scenario 3 from
`memory[0] = v` (`LW r1, 0(r0)` at 16, `SW r1, 1(r0)` at 17, `HALT` at 18, `memorySize` 19)
reaches a call of `nextStep` that returns `true`, and that call leaves `memory[1] = v` and
`regFile[1] = v`. -/
theorem lwSw_round_trip (rnd : Nat → Fin 8) (v : Nat) (hv : v < 4294967296) :
    ∃ s0, lwSwStart v = Outcome.ok s0 ∧
      ∃ n t, HaltsAt rnd s0 n t ∧ t.memory 1 = v ∧ t.regFile 1 = v := by
  have _ := hv
  have h : LwSwObserved (rnd, v) := forall_of_generic LwSwObserved lwSw_generic (rnd, v)
  obtain ⟨s0, h0, s1, t, h1, h2, hobs⟩ := observeCall_eq_some h
  exact ⟨s0, h0, 9, t, ⟨s1, h1, h2⟩, (Prod.mk.inj hobs).1, (Prod.mk.inj hobs).2⟩

/-- The instance of C3 the specification gives, `v = 42`. -/
theorem lwSw_round_trip_witness :
    (42 : Nat) < 4294967296 ∧
    ∃ s0, lwSwStart 42 = Outcome.ok s0 ∧
      ∃ n t, HaltsAt (fun _ => 0) s0 n t ∧ t.memory 1 = 42 ∧ t.regFile 1 = 42 :=
  ⟨by decide, lwSw_round_trip (fun _ => 0) 42 (by decide)⟩

/-- C4: whatever the random draws, the run of scenario 5 (`ADDI r1, r0, 0` at 16, `BEQZ r1`
to 19 at 17, `ADDI r2, r0, 99` at 18, `ADDI r3, r0, 7` at 19, `HALT` at 20, `memorySize` 21)
reaches a call of `nextStep` that returns `true`, and that call leaves `regFile[2] = 0`,
`regFile[3] = 7` and exactly one valid BTB entry whose `branchPc` is 17. -/
theorem beqz_misprediction (rnd : Nat → Fin 8) :
    ∃ s0, startState beqzProgram newMachineState = Outcome.ok s0 ∧
      ∃ n t, HaltsAt rnd s0 n t ∧ t.regFile 2 = 0 ∧ t.regFile 3 = 7 ∧
        ∃! i : Fin 8, (t.btb i).valid = true ∧ (t.btb i).branchPc = 17 := by
  have h : BeqzObserved rnd := forall_of_generic BeqzObserved beqz_generic rnd
  obtain ⟨s0, h0, s1, t, h1, h2, hobs⟩ := observeCall_eq_some h
  have hr2 := (Prod.mk.inj hobs).1
  have hr3 := (Prod.mk.inj (Prod.mk.inj hobs).2).1
  have hb := (Prod.mk.inj (Prod.mk.inj hobs).2).2
  have hflag : ∀ i : Fin 8, btbHolds t 17 i = decide (i = 7) := by
    intro i
    have hi := congrArg (fun l => l.get? i.val) hb
    fin_cases i <;> exact Option.some.inj hi
  have hiff : ∀ i : Fin 8, ((t.btb i).valid = true ∧ (t.btb i).branchPc = 17) ↔ i = 7 := by
    intro i
    have := hflag i
    unfold btbHolds at this
    constructor
    · intro hp
      have h3 : ((t.btb i).valid && decide ((t.btb i).branchPc = 17)) = true := by
        simp [hp.1, hp.2]
      rw [this] at h3
      exact of_decide_eq_true h3
    · intro hi7
      have h3 : ((t.btb i).valid && decide ((t.btb i).branchPc = 17)) = true := by
        rw [this]
        exact decide_eq_true hi7
      simpa using h3
  refine ⟨s0, h0, 12, t, ⟨s1, h1, h2⟩, hr2, hr3, 7, (hiff 7).mpr rfl, ?_⟩
  intro j hj
  exact (hiff j).mp hj

/-! ### Errors -/

theorem Outcome.noRaise_ok {α : Type} (a : α) : (Outcome.ok a).NoRaise := by
  intro op pc t h
  cases h

theorem Outcome.noRaise_undef {α : Type} : (Outcome.undef : Outcome α).NoRaise := by
  intro op pc t h
  cases h

theorem Outcome.noRaise_bind {α β : Type} {x : Outcome α} {f : α → Outcome β}
    (hx : x.NoRaise) (hf : ∀ a, (f a).NoRaise) : (x.bind f).NoRaise := by
  intro op pc t h
  rcases Outcome.bind_eq_raised_iff.mp h with h1 | ⟨a, -, h2⟩
  · exact hx op pc t h1
  · exact hf a op pc t h2

theorem robPop_noRaise (s : MachineState) : (robPop s).NoRaise := by
  unfold robPop
  split_ifs
  · exact Outcome.noRaise_ok _
  · cases idx? 16 s.robHeadIdx with
    | none => exact Outcome.noRaise_undef
    | some i => exact Outcome.noRaise_ok _

theorem commitRegister_noRaise (s : MachineState) (robIdx : Nat) (rd : Fin 32) (result : Nat) :
    (commitRegister s robIdx rd result).NoRaise :=
  Outcome.noRaise_bind (robPop_noRaise _) fun _ => Outcome.noRaise_ok _

theorem commitInstr_noRaise (rnd : Fin 8) (s : MachineState) (robIdx : Nat) :
    (commitInstr rnd s robIdx).NoRaise := by
  unfold commitInstr
  cases idx? 16 robIdx with
  | none => exact Outcome.noRaise_undef
  | some i =>
    dsimp only
    split_ifs
    · exact commitRegister_noRaise _ _ _ _
    · exact commitRegister_noRaise _ _ _ _
    · exact Outcome.noRaise_ok _
    · exact Outcome.noRaise_bind (robPop_noRaise _) fun _ => Outcome.noRaise_ok _
    · exact Outcome.noRaise_ok _
    · cases idx? 7 (s.rob i).execUnit with
      | none => exact Outcome.noRaise_undef
      | some u =>
        dsimp only
        split_ifs
        · cases idx? 10000 (s.reservation u).Vk with
          | none => exact Outcome.noRaise_undef
          | some a => exact Outcome.noRaise_bind (robPop_noRaise _) fun _ => Outcome.noRaise_ok _
        · exact Outcome.noRaise_ok _
    · exact Outcome.noRaise_bind (robPop_noRaise _) fun _ => Outcome.noRaise_ok _
    · exact Outcome.noRaise_ok _

theorem commitPhase_noRaise (rnd : Fin 8) (s : MachineState) : (commitPhase rnd s).NoRaise := by
  unfold commitPhase robHead
  split_ifs
  · exact Outcome.noRaise_ok _
  · dsimp only
    cases idx? 16 s.robHeadIdx with
    | none => exact Outcome.noRaise_undef
    | some i =>
      dsimp only
      split_ifs
      · exact Outcome.noRaise_bind (commitInstr_noRaise _ _ _) fun _ => Outcome.noRaise_ok _
      · exact Outcome.noRaise_bind (robPop_noRaise _) fun _ => Outcome.noRaise_ok _
      · exact Outcome.noRaise_ok _

theorem getResult_noRaise (s : MachineState) (reservIdx : Nat) :
    (getResult s reservIdx).NoRaise := by
  unfold getResult
  cases idx? 7 reservIdx with
  | none => exact Outcome.noRaise_undef
  | some u =>
    dsimp only
    generalize idx? 10000 (wadd (s.reservation u).Vj (immEx (s.reservation u).instr)) = o
    cases o with
    | none => split_ifs <;> first | exact Outcome.noRaise_ok _ | exact Outcome.noRaise_undef
    | some a => split_ifs <;> first | exact Outcome.noRaise_ok _ | exact Outcome.noRaise_undef

theorem advanceEntry_noRaise (s : MachineState) (robIdx : Fin 16) :
    (advanceEntry s robIdx).NoRaise := by
  unfold advanceEntry
  dsimp only
  cases idx? 7 (s.rob robIdx).execUnit with
  | none => exact Outcome.noRaise_undef
  | some u =>
    dsimp only
    split_ifs
    any_goals exact Outcome.noRaise_ok _
    all_goals exact Outcome.noRaise_bind (getResult_noRaise _ _) fun _ => Outcome.noRaise_ok _

theorem advanceFrom_noRaise (l : List (Fin 16)) : ∀ s, (advanceFrom l s).NoRaise := by
  induction l with
  | nil => intro s; exact Outcome.noRaise_ok _
  | cons i rest ih =>
    intro s
    exact Outcome.noRaise_bind (advanceEntry_noRaise s i) ih

theorem advancePhase_noRaise (s : MachineState) : (advancePhase s).NoRaise :=
  advanceFrom_noRaise _ s


theorem chooseUnit_eq_none_iff (s : MachineState) (op : Nat) :
    chooseUnit s op = none ↔ op ∉ recognised := by
  unfold chooseUnit recognised
  split_ifs with h1 h2
  · simp only [List.mem_cons, List.mem_singleton, List.not_mem_nil, or_false, false_iff, not_not]
    tauto
  · simp only [List.mem_cons, List.mem_singleton, List.not_mem_nil, or_false, false_iff, not_not]
    tauto
  · simp only [List.mem_cons, List.mem_singleton, List.not_mem_nil, or_false, true_iff]
    tauto

theorem issueExTime_ne_none {op : Nat} (h : op ∈ recognised) (h1 : op ≠ NOOP) (h2 : op ≠ HALT) :
    issueExTime op ≠ none := by
  unfold recognised at h
  simp only [List.mem_cons, List.mem_singleton, List.not_mem_nil, or_false] at h
  unfold issueExTime
  split_ifs with h3 h4 h5
  · simp
  · simp
  · simp
  · exfalso
    tauto

theorem captureJ_noRaise (s : MachineState) (rg : RegResultEntry) (rs : Fin 32)
    (r : ResStation) : (captureJ s rg rs r).NoRaise := by
  unfold captureJ
  split_ifs
  · exact Outcome.noRaise_ok _
  · cases idx? 16 rg.robIdx with
    | none => exact Outcome.noRaise_undef
    | some p =>
      dsimp only
      split_ifs <;> exact Outcome.noRaise_ok _

theorem captureK_noRaise (s : MachineState) (rg : RegResultEntry) (rs : Fin 32)
    (r : ResStation) : (captureK s rg rs r).NoRaise := by
  unfold captureK
  split_ifs
  · exact Outcome.noRaise_ok _
  · cases idx? 16 rg.robIdx with
    | none => exact Outcome.noRaise_undef
    | some p =>
      dsimp only
      split_ifs <;> exact Outcome.noRaise_ok _

theorem issueOperands_noRaise (s : MachineState) (u : Fin 7) (instr pc robIdx : Nat)
    (r : ResStation) : (issueOperands s u instr pc robIdx r).NoRaise := by
  unfold issueOperands
  dsimp only
  split_ifs
  · exact Outcome.noRaise_bind (captureJ_noRaise _ _ _ _) fun _ =>
      Outcome.noRaise_bind (captureK_noRaise _ _ _ _) fun _ => Outcome.noRaise_ok _
  · exact Outcome.noRaise_bind (captureJ_noRaise _ _ _ _) fun _ => Outcome.noRaise_ok _
  · exact Outcome.noRaise_bind (captureJ_noRaise _ _ _ _) fun _ =>
      Outcome.noRaise_bind (captureK_noRaise _ _ _ _) fun _ => Outcome.noRaise_ok _
  · exact Outcome.noRaise_ok _

theorem issueInstr_raised {s t : MachineState} {pc unit robIdx op pc2 : Nat}
    (h : issueInstr s pc unit robIdx = Outcome.raised op pc2 t) :
    ∃ a : Fin 10000, a.val = pc ∧ opcode (s.memory a) ≠ NOOP ∧ opcode (s.memory a) ≠ HALT ∧
      issueExTime (opcode (s.memory a)) = none := by
  unfold issueInstr at h
  cases ha : idx? 10000 pc with
  | none => rw [ha] at h; cases h
  | some a =>
    cases hu : idx? 7 unit with
    | none => rw [ha, hu] at h; cases h
    | some u =>
      cases hi : idx? 16 robIdx with
      | none => rw [ha, hu, hi] at h; cases h
      | some i =>
        rw [ha, hu, hi] at h
        dsimp only at h
        refine ⟨a, idx?_eq_some_iff.mp ha, ?_⟩
        by_cases hn : opcode (s.memory a) = NOOP ∨ opcode (s.memory a) = HALT
        · rw [if_pos hn] at h
          cases h
        · rw [if_neg hn] at h
          refine ⟨fun h1 => hn (Or.inl h1), fun h1 => hn (Or.inr h1), ?_⟩
          cases he : issueExTime (opcode (s.memory a)) with
          | none => rfl
          | some x =>
            rw [he] at h
            exact absurd h (issueOperands_noRaise _ _ _ _ _ _ _ _ _)

theorem afterIssue_noRaise (s : MachineState) (instr robIdx : Nat) :
    (afterIssue s instr robIdx).NoRaise := by
  unfold afterIssue
  split_ifs
  · cases idx? 16 robIdx with
    | none => exact Outcome.noRaise_undef
    | some i => exact Outcome.noRaise_ok _
  all_goals exact Outcome.noRaise_ok _

theorem robPush_frame {s s1 : MachineState} {r : Option Nat} (h : robPush s = (r, s1)) :
    s1.memory = s.memory ∧ s1.pc = s.pc := by
  unfold robPush at h
  split_ifs at h
  all_goals (cases h; exact ⟨rfl, rfl⟩)

/-- The issue phase raises exactly on a fetch, at a pc below `memorySize`, of a word whose
opcode is not recognised; the error carries that opcode, that pc and the unchanged state. -/
theorem issuePhase_raised_iff (s t : MachineState) (op pc : Nat) :
    issuePhase s = Outcome.raised op pc t ↔
      s.pc < s.memorySize ∧ pc = s.pc ∧ t = s ∧
        ∃ a : Fin 10000, a.val = s.pc ∧ op = opcode (s.memory a) ∧ op ∉ recognised := by
  unfold issuePhase
  by_cases h1 : s.pc ≥ s.memorySize
  · rw [if_pos h1]
    constructor
    · intro h; cases h
    · rintro ⟨h2, -⟩; omega
  · rw [if_neg h1]
    cases ha : idx? 10000 s.pc with
    | none =>
      dsimp only
      constructor
      · intro h; cases h
      · rintro ⟨-, -, -, a, ha2, -⟩
        rw [idx?_eq_some_iff.mpr ha2] at ha
        cases ha
    | some a =>
      have ha2 := idx?_eq_some_iff.mp ha
      dsimp only
      cases hu : chooseUnit s (opcode (s.memory a)) with
      | none =>
        dsimp only
        have hnr := (chooseUnit_eq_none_iff s _).mp hu
        constructor
        · intro h
          cases h
          exact ⟨by omega, rfl, rfl, a, ha2, rfl, hnr⟩
        · rintro ⟨-, rfl, rfl, b, hb, rfl, -⟩
          have : b = a := Fin.ext (hb.trans ha2.symm)
          rw [this]
      | some unit =>
        dsimp only
        have hrec : opcode (s.memory a) ∈ recognised := by
          by_contra hc
          rw [(chooseUnit_eq_none_iff s _).mpr hc] at hu
          cases hu
        constructor
        · intro h
          exfalso
          split_ifs at h with h2
          · rcases hp : robPush s with ⟨_ | robIdx, s1⟩
            · rw [hp] at h
              cases h
            · rw [hp] at h
              dsimp only at h
              obtain ⟨hm, hpc⟩ := robPush_frame hp
              rcases Outcome.bind_eq_raised_iff.mp h with h3 | ⟨s2, -, h3⟩
              · obtain ⟨b, hb, hn1, hn2, he⟩ := issueInstr_raised h3
                have : b = a := Fin.ext (hb.trans (hpc.trans ha2.symm))
                rw [this, hm] at hn1 hn2 he
                exact issueExTime_ne_none hrec hn1 hn2 he
              · exact afterIssue_noRaise _ _ _ _ _ _ h3
        · rintro ⟨-, -, -, b, hb, rfl, hnr⟩
          have : b = a := Fin.ext (hb.trans ha2.symm)
          rw [this] at hnr
          exact absurd hrec hnr

/-- C5: `nextStep` raises `TomasuloError` (with opcode `op`, pc `pc`, leaving state `t`)
exactly when the commit phase of the tick retires no `HALT`, and in the state `t` the commit
and advance phases lead to, `pc < memorySize` and the opcode `op` of `memory[pc]` is none of
`RR_ALU`, `HALT`, `J`, `NOOP`, `BEQZ`, `ADDI`, `ANDI`, `LW`, `SW`.  Nothing else enters the
condition: a full ROB or a station pool without a free station never raises. -/
theorem nextStep_raised_iff (rnd : Fin 8) (s t : MachineState) (op pc : Nat) :
    nextStep rnd s = Outcome.raised op pc t ↔
      ∃ s1, commitPhase rnd { s with cycles := wadd s.cycles 1 } = Outcome.ok (false, s1) ∧
        advancePhase s1 = Outcome.ok t ∧
        t.pc < t.memorySize ∧ pc = t.pc ∧
        ∃ a : Fin 10000, a.val = t.pc ∧ op = opcode (t.memory a) ∧ op ∉ recognised := by
  unfold nextStep
  rw [Outcome.bind_eq_raised_iff]
  constructor
  · rintro (h | ⟨r, h1, h2⟩)
    · exact absurd h (commitPhase_noRaise _ _ _ _ _)
    · obtain ⟨b, s1⟩ := r
      cases b with
      | true => simp at h2
      | false =>
        simp only [Bool.false_eq_true, if_false] at h2
        rcases Outcome.bind_eq_raised_iff.mp h2 with h3 | ⟨s2, h3, h4⟩
        · exact absurd h3 (advancePhase_noRaise _ _ _ _)
        · obtain ⟨h5, h6, h7, h8⟩ := (issuePhase_raised_iff _ _ _ _).mp h4
          subst h7
          exact ⟨s1, h1, h3, h5, h6, h8⟩
  · rintro ⟨s1, h1, h2, h3, h4, h5⟩
    refine Or.inr ⟨(false, s1), h1, ?_⟩
    simp only [Bool.false_eq_true, if_false]
    rw [h2]
    exact (issuePhase_raised_iff _ _ _ _).mpr ⟨h3, h4, rfl, h5⟩

/-! ### The commit unit -/

theorem commitPhase_of_committable {rnd : Fin 8} {s : MachineState} {i : Fin 16}
    (hhead : i.val = s.robHeadIdx) (hne : s.robHeadIdx ≠ s.robTailIdx)
    (hbusy : (s.rob i).busy = true) (hvalid : (s.rob i).valid = true)
    (hstatus : (s.rob i).instrStatus = COMMITTING) (hop : opcode (s.rob i).instr ≠ HALT) :
    commitPhase rnd s = (commitInstr rnd s s.robHeadIdx).bind fun s1 => Outcome.ok (false, s1) := by
  unfold commitPhase robHead
  rw [if_neg hne]
  dsimp only
  rw [idx?_eq_some_iff.mpr hhead]
  dsimp only
  rw [if_pos ⟨hbusy, hvalid, hstatus⟩, if_pos hop]

theorem commitRegister_of_ne {s : MachineState} {i : Fin 16} (hhead : i.val = s.robHeadIdx)
    (hne : s.robHeadIdx ≠ s.robTailIdx) (rd : Fin 32) (result : Nat) :
    commitRegister s s.robHeadIdx rd result = Outcome.ok
      { s with
        regFile := setIdx s.regFile rd result,
        regResult :=
          if (s.regResult rd).robIdx = s.robHeadIdx then setIdx s.regResult rd {}
          else s.regResult,
        rob := setIdx s.rob i {},
        robHeadIdx := (s.robHeadIdx + 1) % 16 } := by
  unfold commitRegister
  dsimp only
  rw [robPop_of_ne (s := { s with
        regResult :=
          if (s.regResult rd).robIdx = s.robHeadIdx then setIdx s.regResult rd {}
          else s.regResult,
        regFile := setIdx s.regFile rd result }) i hhead hne]
  rfl

/-- C6: when the head ROB entry (slot `i`, index `robHeadIdx`) is busy, valid and `COMMITTING`
and holds `LW`, `ADDI` or `ANDI` (destination `d = reg2`) or `RR_ALU` (destination `d = reg3`),
the commit, both as `commitInstr` and as the commit phase of the tick, yields the start state
with `regFile[d]` set to the entry's result, `regResult[d]` reset to its default (valid) value
exactly when `regResult[d].robIdx` is the head index, the head entry cleared and `robHeadIdx`
advanced by one modulo 16; the other registers, the memory, the stations, the BTB and `pc`
are those of the start state. -/
theorem commitInstr_register_write (rnd : Fin 8) (s : MachineState) (i : Fin 16) (d : Fin 32)
    (hhead : i.val = s.robHeadIdx) (hne : s.robHeadIdx ≠ s.robTailIdx)
    (hbusy : (s.rob i).busy = true) (hvalid : (s.rob i).valid = true)
    (hstatus : (s.rob i).instrStatus = COMMITTING)
    (hd : (opcode (s.rob i).instr ∈ [LW, ADDI, ANDI] ∧ d = reg2Idx (s.rob i).instr) ∨
      (opcode (s.rob i).instr = RR_ALU ∧ d = reg3Idx (s.rob i).instr)) :
    ∃ t, commitInstr rnd s s.robHeadIdx = Outcome.ok t ∧
      commitPhase rnd s = Outcome.ok (false, t) ∧
      t = { s with
            regFile := setIdx s.regFile d (s.rob i).result,
            regResult :=
              if (s.regResult d).robIdx = s.robHeadIdx then setIdx s.regResult d {}
              else s.regResult,
            rob := setIdx s.rob i {},
            robHeadIdx := (s.robHeadIdx + 1) % 16 } := by
  have hci : commitInstr rnd s s.robHeadIdx =
      commitRegister s s.robHeadIdx d (s.rob i).result := by
    unfold commitInstr
    rw [idx?_eq_some_iff.mpr hhead]
    dsimp only
    rcases hd with ⟨hop, rfl⟩ | ⟨hop, rfl⟩
    · simp only [List.mem_cons, List.mem_singleton, List.not_mem_nil, or_false] at hop
      rw [if_pos hop]
    · have h1 : ¬(opcode (s.rob i).instr = LW ∨ opcode (s.rob i).instr = ADDI ∨
          opcode (s.rob i).instr = ANDI) := by
        rw [hop]
        decide
      rw [if_neg h1, if_pos hop]
  have hop : opcode (s.rob i).instr ≠ HALT := by
    rcases hd with ⟨hop, -⟩ | ⟨hop, -⟩
    · simp only [List.mem_cons, List.mem_singleton, List.not_mem_nil, or_false] at hop
      rcases hop with h | h | h <;> (rw [h]; decide)
    · rw [hop]; decide
  refine ⟨_, hci.trans (commitRegister_of_ne hhead hne d _), ?_, rfl⟩
  rw [commitPhase_of_committable hhead hne hbusy hvalid hstatus hop, hci,
    commitRegister_of_ne hhead hne d _]
  rfl

/-- An instance of C6: an `ADDI r1, r0, 5` with result 5 alone in the ROB. -/
theorem commitInstr_register_write_witness :
    ((0 : Fin 16).val = addiHead.robHeadIdx ∧ addiHead.robHeadIdx ≠ addiHead.robTailIdx ∧
      (addiHead.rob 0).busy = true ∧ (addiHead.rob 0).valid = true ∧
      (addiHead.rob 0).instrStatus = COMMITTING) ∧
    ∃ t, commitInstr 0 addiHead addiHead.robHeadIdx = Outcome.ok t ∧
      commitPhase 0 addiHead = Outcome.ok (false, t) ∧
      t = { addiHead with
            regFile := setIdx addiHead.regFile 1 (addiHead.rob 0).result,
            regResult :=
              if (addiHead.regResult 1).robIdx = addiHead.robHeadIdx then
                setIdx addiHead.regResult 1 {}
              else addiHead.regResult,
            rob := setIdx addiHead.rob 0 {},
            robHeadIdx := (addiHead.robHeadIdx + 1) % 16 } :=
  ⟨by decide, commitInstr_register_write 0 addiHead 0 1
    (by decide) (by decide) (by decide) (by decide) (by decide) (by decide)⟩

theorem updateBTB_frame (s : MachineState) (branchPc targetPc : Nat) (taken : Bool)
    (rnd : Fin 8) :
    updateBTB s branchPc targetPc taken rnd =
      { s with btb := (updateBTB s branchPc targetPc taken rnd).btb } := by
  unfold updateBTB
  split <;> rfl

/-- C8: when the committable head entry `e` (slot `i`) holds a `BEQZ`, with
`branchTarget = e.pc + 1 + immEx(e.instr)` in 32-bit arithmetic and `taken = (e.result = 0)`,
the commit succeeds with a state `t` whose BTB is that of
`updateBTB(e.pc, branchTarget, taken)` and whose `regFile` and `memory` are unchanged.  If
the branch was mispredicted (`taken` and `e.address ≠ branchTarget`, or not `taken` and
`e.address ≠ e.pc + 1`) then `robHeadIdx = robTailIdx = 0`, every ROB entry, every reservation
station and every register-status entry is the default one (so every register is valid), and
`pc = branchTarget`; otherwise only the head is popped and `pc` is unchanged. -/
theorem commitInstr_beqz (rnd : Fin 8) (s : MachineState) (i : Fin 16)
    (hhead : i.val = s.robHeadIdx) (hne : s.robHeadIdx ≠ s.robTailIdx)
    (hbusy : (s.rob i).busy = true) (hvalid : (s.rob i).valid = true)
    (hstatus : (s.rob i).instrStatus = COMMITTING)
    (hop : opcode (s.rob i).instr = BEQZ) :
    ∃ t, commitInstr rnd s s.robHeadIdx = Outcome.ok t ∧
      commitPhase rnd s = Outcome.ok (false, t) ∧
      t.btb = (updateBTB s (s.rob i).pc
          (((s.rob i).pc + 1 + immEx (s.rob i).instr) % 4294967296)
          (decide ((s.rob i).result = 0)) rnd).btb ∧
      t.regFile = s.regFile ∧ t.memory = s.memory ∧
      (Mispredicted (s.rob i) →
        t.robHeadIdx = 0 ∧ t.robTailIdx = 0 ∧ (∀ j, t.rob j = {}) ∧
        (∀ u, t.reservation u = {}) ∧ (∀ r, t.regResult r = {}) ∧
        t.pc = ((s.rob i).pc + 1 + immEx (s.rob i).instr) % 4294967296) ∧
      (¬ Mispredicted (s.rob i) →
        t = { s with
              btb := t.btb,
              rob := setIdx s.rob i {},
              robHeadIdx := (s.robHeadIdx + 1) % 16 }) := by
  have htarget : wadd (wadd (immEx (s.rob i).instr) 1) (s.rob i).pc =
      ((s.rob i).pc + 1 + immEx (s.rob i).instr) % 4294967296 := by
    show ((immEx (s.rob i).instr + 1) % 4294967296 + (s.rob i).pc) % 4294967296 = _
    omega
  have hhalt : opcode (s.rob i).instr ≠ HALT := by rw [hop]; decide
  have h1 : ¬(opcode (s.rob i).instr = LW ∨ opcode (s.rob i).instr = ADDI ∨
      opcode (s.rob i).instr = ANDI) := by rw [hop]; decide
  have h2 : ¬ opcode (s.rob i).instr = RR_ALU := by rw [hop]; decide
  have hcond : ((decide ((s.rob i).result = 0) = true ∧
        (s.rob i).address ≠ ((s.rob i).pc + 1 + immEx (s.rob i).instr) % 4294967296) ∨
      (decide ((s.rob i).result = 0) = false ∧ (s.rob i).address ≠ wadd (s.rob i).pc 1)) ↔
      Mispredicted (s.rob i) := by
    unfold Mispredicted
    rw [decide_eq_true_eq, decide_eq_false_iff_not]
    rfl
  rw [commitPhase_of_committable hhead hne hbusy hvalid hstatus hhalt]
  have hci : commitInstr rnd s s.robHeadIdx =
      if Mispredicted (s.rob i) then
        Outcome.ok { resetRegResult (resetReserve (resetROB (updateBTB s (s.rob i).pc
          (((s.rob i).pc + 1 + immEx (s.rob i).instr) % 4294967296)
          (decide ((s.rob i).result = 0)) rnd))) with
          pc := ((s.rob i).pc + 1 + immEx (s.rob i).instr) % 4294967296 }
      else
        (robPop (updateBTB s (s.rob i).pc
          (((s.rob i).pc + 1 + immEx (s.rob i).instr) % 4294967296)
          (decide ((s.rob i).result = 0)) rnd)).bind fun p => Outcome.ok p.2 := by
    unfold commitInstr
    rw [idx?_eq_some_iff.mpr hhead]
    dsimp only
    rw [if_neg h1, if_neg h2, if_pos hop, htarget]
    by_cases hm : Mispredicted (s.rob i)
    · rw [if_pos (hcond.mpr hm), if_pos hm]
    · rw [if_neg (fun h => hm (hcond.mp h)), if_neg hm]
  rw [hci]
  obtain ⟨b, hb⟩ : ∃ b, updateBTB s (s.rob i).pc
      (((s.rob i).pc + 1 + immEx (s.rob i).instr) % 4294967296)
      (decide ((s.rob i).result = 0)) rnd = { s with btb := b } :=
    ⟨_, updateBTB_frame _ _ _ _ _⟩
  rw [hb]
  by_cases hm : Mispredicted (s.rob i)
  · rw [if_pos hm]
    exact ⟨_, rfl, rfl, rfl, rfl, rfl, fun _ => ⟨rfl, rfl, fun _ => rfl, fun _ => rfl,
      fun _ => rfl, rfl⟩, fun hn => absurd hm hn⟩
  · rw [if_neg hm, robPop_of_ne (s := { s with btb := b }) i hhead hne]
    exact ⟨_, rfl, rfl, rfl, rfl, rfl, fun h => absurd h hm, fun _ => rfl⟩

/-- An instance of C8: a taken `BEQZ` (target 18) that was predicted not taken (17). -/
theorem commitInstr_beqz_witness :
    ((0 : Fin 16).val = beqzHead.robHeadIdx ∧ beqzHead.robHeadIdx ≠ beqzHead.robTailIdx ∧
      (beqzHead.rob 0).busy = true ∧ (beqzHead.rob 0).valid = true ∧
      (beqzHead.rob 0).instrStatus = COMMITTING ∧ opcode (beqzHead.rob 0).instr = BEQZ) ∧
    ∃ t, commitInstr 0 beqzHead beqzHead.robHeadIdx = Outcome.ok t ∧
      commitPhase 0 beqzHead = Outcome.ok (false, t) ∧
      t.btb = (updateBTB beqzHead (beqzHead.rob 0).pc
          (((beqzHead.rob 0).pc + 1 + immEx (beqzHead.rob 0).instr) % 4294967296)
          (decide ((beqzHead.rob 0).result = 0)) 0).btb ∧
      t.regFile = beqzHead.regFile ∧ t.memory = beqzHead.memory ∧
      (Mispredicted (beqzHead.rob 0) →
        t.robHeadIdx = 0 ∧ t.robTailIdx = 0 ∧ (∀ j, t.rob j = {}) ∧
        (∀ u, t.reservation u = {}) ∧ (∀ r, t.regResult r = {}) ∧
        t.pc = ((beqzHead.rob 0).pc + 1 + immEx (beqzHead.rob 0).instr) % 4294967296) ∧
      (¬ Mispredicted (beqzHead.rob 0) →
        t = { beqzHead with
              btb := t.btb,
              rob := setIdx beqzHead.rob 0 {},
              robHeadIdx := (beqzHead.robHeadIdx + 1) % 16 }) :=
  ⟨by decide, commitInstr_beqz 0 beqzHead 0
    (by decide) (by decide) (by decide) (by decide) (by decide) (by decide)⟩
/-- C9: the two-phase store commit.  When the committable head entry `e` (slot `i`, index
`robHeadIdx`) holds an `SW`:
(1) if `e.execUnit` is neither `STORE1` nor `STORE2`, the first non-busy station among
`STORE1`, `STORE2` becomes `storeStation e robHeadIdx`, that is `{busy, instr = e.instr,
Vj = e.result, Vk = e.address, Qj = Qk = READY, exTimeLeft = 1, robIdx = robHeadIdx}`,
`e.execUnit` becomes that station and the ROB is not popped; if both store stations are busy
nothing changes;
(2) if `e.execUnit` is a store station `u` with `exTimeLeft = 0` (and `Vk` a valid address),
`memory[Vk]` is set to `Vj`, station `u` is cleared and the ROB is popped;
(3) if `e.execUnit` is a store station `u` with `exTimeLeft > 0` (a 32-bit word), only that
`exTimeLeft` is decremented by one.
Every field not named is that of the start state; in (1) and (3) the memory is unchanged. -/
theorem commitInstr_store (rnd : Fin 8) (s : MachineState) (i : Fin 16)
    (hhead : i.val = s.robHeadIdx) (hne : s.robHeadIdx ≠ s.robTailIdx)
    (hbusy : (s.rob i).busy = true) (hvalid : (s.rob i).valid = true)
    (hstatus : (s.rob i).instrStatus = COMMITTING)
    (hop : opcode (s.rob i).instr = SW) :
    commitPhase rnd s =
      (commitInstr rnd s s.robHeadIdx).bind (fun t => Outcome.ok (false, t)) ∧
    (((s.rob i).execUnit ≠ STORE1 ∧ (s.rob i).execUnit ≠ STORE2) →
      ((s.reservation 3).busy = false →
        commitInstr rnd s s.robHeadIdx = Outcome.ok
          { s with
            reservation := setIdx s.reservation 3 (storeStation (s.rob i) s.robHeadIdx),
            rob := setIdx s.rob i { s.rob i with execUnit := STORE1 } }) ∧
      ((s.reservation 3).busy = true → (s.reservation 4).busy = false →
        commitInstr rnd s s.robHeadIdx = Outcome.ok
          { s with
            reservation := setIdx s.reservation 4 (storeStation (s.rob i) s.robHeadIdx),
            rob := setIdx s.rob i { s.rob i with execUnit := STORE2 } }) ∧
      ((s.reservation 3).busy = true → (s.reservation 4).busy = true →
        commitInstr rnd s s.robHeadIdx = Outcome.ok s)) ∧
    (∀ u : Fin 7, u.val = (s.rob i).execUnit → (u.val = STORE1 ∨ u.val = STORE2) →
      ((s.reservation u).exTimeLeft = 0 →
        ∀ a : Fin 10000, a.val = (s.reservation u).Vk →
          commitInstr rnd s s.robHeadIdx = Outcome.ok
            { s with
              memory := setIdx s.memory a (s.reservation u).Vj,
              reservation := setIdx s.reservation u ({} : ResStation),
              rob := setIdx s.rob i {},
              robHeadIdx := (s.robHeadIdx + 1) % 16 }) ∧
      (0 < (s.reservation u).exTimeLeft → (s.reservation u).exTimeLeft < 4294967296 →
        commitInstr rnd s s.robHeadIdx = Outcome.ok
          { s with
            reservation := setIdx s.reservation u (decrement (s.reservation u)) })) := by
  have hhalt : opcode (s.rob i).instr ≠ HALT := by rw [hop]; decide
  have h1 : ¬(opcode (s.rob i).instr = LW ∨ opcode (s.rob i).instr = ADDI ∨
      opcode (s.rob i).instr = ANDI) := by rw [hop]; decide
  have h2 : ¬ opcode (s.rob i).instr = RR_ALU := by rw [hop]; decide
  have h3 : ¬ opcode (s.rob i).instr = BEQZ := by rw [hop]; decide
  have hci : commitInstr rnd s s.robHeadIdx =
      if (s.rob i).execUnit ≠ STORE1 ∧ (s.rob i).execUnit ≠ STORE2 then
        Outcome.ok (commitStoreTransfer s s.robHeadIdx i)
      else
        match idx? 7 (s.rob i).execUnit with
        | none => Outcome.undef
        | some u =>
          if (s.reservation u).exTimeLeft = 0 then
            match idx? 10000 (s.reservation u).Vk with
            | none => Outcome.undef
            | some a =>
              (robPop { s with
                  memory := setIdx s.memory a (s.reservation u).Vj,
                  reservation := setIdx s.reservation u ({} : ResStation) }).bind
                fun p => Outcome.ok p.2
          else
            Outcome.ok { s with
              reservation := setIdx s.reservation u { s.reservation u with exTimeLeft := wsub (s.reservation u).exTimeLeft 1 } } := by
    unfold commitInstr
    rw [idx?_eq_some_iff.mpr hhead]
    dsimp only
    rw [if_neg h1, if_neg h2, if_neg h3, if_pos hop]
  refine ⟨commitPhase_of_committable hhead hne hbusy hvalid hstatus hhalt, ?_, ?_⟩
  · intro hu
    rw [hci, if_pos hu]
    unfold commitStoreTransfer
    dsimp only
    refine ⟨fun hb3 => ?_, fun hb3 hb4 => ?_, fun hb3 hb4 => ?_⟩
    · rw [if_pos hb3]
      rfl
    · rw [if_neg (by rw [hb3]; decide), if_pos hb4]
      rfl
    · rw [if_neg (by rw [hb3]; decide), if_neg (by rw [hb4]; decide)]
  · intro u hu hstore
    have hnot : ¬((s.rob i).execUnit ≠ STORE1 ∧ (s.rob i).execUnit ≠ STORE2) := by
      rw [← hu]
      rcases hstore with h | h
      · exact fun hc => hc.1 h
      · exact fun hc => hc.2 h
    rw [hci, if_neg hnot, idx?_eq_some_iff.mpr hu]
    dsimp only
    refine ⟨fun hz a ha => ?_, fun hpos hlt => ?_⟩
    · rw [if_pos hz, idx?_eq_some_iff.mpr ha]
      dsimp only
      rw [robPop_of_ne (s := { s with
          memory := setIdx s.memory a (s.reservation u).Vj,
          reservation := setIdx s.reservation u ({} : ResStation) }) i hhead hne]
      rfl
    · rw [if_neg (by omega)]
      have hw : wsub (s.reservation u).exTimeLeft 1 = (s.reservation u).exTimeLeft - 1 := by
        show ((s.reservation u).exTimeLeft + (4294967296 - 1 % 4294967296)) % 4294967296 = _
        omega
      rw [hw]
      rfl

/-- An instance of C9: a store with datum 42 for address 1 still attached to `INT1`, both
store stations being free, moves to `STORE1`. -/
theorem commitInstr_store_witness :
    ((0 : Fin 16).val = swHead.robHeadIdx ∧ swHead.robHeadIdx ≠ swHead.robTailIdx ∧
      (swHead.rob 0).busy = true ∧ (swHead.rob 0).valid = true ∧
      (swHead.rob 0).instrStatus = COMMITTING ∧ opcode (swHead.rob 0).instr = SW ∧
      (swHead.rob 0).execUnit ≠ STORE1 ∧ (swHead.rob 0).execUnit ≠ STORE2 ∧
      (swHead.reservation 3).busy = false) ∧
    commitInstr 0 swHead swHead.robHeadIdx = Outcome.ok
      { swHead with
        reservation := setIdx swHead.reservation 3 (storeStation (swHead.rob 0) swHead.robHeadIdx),
        rob := setIdx swHead.rob 0 { swHead.rob 0 with execUnit := STORE1 } } :=
  ⟨by decide, ((commitInstr_store 0 swHead 0 (by decide) (by decide) (by decide) (by decide)
    (by decide) (by decide)).2.1 (by decide)).1 (by decide)⟩
/-- Committing an entry that holds a `NOOP` changes nothing: the `switch` of `commitInstr` has
no case for it, so the `default` branch returns without popping the ROB. -/
theorem commitInstr_noop (rnd : Fin 8) (s : MachineState) (i : Fin 16)
    (hop : opcode (s.rob i).instr = NOOP) : commitInstr rnd s i.val = Outcome.ok s := by
  have h1 : ¬(opcode (s.rob i).instr = LW ∨ opcode (s.rob i).instr = ADDI ∨
      opcode (s.rob i).instr = ANDI) := by rw [hop]; decide
  have h2 : ¬ opcode (s.rob i).instr = RR_ALU := by rw [hop]; decide
  have h3 : ¬ opcode (s.rob i).instr = BEQZ := by rw [hop]; decide
  have h4 : ¬ opcode (s.rob i).instr = SW := by rw [hop]; decide
  have h5 : ¬ opcode (s.rob i).instr = J := by rw [hop]; decide
  unfold commitInstr
  rw [idx?_val]
  dsimp only
  rw [if_neg h1, if_neg h2, if_neg h3, if_neg h4, if_neg h5]

/-- C7, as the code behaves: committing a busy, valid, `COMMITTING` head entry that holds a
`NOOP` leaves the machine as it was, the head entry still in place and `robHeadIdx` not
advanced, both in `commitInstr` and in the commit phase of the tick; committing the same head
entry holding a `J` pops the ROB. -/
theorem commitInstr_noop_keeps_head (rnd : Fin 8) :
    commitInstr rnd noopHead noopHead.robHeadIdx = Outcome.ok noopHead ∧
    commitPhase rnd noopHead = Outcome.ok (false, noopHead) ∧
    (noopHead.rob 0).busy = true ∧ opcode (noopHead.rob 0).instr = NOOP ∧
    commitInstr rnd jHead jHead.robHeadIdx =
      Outcome.ok { jHead with rob := setIdx jHead.rob 0 {}, robHeadIdx := 1 } ∧
    opcode (jHead.rob 0).instr = J := by
  have hn : commitInstr rnd noopHead noopHead.robHeadIdx = Outcome.ok noopHead :=
    commitInstr_noop rnd noopHead 0 (by decide)
  refine ⟨hn, ?_, by decide, by decide, rfl, by decide⟩
  rw [commitPhase_of_committable (i := 0) (by decide) (by decide) (by decide) (by decide)
    (by decide) (by decide), hn]
  rfl

/-- C10, as the code behaves: issuing a `BEQZ` (here `BEQZ r1` with `reg2 = 2`, loaded at 16,
into station `INT1` and ROB slot 0 of a fresh machine) marks the register-status entry of
`reg2` invalid and records the ROB index in it, although a `BEQZ` writes no register. -/
theorem issueInstr_beqz_renames :
    ∃ s0 t, loadInstr newMachineState 16 (encodeI BEQZ 1 2 1) = Outcome.ok s0 ∧
      issueInstr s0 16 INT1 0 = Outcome.ok t ∧
      opcode (s0.memory 16) = BEQZ ∧ reg2 (s0.memory 16) = 2 ∧
      s0.regResult 2 = { valid := true, robIdx := 0 } ∧
      t.regResult 2 = { valid := false, robIdx := 0 } :=
  ⟨_, _, rfl, rfl, by decide, by decide, rfl, rfl⟩

/-! ### Frame properties of the advance and issue phases -/

theorem broadcastROB_of_valid (unit value : Nat) (e : ROBEntry) (h : e.valid = true) :
    broadcastROB unit value e = e := by
  unfold broadcastROB
  rw [if_neg]
  rintro ⟨-, h2, -⟩
  rw [h] at h2
  cases h2

theorem setIdx_ne {n : Nat} {α : Type} (f : Fin n → α) {i j : Fin n} (v : α) (h : j ≠ i) :
    setIdx f i v j = f j := by
  unfold setIdx
  rw [if_neg h]

theorem setIdx_same {n : Nat} {α : Type} (f : Fin n → α) (i : Fin n) (v : α) :
    setIdx f i v i = v := by
  unfold setIdx
  rw [if_pos rfl]

/-- One iteration of the advance loop changes neither queue index, and leaves in place every
ROB entry that is busy, valid and `COMMITTING`. -/
theorem advanceEntry_frame {s t : MachineState} {robIdx : Fin 16}
    (h : advanceEntry s robIdx = Outcome.ok t) :
    t.robHeadIdx = s.robHeadIdx ∧ t.robTailIdx = s.robTailIdx ∧
      ∀ j : Fin 16, (s.rob j).valid = true → (s.rob j).instrStatus = COMMITTING →
        t.rob j = s.rob j := by
  unfold advanceEntry at h
  dsimp only at h
  cases hu : idx? 7 (s.rob robIdx).execUnit with
  | none => rw [hu] at h; cases h
  | some u =>
    rw [hu] at h
    dsimp only at h
    by_cases hb : (s.rob robIdx).busy = true
    · rw [if_pos hb] at h
      by_cases h1 : (s.rob robIdx).instrStatus = EXECUTING
      · rw [if_pos h1] at h
        by_cases h2 : (s.reservation u).exTimeLeft ≠ 0
        · rw [if_pos h2] at h
          cases h
          exact ⟨rfl, rfl, fun _ _ _ => rfl⟩
        · rw [if_neg h2] at h
          obtain ⟨value, -, h3⟩ := Outcome.bind_eq_ok_iff.mp h
          cases h3
          refine ⟨rfl, rfl, fun j hv hc => ?_⟩
          have hj : j ≠ robIdx := by
            rintro rfl
            rw [h1] at hc
            cases hc
          show broadcastROB _ _ (setIdx s.rob robIdx _ j) = s.rob j
          rw [setIdx_ne _ _ hj, broadcastROB_of_valid _ _ _ hv]
      · rw [if_neg h1] at h
        by_cases h2 : (s.rob robIdx).instrStatus = WRITING_RESULT
        · rw [if_pos h2] at h
          cases h
          refine ⟨rfl, rfl, fun j _ hc => ?_⟩
          have hj : j ≠ robIdx := by
            rintro rfl
            rw [h2] at hc
            cases hc
          exact setIdx_ne _ _ hj
        · rw [if_neg h2] at h
          by_cases h3 : (s.rob robIdx).instrStatus = ISSUING ∧ (s.reservation u).Qj = READY ∧
              (s.reservation u).Qk = READY
          · rw [if_pos h3] at h
            cases h
            refine ⟨rfl, rfl, fun j _ hc => ?_⟩
            have hj : j ≠ robIdx := by
              rintro rfl
              rw [h3.1] at hc
              cases hc
            exact setIdx_ne _ _ hj
          · rw [if_neg h3] at h
            cases h
            exact ⟨rfl, rfl, fun _ _ _ => rfl⟩
    · rw [if_neg hb] at h
      cases h
      exact ⟨rfl, rfl, fun _ _ _ => rfl⟩

theorem advanceFrom_frame (l : List (Fin 16)) :
    ∀ {s t : MachineState}, advanceFrom l s = Outcome.ok t →
      t.robHeadIdx = s.robHeadIdx ∧ t.robTailIdx = s.robTailIdx ∧
        ∀ j : Fin 16, (s.rob j).valid = true → (s.rob j).instrStatus = COMMITTING →
          t.rob j = s.rob j := by
  induction l with
  | nil =>
    intro s t h
    cases h
    exact ⟨rfl, rfl, fun _ _ _ => rfl⟩
  | cons i rest ih =>
    intro s t h
    obtain ⟨s1, h1, h2⟩ := Outcome.bind_eq_ok_iff.mp h
    obtain ⟨a1, a2, a3⟩ := advanceEntry_frame h1
    obtain ⟨b1, b2, b3⟩ := ih h2
    refine ⟨b1.trans a1, b2.trans a2, fun j hv hc => ?_⟩
    have hj := a3 j hv hc
    rw [b3 j (by rw [hj]; exact hv) (by rw [hj]; exact hc), hj]

/-- The second `switch` of `issueInstr` changes the register status and the station only. -/
theorem issueOperands_frame {s t : MachineState} {u : Fin 7} {instr pc robIdx : Nat}
    {r : ResStation} (h : issueOperands s u instr pc robIdx r = Outcome.ok t) :
    t.robHeadIdx = s.robHeadIdx ∧ t.robTailIdx = s.robTailIdx ∧ t.rob = s.rob ∧
      t.pc = s.pc ∧ t.memorySize = s.memorySize ∧ t.memory = s.memory ∧
      t.regFile = s.regFile ∧ t.btb = s.btb ∧ t.cycles = s.cycles := by
  unfold issueOperands at h
  dsimp only at h
  split_ifs at h
  · obtain ⟨r2, -, h2⟩ := Outcome.bind_eq_ok_iff.mp h
    obtain ⟨r3, -, h3⟩ := Outcome.bind_eq_ok_iff.mp h2
    cases h3
    exact ⟨rfl, rfl, rfl, rfl, rfl, rfl, rfl, rfl, rfl⟩
  · obtain ⟨r2, -, h2⟩ := Outcome.bind_eq_ok_iff.mp h
    cases h2
    exact ⟨rfl, rfl, rfl, rfl, rfl, rfl, rfl, rfl, rfl⟩
  · obtain ⟨r2, -, h2⟩ := Outcome.bind_eq_ok_iff.mp h
    obtain ⟨r3, -, h3⟩ := Outcome.bind_eq_ok_iff.mp h2
    cases h3
    exact ⟨rfl, rfl, rfl, rfl, rfl, rfl, rfl, rfl, rfl⟩
  · cases h
    exact ⟨rfl, rfl, rfl, rfl, rfl, rfl, rfl, rfl, rfl⟩

/-- The function `issueInstr` writes ROB slot `robIdx` only, and changes neither queue index,
`pc`, the memory, the registers nor the BTB. -/
theorem issueInstr_frame {s t : MachineState} {pc unit robIdx : Nat}
    (h : issueInstr s pc unit robIdx = Outcome.ok t) :
    t.robHeadIdx = s.robHeadIdx ∧ t.robTailIdx = s.robTailIdx ∧
      (∀ j : Fin 16, j.val ≠ robIdx → t.rob j = s.rob j) ∧
      t.pc = s.pc ∧ t.memorySize = s.memorySize ∧ t.memory = s.memory ∧
      t.regFile = s.regFile ∧ t.btb = s.btb ∧ t.cycles = s.cycles := by
  unfold issueInstr at h
  cases ha : idx? 10000 pc with
  | none => rw [ha] at h; cases h
  | some a =>
    cases hu : idx? 7 unit with
    | none => rw [ha, hu] at h; cases h
    | some u =>
      cases hi : idx? 16 robIdx with
      | none => rw [ha, hu, hi] at h; cases h
      | some i =>
        rw [ha, hu, hi] at h
        dsimp only at h
        have hi2 := idx?_eq_some_iff.mp hi
        have hne : ∀ j : Fin 16, j.val ≠ robIdx → j ≠ i := by
          rintro j hj rfl
          exact hj hi2
        by_cases hn : opcode (s.memory a) = NOOP ∨ opcode (s.memory a) = HALT
        · rw [if_pos hn] at h
          cases h
          exact ⟨rfl, rfl, fun j hj => setIdx_ne _ _ (hne j hj), rfl, rfl, rfl, rfl, rfl, rfl⟩
        · rw [if_neg hn] at h
          cases he : issueExTime (opcode (s.memory a)) with
          | none => rw [he] at h; cases h
          | some x =>
            rw [he] at h
            dsimp only at h
            obtain ⟨b1, b2, b3, b4, b5, b6, b7, b8, b9⟩ := issueOperands_frame h
            refine ⟨b1, b2, fun j hj => ?_, b4, b5, b6, b7, b8, b9⟩
            rw [b3]
            exact setIdx_ne _ _ (hne j hj)

/-- The pc update after an issue writes ROB slot `robIdx` only (the `address` of a `BEQZ`). -/
theorem afterIssue_frame {s t : MachineState} {instr robIdx : Nat} {b : Bool}
    (h : afterIssue s instr robIdx = Outcome.ok (b, t)) :
    t.robHeadIdx = s.robHeadIdx ∧ t.robTailIdx = s.robTailIdx ∧
      (∀ j : Fin 16, j.val ≠ robIdx → t.rob j = s.rob j) ∧
      t.memorySize = s.memorySize ∧ t.memory = s.memory ∧
      t.regFile = s.regFile ∧ t.btb = s.btb ∧ t.cycles = s.cycles := by
  unfold afterIssue at h
  split_ifs at h
  · cases hi : idx? 16 robIdx with
    | none => rw [hi] at h; cases h
    | some i =>
      rw [hi] at h
      dsimp only at h
      have hi2 := idx?_eq_some_iff.mp hi
      cases h
      refine ⟨rfl, rfl, fun j hj => setIdx_ne _ _ ?_, rfl, rfl, rfl, rfl, rfl⟩
      rintro rfl
      exact hj hi2
  all_goals
    cases h
    exact ⟨rfl, rfl, fun _ _ => rfl, rfl, rfl, rfl, rfl, rfl⟩

/-! ### A `NOOP` at the head of the ROB is never retired -/

theorem robPush_some {s s1 : MachineState} {robIdx : Nat}
    (h : robPush s = (some robIdx, s1)) :
    robIdx = s.robTailIdx ∧ wsub s.robHeadIdx s.robTailIdx % 16 ≠ 1 ∧
      s1 = { s with robTailIdx := (s.robTailIdx + 1) % 4294967296 % 16 } := by
  unfold robPush at h
  split_ifs at h with h1
  · cases h
  · cases h
    exact ⟨rfl, h1, rfl⟩

theorem robPush_none {s s1 : MachineState} (h : robPush s = (none, s1)) : s1 = s := by
  unfold robPush at h
  split_ifs at h
  · cases h
    rfl
  · cases h

theorem issuePhase_stuckAtNoop {s t : MachineState} {b : Bool} (hs : StuckAtNoop s)
    (h : issuePhase s = Outcome.ok (b, t)) : StuckAtNoop t := by
  unfold issuePhase at h
  split_ifs at h with h1
  · cases h
    exact hs
  · cases ha : idx? 10000 s.pc with
    | none => rw [ha] at h; cases h
    | some a =>
      rw [ha] at h
      dsimp only at h
      cases hu : chooseUnit s (opcode (s.memory a)) with
      | none => rw [hu] at h; cases h
      | some unit =>
        rw [hu] at h
        dsimp only at h
        split_ifs at h with h2
        · rcases hp : robPush s with ⟨_ | robIdx, s1⟩
          · rw [hp] at h
            cases h
            rw [robPush_none hp]
            exact hs
          · rw [hp] at h
            dsimp only at h
            obtain ⟨hr, hfull, hs1⟩ := robPush_some hp
            obtain ⟨s2, h3, h4⟩ := Outcome.bind_eq_ok_iff.mp h
            obtain ⟨a1, a2, a3, -⟩ := issueInstr_frame h3
            obtain ⟨b1, b2, b3, -⟩ := afterIssue_frame h4
            obtain ⟨hne, hlt, i, hi, hbusy, hvalid, hstatus, hop⟩ := hs
            have hil : s.robHeadIdx < 16 := hi ▸ i.isLt
            have hir : i.val ≠ robIdx := by
              rw [hi, hr]
              exact hne
            have hrob : t.rob i = s.rob i := by
              rw [b3 i hir, a3 i hir, hs1]
            have hhead : t.robHeadIdx = s.robHeadIdx := by
              rw [b1, a1, hs1]
            have htail : t.robTailIdx = (s.robTailIdx + 1) % 4294967296 % 16 := by
              rw [b2, a2, hs1]
            have hfull2 : (s.robHeadIdx + (4294967296 - s.robTailIdx % 4294967296)) % 4294967296
                % 16 ≠ 1 := hfull
            refine ⟨?_, ?_, i, ?_, ?_, ?_, ?_, ?_⟩
            · rw [hhead, htail]
              omega
            · rw [htail]
              omega
            · rw [hhead]
              exact hi
            · rw [hrob]
              exact hbusy
            · rw [hrob]
              exact hvalid
            · rw [hrob]
              exact hstatus
            · rw [hrob]
              exact hop
        · cases h
          exact hs

/-- A `NOOP` that has reached the head of the ROB ready to commit stays there: a call of
`nextStep` from such a state never returns `true`, and leaves the `NOOP` at the head. -/
theorem nextStep_stuckAtNoop {rnd : Fin 8} {s t : MachineState} {b : Bool}
    (hs : StuckAtNoop s) (h : nextStep rnd s = Outcome.ok (b, t)) :
    b = false ∧ StuckAtNoop t := by
  obtain ⟨hne, hlt, i, hi, hbusy, hvalid, hstatus, hop⟩ := hs
  unfold nextStep at h
  have hcommit : commitPhase rnd { s with cycles := wadd s.cycles 1 } =
      Outcome.ok (false, { s with cycles := wadd s.cycles 1 }) := by
    rw [commitPhase_of_committable (s := { s with cycles := wadd s.cycles 1 }) (i := i) hi hne
      hbusy hvalid hstatus (by rw [hop]; decide)]
    have := commitInstr_noop rnd { s with cycles := wadd s.cycles 1 } i hop
    rw [hi] at this
    rw [this]
    rfl
  rw [hcommit] at h
  have h1 : (advancePhase { s with cycles := wadd s.cycles 1 }).bind issuePhase =
      Outcome.ok (b, t) := h
  obtain ⟨s2, h2, h3⟩ := Outcome.bind_eq_ok_iff.mp h1
  obtain ⟨a1, a2, a3⟩ := advanceFrom_frame _ h2
  have hrob : s2.rob i = s.rob i := a3 i hvalid hstatus
  have hs2 : StuckAtNoop s2 := by
    refine ⟨?_, ?_, i, ?_, ?_, ?_, ?_, ?_⟩
    · rw [a1, a2]
      exact hne
    · rw [a2]
      exact hlt
    · rw [a1]
      exact hi
    · rw [hrob]
      exact hbusy
    · rw [hrob]
      exact hvalid
    · rw [hrob]
      exact hstatus
    · rw [hrob]
      exact hop
  exact ⟨issuePhase_flag h3, issuePhase_stuckAtNoop hs2 h3⟩

theorem idleSteps_stuckAtNoop {rnd : Nat → Fin 8} {s0 s4 : MachineState} {m : Nat}
    (h4 : idleSteps rnd m s0 = some s4) (hs : StuckAtNoop s4) :
    ∀ n s, m ≤ n → idleSteps rnd n s0 = some s → StuckAtNoop s := by
  intro n
  induction n with
  | zero =>
    intro s hm h
    have : m = 0 := by omega
    subst this
    rw [h4] at h
    cases h
    exact hs
  | succ n ih =>
    intro s hm h
    by_cases hmn : m = n + 1
    · subst hmn
      rw [h4] at h
      cases h
      exact hs
    · obtain ⟨s1, h1, h2⟩ := idleSteps_succ h
      exact (nextStep_stuckAtNoop (ih s1 (by omega) h1) h2).2

theorem idleSteps_step {rnd : Nat → Fin 8} {n : Nat} {s s1 t : MachineState}
    (h1 : idleSteps rnd n s = some s1) (h2 : nextStep (rnd n) s1 = Outcome.ok (false, t)) :
    idleSteps rnd (n + 1) s = some t := by
  show (match idleSteps rnd n s with
    | none => none
    | some s1 =>
      match nextStep (rnd n) s1 with
      | Outcome.ok (false, s2) => some s2
      | _ => none) = some t
  rw [h1]
  dsimp only
  rw [h2]

theorem noopStuck_generic :
    NoopStuckObserved (Classical.epsilon fun p => ¬ NoopStuckObserved p) := rfl

/-- C2, as the code behaves: in scenario 1 (`NOOP_INSTR` at 16, `HALT` at 17, `memorySize`
18), whatever the random draws, each of the first eight calls of `nextStep` returns `false`
(the registers being all zero after them), and no later call returns `true` either: the
`NOOP` reaches the head of the ROB and is never retired, so the `HALT` behind it never
commits. -/
theorem noopHalt_never_halts (rnd : Nat → Fin 8) :
    ∃ s0, startState noopHaltProgram newMachineState = Outcome.ok s0 ∧
      (∀ n, n < 8 → ∃ s1 t, idleSteps rnd n s0 = some s1 ∧
        nextStep (rnd n) s1 = Outcome.ok (false, t)) ∧
      (∃ s8, idleSteps rnd 8 s0 = some s8 ∧ ∀ r : Fin 32, s8.regFile r = 0) ∧
      ∀ n t, ¬ HaltsAt rnd s0 n t := by
  have h : NoopHaltObserved rnd := forall_of_generic NoopHaltObserved noopHalt_generic rnd
  have hk : NoopStuckObserved rnd := forall_of_generic NoopStuckObserved noopStuck_generic rnd
  obtain ⟨s0, h0, s7, s8, h7, hstep, hobs⟩ := observeCall_eq_some h
  obtain ⟨s0', h0', s3, s4, h3, hstep3, hobs3⟩ := observeCall_eq_some hk
  rw [h0] at h0'
  cases h0'
  have h8 : idleSteps rnd 8 s0 = some s8 := idleSteps_step h7 hstep
  have h4 : idleSteps rnd 4 s0 = some s4 := idleSteps_step h3 hstep3
  have hall := idleSteps_prefix h8
  have hstuck : StuckAtNoop s4 := by
    have e1 := (Prod.mk.inj hobs3).1
    have e2 := (Prod.mk.inj (Prod.mk.inj hobs3).2).1
    have e3 := (Prod.mk.inj (Prod.mk.inj (Prod.mk.inj hobs3).2).2).1
    have e4 := (Prod.mk.inj (Prod.mk.inj (Prod.mk.inj (Prod.mk.inj hobs3).2).2).2).1
    have e5 := (Prod.mk.inj (Prod.mk.inj (Prod.mk.inj (Prod.mk.inj (Prod.mk.inj hobs3).2).2).2).2).1
    have e6 := (Prod.mk.inj (Prod.mk.inj (Prod.mk.inj (Prod.mk.inj (Prod.mk.inj hobs3).2).2).2).2).2
    refine ⟨?_, ?_, 0, ?_, e3, e4, e5, e6⟩
    · rw [e1, e2]
      decide
    · rw [e2]
      decide
    · rw [e1]
      rfl
  refine ⟨s0, h0, hall, ⟨s8, h8, ?_⟩, ?_⟩
  · intro r
    have := List.all_eq_true.mp hobs r (List.mem_finRange r)
    exact of_decide_eq_true this
  · rintro n t ⟨s1, h1, h2⟩
    by_cases hn : n < 8
    · obtain ⟨s1', t1, h1', h2'⟩ := hall n hn
      rw [h1] at h1'
      cases h1'
      rw [h2] at h2'
      cases h2'
    · have hs1 := idleSteps_stuckAtNoop h4 hstuck n s1 (by omega) h1
      have := (nextStep_stuckAtNoop hs1 h2).1
      cases this

/-! ### Issue -/

theorem captureJ_spec {s : MachineState} (s1 : MachineState) {robIdx : Nat} {rs : Fin 32}
    (r : ResStation)
    (hrf : s1.regFile = s.regFile)
    (hrob : ∀ p : Fin 16, p.val ≠ robIdx → s1.rob p = s.rob p)
    (hok : SourceOk s robIdx rs) :
    captureJ s1 (s.regResult rs) rs r =
      Outcome.ok { r with Vj := sourceValue s rs r.Vj, Qj := sourceTag s rs } := by
  unfold captureJ sourceValue sourceTag
  by_cases hv : (s.regResult rs).valid = true
  · rw [if_pos hv, if_pos hv, if_pos hv, hrf]
  · rw [if_neg hv, if_neg hv, if_neg hv]
    rcases hok with h | ⟨hlt, hne⟩
    · exact absurd h hv
    · have hp : idx? 16 (s.regResult rs).robIdx = some ⟨_, hlt⟩ := idx?_eq_some_iff.mpr rfl
      rw [hp]
      dsimp only
      rw [hrob ⟨_, hlt⟩ hne]
      by_cases hpv : (s.rob ⟨_, hlt⟩).valid = true
      · rw [if_pos hpv, if_pos hpv, if_pos hpv]
      · rw [if_neg hpv, if_neg hpv, if_neg hpv]

theorem captureK_spec {s : MachineState} (s1 : MachineState) {robIdx : Nat} {rs : Fin 32}
    (r : ResStation)
    (hrf : s1.regFile = s.regFile)
    (hrob : ∀ p : Fin 16, p.val ≠ robIdx → s1.rob p = s.rob p)
    (hok : SourceOk s robIdx rs) :
    captureK s1 (s.regResult rs) rs r =
      Outcome.ok { r with Vk := sourceValue s rs r.Vk, Qk := sourceTag s rs } := by
  unfold captureK sourceValue sourceTag
  by_cases hv : (s.regResult rs).valid = true
  · rw [if_pos hv, if_pos hv, if_pos hv, hrf]
  · rw [if_neg hv, if_neg hv, if_neg hv]
    rcases hok with h | ⟨hlt, hne⟩
    · exact absurd h hv
    · have hp : idx? 16 (s.regResult rs).robIdx = some ⟨_, hlt⟩ := idx?_eq_some_iff.mpr rfl
      rw [hp]
      dsimp only
      rw [hrob ⟨_, hlt⟩ hne]
      by_cases hpv : (s.rob ⟨_, hlt⟩).valid = true
      · rw [if_pos hpv, if_pos hpv, if_pos hpv]
      · rw [if_neg hpv, if_neg hpv, if_neg hpv]

theorem issueInstr_unfold (s : MachineState) (a : Fin 10000) (u : Fin 7) (i : Fin 16)
    (hn : ¬(opcode (s.memory a) = NOOP ∨ opcode (s.memory a) = HALT)) {x : Nat}
    (hx : issueExTime (opcode (s.memory a)) = some x) :
    ∃ (s0 : MachineState) (r0 : ResStation),
      issueInstr s a.val u.val i.val = issueOperands s0 u (s.memory a) a.val i.val r0 ∧
      s0.regFile = s.regFile ∧ s0.regResult = s.regResult ∧ s0.reservation = s.reservation ∧
      (∀ p : Fin 16, p.val ≠ i.val → s0.rob p = s.rob p) ∧
      r0.Vj = (s.reservation u).Vj ∧ r0.Vk = (s.reservation u).Vk ∧
      r0.Qj = (s.reservation u).Qj ∧ r0.Qk = (s.reservation u).Qk := by
  unfold issueInstr
  rw [idx?_val, idx?_val, idx?_val]
  dsimp only
  rw [if_neg hn, hx]
  exact ⟨_, _, rfl, rfl, rfl, rfl, fun p hp => setIdx_ne _ _ (fun h => hp (congrArg Fin.val h)),
    rfl, rfl, rfl, rfl⟩

/-- C11: operand capture in `issueInstr(pc, unit, robIdx)` (indices `a`, `u`, `i` in range),
read against the state `s` before the issue, for sources that are valid or whose producer
slot is a ROB index other than `robIdx` (`SourceOk`).  For `RR_ALU` and `SW`, `reg1` feeds
`Vj`/`Qj` and `reg2` feeds `Vk`/`Qk`; for `LW`, `ADDI`, `ANDI` and `BEQZ`, `reg1` feeds
`Vj`/`Qj`.  The captured pair is `sourceValue`/`sourceTag`: `V = regFile[r]`, `Q = READY`
when `regResult[r]` is valid; otherwise, with `p = rob[regResult[r].robIdx]`,
`V = p.result`, `Q = READY` when `p` is valid, else `Q = p.execUnit` and `V` is left as it
was.  For `J` the station gets `Qk = READY` and `Vk = pc + 1`. -/
theorem issueInstr_operands (s : MachineState) (a : Fin 10000) (u : Fin 7) (i : Fin 16) :
    (opcode (s.memory a) = RR_ALU ∨ opcode (s.memory a) = SW →
      SourceOk s i.val (reg1Idx (s.memory a)) → SourceOk s i.val (reg2Idx (s.memory a)) →
      ∃ t, issueInstr s a.val u.val i.val = Outcome.ok t ∧
        (t.reservation u).Vj = sourceValue s (reg1Idx (s.memory a)) (s.reservation u).Vj ∧
        (t.reservation u).Qj = sourceTag s (reg1Idx (s.memory a)) ∧
        (t.reservation u).Vk = sourceValue s (reg2Idx (s.memory a)) (s.reservation u).Vk ∧
        (t.reservation u).Qk = sourceTag s (reg2Idx (s.memory a))) ∧
    (opcode (s.memory a) = LW ∨ opcode (s.memory a) = ADDI ∨ opcode (s.memory a) = ANDI ∨
        opcode (s.memory a) = BEQZ →
      SourceOk s i.val (reg1Idx (s.memory a)) →
      ∃ t, issueInstr s a.val u.val i.val = Outcome.ok t ∧
        (t.reservation u).Vj = sourceValue s (reg1Idx (s.memory a)) (s.reservation u).Vj ∧
        (t.reservation u).Qj = sourceTag s (reg1Idx (s.memory a))) ∧
    (opcode (s.memory a) = J →
      ∃ t, issueInstr s a.val u.val i.val = Outcome.ok t ∧
        (t.reservation u).Qk = READY ∧ (t.reservation u).Vk = (a.val + 1) % 4294967296)  := by
  refine ⟨?_, ?_, ?_⟩
  · intro hop h1 h2
    have hn : ¬(opcode (s.memory a) = NOOP ∨ opcode (s.memory a) = HALT) := by
      rcases hop with h | h <;> (rw [h]; decide)
    obtain ⟨x, hx⟩ : ∃ x, issueExTime (opcode (s.memory a)) = some x := by
      rcases hop with h | h <;> (rw [h]; exact ⟨_, rfl⟩)
    obtain ⟨s0, r0, he, hrf, hrr, hrs, hrob, hVj, hVk, -, -⟩ := issueInstr_unfold s a u i hn hx
    rw [he]
    unfold issueOperands
    dsimp only
    rw [hrr]
    rcases hop with hop | hop
    · have hJ := fun rr r =>
        captureJ_spec { s0 with regResult := rr } r hrf hrob h1
      have hK := fun rr r =>
        captureK_spec { s0 with regResult := rr } r hrf hrob h2
      rw [if_pos hop, hJ]
      simp only [Outcome.bind]
      rw [hK]
      exact ⟨_, rfl, by simp [setIdx_same, hVj], by simp [setIdx_same],
        by simp [setIdx_same, hVk], by simp [setIdx_same]⟩
    · rw [if_neg (by rw [hop]; decide), if_neg (by rw [hop]; decide), if_pos hop,
        captureJ_spec _ _ hrf hrob h1]
      simp only [Outcome.bind]
      rw [captureK_spec _ _ hrf hrob h2]
      exact ⟨_, rfl, by simp [setIdx_same, hVj], by simp [setIdx_same],
        by simp [setIdx_same, hVk], by simp [setIdx_same]⟩
  · intro hop h1
    have hn : ¬(opcode (s.memory a) = NOOP ∨ opcode (s.memory a) = HALT) := by
      rcases hop with h | h | h | h <;> (rw [h]; decide)
    have hr : ¬ opcode (s.memory a) = RR_ALU := by
      rcases hop with h | h | h | h <;> (rw [h]; decide)
    obtain ⟨x, hx⟩ : ∃ x, issueExTime (opcode (s.memory a)) = some x := by
      rcases hop with h | h | h | h <;> (rw [h]; exact ⟨_, rfl⟩)
    obtain ⟨s0, r0, he, hrf, hrr, hrs, hrob, hVj, -, -, -⟩ := issueInstr_unfold s a u i hn hx
    rw [he]
    unfold issueOperands
    dsimp only
    have hJ := fun rr r =>
      captureJ_spec { s0 with regResult := rr } r hrf hrob h1
    rw [hrr, if_neg hr, if_pos hop, hJ]
    simp only [Outcome.bind]
    exact ⟨_, rfl, by simp [setIdx_same, hVj], by simp [setIdx_same]⟩
  · intro hop
    obtain ⟨s0, r0, he, -⟩ :=
      issueInstr_unfold s a u i (by rw [hop]; decide) (x := 1) (by rw [hop]; decide)
    rw [he]
    unfold issueOperands
    dsimp only
    rw [if_neg (by rw [hop]; decide), if_neg (by rw [hop]; decide),
      if_neg (by rw [hop]; decide)]
    exact ⟨_, rfl, by simp [setIdx_same], by simp [setIdx_same, wadd]⟩

/-- An instance of C11: the `LW` at address 0 of an otherwise reset machine issued into `LOAD1`
and ROB slot 0 captures `r0` as a ready operand. -/
theorem issueInstr_operands_witness :
    (opcode (lwAtZero.memory 0) = LW ∧ SourceOk lwAtZero 0 (reg1Idx (lwAtZero.memory 0))) ∧
    ∃ t, issueInstr lwAtZero (0 : Fin 10000).val (1 : Fin 7).val (0 : Fin 16).val =
        Outcome.ok t ∧
      (t.reservation 1).Vj =
        sourceValue lwAtZero (reg1Idx (lwAtZero.memory 0)) (lwAtZero.reservation 1).Vj ∧
      (t.reservation 1).Qj = sourceTag lwAtZero (reg1Idx (lwAtZero.memory 0)) :=
  ⟨⟨by decide, Or.inl (by decide)⟩,
    (issueInstr_operands lwAtZero 0 1 0).2.1 (Or.inl (by decide)) (Or.inl (by decide))⟩

/-! ### The decoder -/

theorem getField_eq (w hi lo : Nat) :
    getField w hi lo = w / 2 ^ lo % 2 ^ (hi - lo + 1) := by
  unfold getField
  rw [Nat.shiftRight_eq_div_pow, Nat.one_shiftLeft, Nat.and_pow_two_sub_one_eq_mod]

theorem signExtend16_eq (x : Nat) (hx : x < 65536) :
    signExtend 16 x = if x < 32768 then x else x + 4294967296 - 65536 := by
  simp only [signExtend, toWord, toSigned, Nat.shiftLeft_eq, Int.shiftRight_eq_div_pow,
    Nat.reduceSub, Nat.reducePow, WORD, Nat.cast_ofNat]
  split_ifs <;> omega

theorem signExtend26_eq (x : Nat) (hx : x < 67108864) :
    signExtend 26 x = if x < 33554432 then x else x + 4294967296 - 67108864 := by
  simp only [signExtend, toWord, toSigned, Nat.shiftLeft_eq, Int.shiftRight_eq_div_pow,
    Nat.reduceSub, Nat.reducePow, WORD, Nat.cast_ofNat]
  split_ifs <;> omega

/-- C16: for every word `w`, `opcode`, `reg1`, `reg2`, `reg3` and `func` are the bit fields
`w[31:26]`, `w[25:21]`, `w[20:16]`, `w[15:11]` and `w[10:0]`; `immEx w` is the 32-bit sign
extension of `w[15:0]` (the field itself when its bit 15 is 0, the field plus `2^32 - 2^16`
otherwise) and `jmpOffsetEx w` that of `w[25:0]`; and the opcode of `NOOP_INSTR = 0x0c000000`
is `NOOP`. -/
theorem decoder_fields (w : Nat) :
    opcode w = w / 2 ^ 26 % 2 ^ 6 ∧
    reg1 w = w / 2 ^ 21 % 2 ^ 5 ∧
    reg2 w = w / 2 ^ 16 % 2 ^ 5 ∧
    reg3 w = w / 2 ^ 11 % 2 ^ 5 ∧
    func w = w % 2 ^ 11 ∧
    immEx w = (if w % 2 ^ 16 < 2 ^ 15 then w % 2 ^ 16 else w % 2 ^ 16 + 2 ^ 32 - 2 ^ 16) ∧
    jmpOffsetEx w =
      (if w % 2 ^ 26 < 2 ^ 25 then w % 2 ^ 26 else w % 2 ^ 26 + 2 ^ 32 - 2 ^ 26) ∧
    opcode NOOP_INSTR = NOOP := by
  refine ⟨getField_eq w 31 26, getField_eq w 25 21, getField_eq w 20 16, getField_eq w 15 11,
    ?_, ?_, ?_, by decide⟩
  · unfold func
    rw [getField_eq]
    simp
  · unfold immEx
    rw [getField_eq, signExtend16_eq _ (by simp; omega)]
    simp
  · unfold jmpOffsetEx
    rw [getField_eq, signExtend26_eq _ (by simp; omega)]
    simp

/-! ### The execution function and the branch predictor -/

theorem wsub_int (a b : Nat) : ((wsub a b : Nat) : Int) = ((a : Int) - (b : Int)) % 4294967296 := by
  show (((a + (4294967296 - b % 4294967296)) % 4294967296 : Nat) : Int) = _
  omega

/-- C12: `getResult` on station `u` follows the table: `ADDI` gives `Vj + immEx` and `RR_ALU`
with `func = 32` gives `Vj + Vk` (modulo `2^32`), `ANDI` gives `Vj & immEx`, `RR_ALU` with
`func = 34` gives `Vj - Vk` modulo `2^32` and with `func = 36` gives `Vj & Vk`, `LW` gives
`memory[Vj + immEx]` when that address is in range, `SW` gives `Vk`, `BEQZ` gives `Vj`, `J`
gives `jmpOffsetEx`, and every other opcode gives 0.  The function returns a value only: it
has no state to change. -/
theorem getResult_table (s : MachineState) (u : Fin 7) :
    (opcode (s.reservation u).instr = ADDI →
      getResult s u.val = Outcome.ok
        (((s.reservation u).Vj + immEx (s.reservation u).instr) % 4294967296)) ∧
    (opcode (s.reservation u).instr = ANDI →
      getResult s u.val = Outcome.ok ((s.reservation u).Vj &&& immEx (s.reservation u).instr)) ∧
    (opcode (s.reservation u).instr = RR_ALU → func (s.reservation u).instr = 32 →
      getResult s u.val = Outcome.ok
        (((s.reservation u).Vj + (s.reservation u).Vk) % 4294967296)) ∧
    (opcode (s.reservation u).instr = RR_ALU → func (s.reservation u).instr = 34 →
      ∃ v : Nat, getResult s u.val = Outcome.ok v ∧
        (v : Int) = (((s.reservation u).Vj : Int) - ((s.reservation u).Vk : Int)) % 4294967296) ∧
    (opcode (s.reservation u).instr = RR_ALU → func (s.reservation u).instr = 36 →
      getResult s u.val = Outcome.ok ((s.reservation u).Vj &&& (s.reservation u).Vk)) ∧
    (opcode (s.reservation u).instr = LW →
      ∀ a : Fin 10000,
        a.val = ((s.reservation u).Vj + immEx (s.reservation u).instr) % 4294967296 →
        getResult s u.val = Outcome.ok (s.memory a)) ∧
    (opcode (s.reservation u).instr = SW →
      getResult s u.val = Outcome.ok (s.reservation u).Vk) ∧
    (opcode (s.reservation u).instr = BEQZ →
      getResult s u.val = Outcome.ok (s.reservation u).Vj) ∧
    (opcode (s.reservation u).instr = J →
      getResult s u.val = Outcome.ok (jmpOffsetEx (s.reservation u).instr)) ∧
    (opcode (s.reservation u).instr ∉ [ADDI, ANDI, RR_ALU, LW, SW, BEQZ, J] →
      getResult s u.val = Outcome.ok 0) := by
  unfold getResult
  rw [idx?_val]
  dsimp only
  refine ⟨?_, ?_, ?_, ?_, ?_, ?_, ?_, ?_, ?_, ?_⟩
  · intro h
    rw [if_neg (by rw [h]; decide), if_pos h]
    rfl
  · intro h
    rw [if_pos h]
  · intro h hf
    rw [if_neg (by rw [h]; decide), if_neg (by rw [h]; decide), if_pos h, if_pos hf]
    rfl
  · intro h hf
    rw [if_neg (by rw [h]; decide), if_neg (by rw [h]; decide), if_pos h,
      if_neg (by rw [hf]; decide), if_pos hf]
    exact ⟨_, rfl, wsub_int _ _⟩
  · intro h hf
    rw [if_neg (by rw [h]; decide), if_neg (by rw [h]; decide), if_pos h,
      if_neg (by rw [hf]; decide), if_neg (by rw [hf]; decide), if_pos hf]
  · intro h a ha
    have hi : idx? 10000 (wadd (s.reservation u).Vj (immEx (s.reservation u).instr)) = some a :=
      idx?_eq_some_iff.mpr ha
    rw [if_neg (by rw [h]; decide), if_neg (by rw [h]; decide), if_neg (by rw [h]; decide),
      if_pos h, hi]
  · intro h
    rw [if_neg (by rw [h]; decide), if_neg (by rw [h]; decide), if_neg (by rw [h]; decide),
      if_neg (by rw [h]; decide), if_pos h]
  · intro h
    rw [if_neg (by rw [h]; decide), if_neg (by rw [h]; decide), if_neg (by rw [h]; decide),
      if_neg (by rw [h]; decide), if_neg (by rw [h]; decide), if_pos h]
  · intro h
    rw [if_neg (by rw [h]; decide), if_neg (by rw [h]; decide), if_neg (by rw [h]; decide),
      if_neg (by rw [h]; decide), if_neg (by rw [h]; decide), if_neg (by rw [h]; decide),
      if_pos h]
  · intro h
    simp only [List.mem_cons, List.mem_singleton, List.not_mem_nil, or_false, not_or] at h
    obtain ⟨h1, h2, h3, h4, h5, h6, h7⟩ := h
    rw [if_neg h2, if_neg h1, if_neg h3, if_neg h4, if_neg h5, if_neg h6, if_neg h7]

theorem finRange8_split (j : Fin 8) :
    List.finRange 8 =
      (List.finRange 8).filter (fun k => decide (k < j)) ++
        j :: (List.finRange 8).filter (fun k => decide (j < k)) := by
  revert j
  decide

theorem finRange16_split (j : Fin 16) :
    List.finRange 16 =
      (List.finRange 16).filter (fun k => decide (k < j)) ++
        j :: (List.finRange 16).filter (fun k => decide (j < k)) := by
  revert j
  decide

theorem getTargetFrom_miss (btb : Fin 8 → BTBEntry) (branchPc : Nat) (l : List (Fin 8))
    (h : ∀ k ∈ l, ¬((btb k).valid = true ∧ (btb k).branchPc = branchPc)) :
    getTargetFrom btb branchPc l = wadd branchPc 1 := by
  induction l with
  | nil => rfl
  | cons i rest ih =>
    unfold getTargetFrom
    rw [if_neg (h i (List.mem_cons_self _ _))]
    exact ih fun k hk => h k (List.mem_cons_of_mem _ hk)

theorem getTargetFrom_hit (btb : Fin 8 → BTBEntry) (branchPc : Nat) (l1 l2 : List (Fin 8))
    (j : Fin 8) (h : ∀ k ∈ l1, ¬((btb k).valid = true ∧ (btb k).branchPc = branchPc))
    (hv : (btb j).valid = true) (hb : (btb j).branchPc = branchPc) :
    getTargetFrom btb branchPc (l1 ++ j :: l2) =
      if (btb j).branchPred = BHT.WEAKTAKEN ∨ (btb j).branchPred = BHT.STRONGTAKEN then
        (btb j).targetPc
      else wadd branchPc 1 := by
  induction l1 with
  | nil =>
    show getTargetFrom btb branchPc (j :: l2) = _
    unfold getTargetFrom
    rw [if_pos ⟨hv, hb⟩]
    cases (btb j).branchPred <;> simp
  | cons i rest ih =>
    show getTargetFrom btb branchPc (i :: (rest ++ j :: l2)) = _
    unfold getTargetFrom
    rw [if_neg (h i (List.mem_cons_self _ _))]
    exact ih fun k hk => h k (List.mem_cons_of_mem _ hk)

/-- C14: `getTarget(branchPc)` returns, when some valid BTB entry has that `branchPc` and `j`
is the lowest index of such an entry, the `targetPc` of entry `j` if its history is
`WEAKTAKEN` or `STRONGTAKEN` and `branchPc + 1` (modulo `2^32`) if it is `STRONGNOT` or
`WEAKNOT`; when no valid entry has that `branchPc` it returns `branchPc + 1`.  The function
returns a value only: it has no state to change. -/
theorem getTarget_spec (s : MachineState) (branchPc : Nat) :
    (∀ j : Fin 8, (s.btb j).valid = true → (s.btb j).branchPc = branchPc →
      (∀ k : Fin 8, k < j → ¬((s.btb k).valid = true ∧ (s.btb k).branchPc = branchPc)) →
      getTarget s branchPc =
        if (s.btb j).branchPred = BHT.WEAKTAKEN ∨ (s.btb j).branchPred = BHT.STRONGTAKEN then
          (s.btb j).targetPc
        else (branchPc + 1) % 4294967296) ∧
    ((∀ j : Fin 8, ¬((s.btb j).valid = true ∧ (s.btb j).branchPc = branchPc)) →
      getTarget s branchPc = (branchPc + 1) % 4294967296) := by
  constructor
  · intro j hv hb hlow
    unfold getTarget
    rw [finRange8_split j]
    exact getTargetFrom_hit _ _ _ _ j
      (fun k hk => hlow k (of_decide_eq_true (List.mem_filter.mp hk).2)) hv hb
  · intro h
    exact getTargetFrom_miss _ _ _ fun k _ => h k

theorem scanBTB_valid_tail (btb : Fin 8 → BTBEntry) (branchPc targetPc : Nat)
    (l : List (Fin 8)) (v : Option (Fin 8))
    (h : ∀ k ∈ l, (btb k).valid = true ∧
      ¬((btb k).branchPc = branchPc ∧ (btb k).targetPc = targetPc)) :
    scanBTB btb branchPc targetPc l v = Sum.inr v := by
  induction l with
  | nil => rfl
  | cons i rest ih =>
    unfold scanBTB
    rw [if_pos (h i (List.mem_cons_self _ _)).1, if_neg (h i (List.mem_cons_self _ _)).2]
    exact ih fun k hk => h k (List.mem_cons_of_mem _ hk)

theorem scanBTB_last_invalid (btb : Fin 8 → BTBEntry) (branchPc targetPc : Nat)
    (l1 l2 : List (Fin 8)) (j : Fin 8)
    (h1 : ∀ k ∈ l1, ¬((btb k).valid = true ∧
      (btb k).branchPc = branchPc ∧ (btb k).targetPc = targetPc))
    (hj : (btb j).valid = false)
    (h2 : ∀ k ∈ l2, (btb k).valid = true ∧
      ¬((btb k).branchPc = branchPc ∧ (btb k).targetPc = targetPc)) :
    ∀ v, scanBTB btb branchPc targetPc (l1 ++ j :: l2) v = Sum.inr (some j) := by
  induction l1 with
  | nil =>
    intro v
    show scanBTB btb branchPc targetPc (j :: l2) v = _
    unfold scanBTB
    rw [if_neg (by rw [hj]; decide)]
    exact scanBTB_valid_tail _ _ _ _ _ h2
  | cons i rest ih =>
    intro v
    show scanBTB btb branchPc targetPc (i :: (rest ++ j :: l2)) v = _
    unfold scanBTB
    have hrest := ih fun k hk => h1 k (List.mem_cons_of_mem _ hk)
    by_cases hv : (btb i).valid = true
    · rw [if_pos hv, if_neg (fun hm => h1 i (List.mem_cons_self _ _) ⟨hv, hm⟩)]
      exact hrest v
    · rw [if_neg hv]
      exact hrest _

/-- C13, as the code behaves: on a BTB with no valid entry matching both `branchPc` and
`targetPc` but with an invalid slot, `updateBTB(branchPc, targetPc, taken)` installs the new
entry `{valid, branchPc, targetPc, history = STRONGTAKEN if taken else STRONGNOT}` in the
last (highest-index) invalid slot `j` and leaves the seven other slots, and every other field
of the state, unchanged. -/
theorem updateBTB_installs_last_invalid (s : MachineState) (branchPc targetPc : Nat)
    (taken : Bool) (rnd : Fin 8) (j : Fin 8)
    (hmiss : ∀ k : Fin 8, ¬((s.btb k).valid = true ∧
      (s.btb k).branchPc = branchPc ∧ (s.btb k).targetPc = targetPc))
    (hj : (s.btb j).valid = false)
    (hlast : ∀ k : Fin 8, j < k → (s.btb k).valid = true) :
    updateBTB s branchPc targetPc taken rnd =
      { s with btb := setIdx s.btb j (freshBTBEntry branchPc targetPc taken) } ∧
    ∀ k : Fin 8, k ≠ j → (updateBTB s branchPc targetPc taken rnd).btb k = s.btb k := by
  have hscan : scanBTB s.btb branchPc targetPc (List.finRange 8) none = Sum.inr (some j) := by
    rw [finRange8_split j]
    refine scanBTB_last_invalid _ _ _ _ _ j (fun k _ => hmiss k) hj (fun k hk => ?_) none
    have hk2 : j < k := of_decide_eq_true (List.mem_filter.mp hk).2
    exact ⟨hlast k hk2, fun hm => hmiss k ⟨hlast k hk2, hm⟩⟩
  have hupd : updateBTB s branchPc targetPc taken rnd =
      { s with btb := setIdx s.btb j (freshBTBEntry branchPc targetPc taken) } := by
    unfold updateBTB
    rw [hscan]
    rfl
  refine ⟨hupd, fun k hk => ?_⟩
  rw [hupd]
  exact setIdx_ne _ _ hk

/-- An instance of C13 as amended: on the empty BTB the entry goes to slot 7. -/
theorem updateBTB_installs_last_invalid_witness :
    ((∀ k : Fin 8, ¬((newMachineState.btb k).valid = true ∧
        (newMachineState.btb k).branchPc = 17 ∧ (newMachineState.btb k).targetPc = 19)) ∧
      (newMachineState.btb 7).valid = false ∧
      (∀ k : Fin 8, 7 < k → (newMachineState.btb k).valid = true)) ∧
    (updateBTB newMachineState 17 19 true 0 =
      { newMachineState with
        btb := setIdx newMachineState.btb 7 (freshBTBEntry 17 19 true) } ∧
    ∀ k : Fin 8, k ≠ 7 → (updateBTB newMachineState 17 19 true 0).btb k =
      newMachineState.btb k) :=
  ⟨by decide, updateBTB_installs_last_invalid newMachineState 17 19 true 0 7
    (by decide) (by decide) (by decide)⟩

/-- C13 as stated fails: on the empty BTB, whose first invalid slot is slot 0 and which
holds no matching entry, `updateBTB(17, 19, taken)` leaves slot 0 invalid and installs the
entry in slot 7. -/
theorem updateBTB_first_invalid_counterexample :
    (newMachineState.btb 0).valid = false ∧
    (∀ k : Fin 8, ¬((newMachineState.btb k).valid = true ∧
      (newMachineState.btb k).branchPc = 17 ∧ (newMachineState.btb k).targetPc = 19)) ∧
    ((updateBTB newMachineState 17 19 true 0).btb 0).valid = false ∧
    (updateBTB newMachineState 17 19 true 0).btb 7 = freshBTBEntry 17 19 true ∧
    (updateBTB newMachineState 17 19 true 0).btb ≠
      setIdx newMachineState.btb 0 (freshBTBEntry 17 19 true) := by
  refine ⟨by decide, by decide, by decide, by decide, fun h => ?_⟩
  have h0 := congrArg (fun f => (f 0).valid) h
  revert h0
  decide

/-! ### The ROB queue -/

/-- C15: for `robHeadIdx` and `robTailIdx` in `[0, 16)`, `robPush` fails (it returns the
sentinel and leaves the state unchanged) exactly when `(robHeadIdx - robTailIdx) mod 16 = 1`,
the subtraction being done modulo `2^32`, that is exactly when
`(robTailIdx - robHeadIdx) mod 16 = 15`; otherwise it returns the old tail and sets
`robTailIdx` to `(old tail + 1) mod 16`, changing neither `robHeadIdx` nor any ROB entry nor
any other field. -/
theorem robPush_spec (s : MachineState) (hh : s.robHeadIdx < 16) (ht : s.robTailIdx < 16) :
    ((robPush s).1 = none ↔
      ((s.robHeadIdx : Int) - (s.robTailIdx : Int)) % 4294967296 % 16 = 1) ∧
    (((s.robHeadIdx : Int) - (s.robTailIdx : Int)) % 4294967296 % 16 = 1 ↔
      (s.robTailIdx + 16 - s.robHeadIdx) % 16 = 15) ∧
    ((robPush s).1 = none → robPush s = (none, s)) ∧
    ((robPush s).1 ≠ none →
      robPush s = (some s.robTailIdx, { s with robTailIdx := (s.robTailIdx + 1) % 16 })) := by
  have hfull : wsub s.robHeadIdx s.robTailIdx % ROBSIZE = 1 ↔
      ((s.robHeadIdx : Int) - (s.robTailIdx : Int)) % 4294967296 % 16 = 1 := by
    show (s.robHeadIdx + (4294967296 - s.robTailIdx % 4294967296)) % 4294967296 % 16 = 1 ↔ _
    omega
  have htail : wadd s.robTailIdx 1 % ROBSIZE = (s.robTailIdx + 1) % 16 := by
    show (s.robTailIdx + 1) % 4294967296 % 16 = _
    omega
  unfold robPush
  by_cases hc : wsub s.robHeadIdx s.robTailIdx % ROBSIZE = 1
  · rw [if_pos hc]
    refine ⟨⟨fun _ => hfull.mp hc, fun _ => rfl⟩, by omega, fun _ => rfl, fun h => absurd rfl h⟩
  · rw [if_neg hc, htail]
    refine ⟨⟨fun h => ?_, fun h => absurd (hfull.mpr h) hc⟩, by omega, fun h => ?_, fun _ => rfl⟩
    · cases h
    · cases h

/-- An instance of C15: the empty queue of the initial state accepts a push at slot 0. -/
theorem robPush_spec_witness :
    (newMachineState.robHeadIdx < 16 ∧ newMachineState.robTailIdx < 16) ∧
    ((robPush newMachineState).1 = none ↔
      ((newMachineState.robHeadIdx : Int) - (newMachineState.robTailIdx : Int))
        % 4294967296 % 16 = 1) ∧
    (((newMachineState.robHeadIdx : Int) - (newMachineState.robTailIdx : Int))
        % 4294967296 % 16 = 1 ↔
      (newMachineState.robTailIdx + 16 - newMachineState.robHeadIdx) % 16 = 15) ∧
    ((robPush newMachineState).1 = none → robPush newMachineState = (none, newMachineState)) ∧
    ((robPush newMachineState).1 ≠ none →
      robPush newMachineState = (some newMachineState.robTailIdx,
        { newMachineState with robTailIdx := (newMachineState.robTailIdx + 1) % 16 })) :=
  ⟨by decide, robPush_spec newMachineState (by decide) (by decide)⟩

/-! ### The phases of a tick, case by case -/

theorem getResult_setRob (s : MachineState) (rob : Fin 16 → ROBEntry) (unit : Nat) :
    getResult { s with rob := rob } unit = getResult s unit := by
  unfold getResult
  cases idx? 7 unit with
  | none => rfl
  | some u => dsimp only

/-- The five cases of one iteration of the processing loop, each with the state it leaves. -/
theorem advanceEntry_cases {s t : MachineState} {i : Fin 16}
    (h : advanceEntry s i = Outcome.ok t) :
    ∃ u : Fin 7, u.val = (s.rob i).execUnit ∧
      ((t = s ∧ ¬((s.rob i).busy = true ∧ ((s.rob i).instrStatus = EXECUTING ∨
          (s.rob i).instrStatus = WRITING_RESULT ∨
          ((s.rob i).instrStatus = ISSUING ∧ (s.reservation u).Qj = READY ∧
            (s.reservation u).Qk = READY)))) ∨
       ((s.rob i).busy = true ∧ (s.rob i).instrStatus = EXECUTING ∧
          (s.reservation u).exTimeLeft ≠ 0 ∧
          t = { s with reservation := setIdx s.reservation u { s.reservation u with exTimeLeft := wsub (s.reservation u).exTimeLeft 1 } }) ∨
       ((s.rob i).busy = true ∧ (s.rob i).instrStatus = EXECUTING ∧
          (s.reservation u).exTimeLeft = 0 ∧
          ∃ v, getResult s u.val = Outcome.ok v ∧
            t = { s with rob := fun j => broadcastROB u.val v (setIdx s.rob i (writeResultEntry (s.rob i) (s.reservation u)) j), reservation := setIdx (fun k => broadcastStation u.val v (s.reservation k)) u {} }) ∨
       ((s.rob i).busy = true ∧ (s.rob i).instrStatus = WRITING_RESULT ∧
          t = { s with rob := setIdx s.rob i { s.rob i with instrStatus := COMMITTING } }) ∨
       ((s.rob i).busy = true ∧ (s.rob i).instrStatus = ISSUING ∧
          (s.reservation u).Qj = READY ∧ (s.reservation u).Qk = READY ∧
          t = { s with rob := setIdx s.rob i { s.rob i with instrStatus := EXECUTING }, reservation := setIdx s.reservation u { s.reservation u with exTimeLeft := wsub (s.reservation u).exTimeLeft 1 } })) := by
  unfold advanceEntry at h
  dsimp only at h
  cases hu : idx? 7 (s.rob i).execUnit with
  | none => rw [hu] at h; cases h
  | some u =>
    rw [hu] at h
    dsimp only at h
    refine ⟨u, idx?_eq_some_iff.mp hu, ?_⟩
    by_cases hb : (s.rob i).busy = true
    · rw [if_pos hb] at h
      by_cases h1 : (s.rob i).instrStatus = EXECUTING
      · rw [if_pos h1] at h
        by_cases h2 : (s.reservation u).exTimeLeft ≠ 0
        · rw [if_pos h2] at h
          cases h
          exact Or.inr (Or.inl ⟨hb, h1, h2, rfl⟩)
        · rw [if_neg h2] at h
          obtain ⟨value, hv, h3⟩ := Outcome.bind_eq_ok_iff.mp h
          rw [getResult_setRob] at hv
          cases h3
          refine Or.inr (Or.inr (Or.inl ⟨hb, h1, not_not.mp h2, value, ?_, ?_⟩))
          · rw [← hv, idx?_eq_some_iff.mp hu]
          · unfold writeResultEntry broadcastUpdate
            rw [idx?_eq_some_iff.mp hu]
      · rw [if_neg h1] at h
        by_cases h2 : (s.rob i).instrStatus = WRITING_RESULT
        · rw [if_pos h2] at h
          cases h
          exact Or.inr (Or.inr (Or.inr (Or.inl ⟨hb, h2, rfl⟩)))
        · rw [if_neg h2] at h
          by_cases h3 : (s.rob i).instrStatus = ISSUING ∧ (s.reservation u).Qj = READY ∧
              (s.reservation u).Qk = READY
          · rw [if_pos h3] at h
            cases h
            exact Or.inr (Or.inr (Or.inr (Or.inr ⟨hb, h3.1, h3.2.1, h3.2.2, rfl⟩)))
          · rw [if_neg h3] at h
            cases h
            refine Or.inl ⟨rfl, ?_⟩
            rintro ⟨-, h4 | h4 | h4⟩
            · exact h1 h4
            · exact h2 h4
            · exact h3 h4
    · rw [if_neg hb] at h
      cases h
      exact Or.inl ⟨rfl, fun h4 => hb h4.1⟩

theorem advanceEntry_sameOutside {s t : MachineState} {i : Fin 16}
    (h : advanceEntry s i = Outcome.ok t) : SameOutside s t := by
  obtain ⟨u, -, h1 | h1 | h1 | h1 | h1⟩ := advanceEntry_cases h
  · rw [h1.1]
    exact ⟨rfl, rfl, rfl, rfl, rfl, rfl, rfl, rfl, rfl⟩
  · rw [h1.2.2.2]
    exact ⟨rfl, rfl, rfl, rfl, rfl, rfl, rfl, rfl, rfl⟩
  · obtain ⟨-, -, -, v, -, ht⟩ := h1
    rw [ht]
    exact ⟨rfl, rfl, rfl, rfl, rfl, rfl, rfl, rfl, rfl⟩
  · rw [h1.2.2]
    exact ⟨rfl, rfl, rfl, rfl, rfl, rfl, rfl, rfl, rfl⟩
  · rw [h1.2.2.2.2]
    exact ⟨rfl, rfl, rfl, rfl, rfl, rfl, rfl, rfl, rfl⟩

theorem SameOutside.trans {s t w : MachineState} (h1 : SameOutside s t)
    (h2 : SameOutside t w) : SameOutside s w := by
  obtain ⟨a1, a2, a3, a4, a5, a6, a7, a8, a9⟩ := h1
  obtain ⟨b1, b2, b3, b4, b5, b6, b7, b8, b9⟩ := h2
  exact ⟨b1.trans a1, b2.trans a2, b3.trans a3, b4.trans a4, b5.trans a5, b6.trans a6,
    b7.trans a7, b8.trans a8, b9.trans a9⟩

theorem advanceFrom_sameOutside (l : List (Fin 16)) :
    ∀ {s t : MachineState}, advanceFrom l s = Outcome.ok t → SameOutside s t := by
  induction l with
  | nil =>
    intro s t h
    cases h
    exact ⟨rfl, rfl, rfl, rfl, rfl, rfl, rfl, rfl, rfl⟩
  | cons i rest ih =>
    intro s t h
    obtain ⟨s1, h1, h2⟩ := Outcome.bind_eq_ok_iff.mp h
    exact (advanceEntry_sameOutside h1).trans (ih h2)

theorem captureJ_keeps {s : MachineState} {rg : RegResultEntry} {rs : Fin 32}
    {r r2 : ResStation} (h : captureJ s rg rs r = Outcome.ok r2) :
    r2.busy = r.busy ∧ r2.exTimeLeft = r.exTimeLeft := by
  unfold captureJ at h
  split_ifs at h
  · cases h
    exact ⟨rfl, rfl⟩
  · cases hp : idx? 16 rg.robIdx with
    | none => rw [hp] at h; cases h
    | some p =>
      rw [hp] at h
      dsimp only at h
      split_ifs at h <;> (cases h; exact ⟨rfl, rfl⟩)

theorem captureK_keeps {s : MachineState} {rg : RegResultEntry} {rs : Fin 32}
    {r r2 : ResStation} (h : captureK s rg rs r = Outcome.ok r2) :
    r2.busy = r.busy ∧ r2.exTimeLeft = r.exTimeLeft := by
  unfold captureK at h
  split_ifs at h
  · cases h
    exact ⟨rfl, rfl⟩
  · cases hp : idx? 16 rg.robIdx with
    | none => rw [hp] at h; cases h
    | some p =>
      rw [hp] at h
      dsimp only at h
      split_ifs at h <;> (cases h; exact ⟨rfl, rfl⟩)

/-- The second `switch` of `issueInstr` writes station `u` only, keeping the `busy` flag and
the execution time it was given. -/
theorem issueOperands_station {s t : MachineState} {u : Fin 7} {instr pc robIdx : Nat}
    {r : ResStation} (h : issueOperands s u instr pc robIdx r = Outcome.ok t) :
    (∀ k : Fin 7, k ≠ u → t.reservation k = s.reservation k) ∧
      (t.reservation u).busy = r.busy ∧ (t.reservation u).exTimeLeft = r.exTimeLeft := by
  unfold issueOperands at h
  dsimp only at h
  split_ifs at h
  · obtain ⟨r2, h1, h2⟩ := Outcome.bind_eq_ok_iff.mp h
    obtain ⟨r3, h3, h4⟩ := Outcome.bind_eq_ok_iff.mp h2
    cases h4
    obtain ⟨a1, a2⟩ := captureJ_keeps h1
    obtain ⟨b1, b2⟩ := captureK_keeps h3
    refine ⟨fun k hk => setIdx_ne _ _ hk, ?_, ?_⟩
    · show (setIdx s.reservation u r3 u).busy = _
      rw [setIdx_same, b1, a1]
    · show (setIdx s.reservation u r3 u).exTimeLeft = _
      rw [setIdx_same, b2, a2]
  · obtain ⟨r2, h1, h2⟩ := Outcome.bind_eq_ok_iff.mp h
    cases h2
    obtain ⟨a1, a2⟩ := captureJ_keeps h1
    refine ⟨fun k hk => setIdx_ne _ _ hk, ?_, ?_⟩
    · show (setIdx s.reservation u r2 u).busy = _
      rw [setIdx_same, a1]
    · show (setIdx s.reservation u r2 u).exTimeLeft = _
      rw [setIdx_same, a2]
  · obtain ⟨r2, h1, h2⟩ := Outcome.bind_eq_ok_iff.mp h
    obtain ⟨r3, h3, h4⟩ := Outcome.bind_eq_ok_iff.mp h2
    cases h4
    obtain ⟨a1, a2⟩ := captureJ_keeps h1
    obtain ⟨b1, b2⟩ := captureK_keeps h3
    refine ⟨fun k hk => setIdx_ne _ _ hk, ?_, ?_⟩
    · show (setIdx s.reservation u r3 u).busy = _
      rw [setIdx_same, b1, a1]
    · show (setIdx s.reservation u r3 u).exTimeLeft = _
      rw [setIdx_same, b2, a2]
  · cases h
    refine ⟨fun k hk => setIdx_ne _ _ hk, ?_, ?_⟩
    · show (setIdx s.reservation u _ u).busy = _
      rw [setIdx_same]
    · show (setIdx s.reservation u _ u).exTimeLeft = _
      rw [setIdx_same]

theorem issueExTime_range {op x : Nat} (h : issueExTime op = some x) : 1 ≤ x ∧ x ≤ 3 := by
  unfold issueExTime at h
  split_ifs at h <;> (cases h; decide)

/-- What `issueInstr` leaves in ROB slot `robIdx` and in station `unit`: the entry is busy,
`ISSUING`, attached to `unit`, with its `valid` flag as found; the station is busy with an
execution time between 1 and 3; the other stations are unchanged. -/
theorem issueInstr_slot {s t : MachineState} {pc unit robIdx : Nat}
    (h : issueInstr s pc unit robIdx = Outcome.ok t) :
    ∃ (u : Fin 7) (i : Fin 16), u.val = unit ∧ i.val = robIdx ∧
      (t.rob i).busy = true ∧ (t.rob i).instrStatus = ISSUING ∧ (t.rob i).execUnit = unit ∧
      (t.rob i).valid = (s.rob i).valid ∧
      (∀ k : Fin 7, k ≠ u → t.reservation k = s.reservation k) ∧
      (t.reservation u).busy = true ∧ 1 ≤ (t.reservation u).exTimeLeft ∧
      (t.reservation u).exTimeLeft ≤ 3 := by
  unfold issueInstr at h
  cases ha : idx? 10000 pc with
  | none => rw [ha] at h; cases h
  | some a =>
    cases hu : idx? 7 unit with
    | none => rw [ha, hu] at h; cases h
    | some u =>
      cases hi : idx? 16 robIdx with
      | none => rw [ha, hu, hi] at h; cases h
      | some i =>
        rw [ha, hu, hi] at h
        dsimp only at h
        refine ⟨u, i, idx?_eq_some_iff.mp hu, idx?_eq_some_iff.mp hi, ?_⟩
        by_cases hn : opcode (s.memory a) = NOOP ∨ opcode (s.memory a) = HALT
        · rw [if_pos hn] at h
          cases h
          refine ⟨?_, ?_, ?_, ?_, fun k hk => setIdx_ne _ _ hk, ?_, ?_, ?_⟩
          · show (setIdx s.rob i _ i).busy = true
            rw [setIdx_same]
          · show (setIdx s.rob i _ i).instrStatus = ISSUING
            rw [setIdx_same]
          · show (setIdx s.rob i _ i).execUnit = unit
            rw [setIdx_same]
          · show (setIdx s.rob i _ i).valid = _
            rw [setIdx_same]
          · show (setIdx s.reservation u _ u).busy = true
            rw [setIdx_same]
          · show 1 ≤ (setIdx s.reservation u _ u).exTimeLeft
            rw [setIdx_same]
          · show (setIdx s.reservation u _ u).exTimeLeft ≤ 3
            rw [setIdx_same]
            exact (by decide : (1 : Nat) ≤ 3)
        · rw [if_neg hn] at h
          cases he : issueExTime (opcode (s.memory a)) with
          | none => rw [he] at h; cases h
          | some x =>
            rw [he] at h
            dsimp only at h
            obtain ⟨-, -, b3, -⟩ := issueOperands_frame h
            obtain ⟨c1, c2, c3⟩ := issueOperands_station h
            obtain ⟨d1, d2⟩ := issueExTime_range he
            rw [b3]
            refine ⟨?_, ?_, ?_, ?_, c1, c2, ?_, ?_⟩
            · show (setIdx s.rob i _ i).busy = true
              rw [setIdx_same]
            · show (setIdx s.rob i _ i).instrStatus = ISSUING
              rw [setIdx_same]
            · show (setIdx s.rob i _ i).execUnit = unit
              rw [setIdx_same]
            · show (setIdx s.rob i _ i).valid = _
              rw [setIdx_same]
            · rw [c3]
              exact d1
            · rw [c3]
              exact d2

/-- The pc update after an issue keeps every station and, in every ROB entry, every field
but `address`. -/
theorem afterIssue_slot {s t : MachineState} {instr robIdx : Nat} {b : Bool}
    (h : afterIssue s instr robIdx = Outcome.ok (b, t)) :
    t.reservation = s.reservation ∧ t.regResult = s.regResult ∧
      ∀ j : Fin 16, (t.rob j).busy = (s.rob j).busy ∧ (t.rob j).valid = (s.rob j).valid ∧
        (t.rob j).instrStatus = (s.rob j).instrStatus ∧
        (t.rob j).execUnit = (s.rob j).execUnit ∧ (t.rob j).instr = (s.rob j).instr := by
  unfold afterIssue at h
  split_ifs at h
  · cases hi : idx? 16 robIdx with
    | none => rw [hi] at h; cases h
    | some i =>
      rw [hi] at h
      dsimp only at h
      cases h
      refine ⟨rfl, rfl, fun j => ?_⟩
      show (setIdx s.rob i _ j).busy = _ ∧ (setIdx s.rob i _ j).valid = _ ∧
        (setIdx s.rob i _ j).instrStatus = _ ∧ (setIdx s.rob i _ j).execUnit = _ ∧
        (setIdx s.rob i _ j).instr = _
      by_cases hj : j = i
      · subst hj
        rw [setIdx_same]
        exact ⟨rfl, rfl, rfl, rfl, rfl⟩
      · rw [setIdx_ne _ _ hj]
        exact ⟨rfl, rfl, rfl, rfl, rfl⟩
  all_goals
    cases h
    exact ⟨rfl, rfl, fun _ => ⟨rfl, rfl, rfl, rfl, rfl⟩⟩

theorem pickUnit_spec {s : MachineState} {a b : Fin 7} (h : pickUnit s a b ≠ INVALID) :
    ∃ u : Fin 7, u.val = pickUnit s a b ∧ (s.reservation u).busy = false ∧ (u = a ∨ u = b) := by
  unfold pickUnit at h ⊢
  split_ifs at h ⊢ with h1 h2
  · exact ⟨a, rfl, h1, Or.inl rfl⟩
  · exact ⟨b, rfl, h2, Or.inr rfl⟩
  · exact absurd rfl h

theorem chooseUnit_spec {s : MachineState} {op unit : Nat} (h : chooseUnit s op = some unit)
    (hne : unit ≠ INVALID) :
    ∃ u : Fin 7, u.val = unit ∧ (s.reservation u).busy = false ∧
      (u.val = 1 ∨ u.val = 2 ∨ u.val = 5 ∨ u.val = 6) := by
  unfold chooseUnit at h
  split_ifs at h
  · cases h
    obtain ⟨u, h1, h2, h3 | h3⟩ := pickUnit_spec hne
    · exact ⟨u, h1, h2, Or.inr (Or.inr (Or.inl (by rw [h3]; rfl)))⟩
    · exact ⟨u, h1, h2, Or.inr (Or.inr (Or.inr (by rw [h3]; rfl)))⟩
  · cases h
    obtain ⟨u, h1, h2, h3 | h3⟩ := pickUnit_spec hne
    · exact ⟨u, h1, h2, Or.inl (by rw [h3]; rfl)⟩
    · exact ⟨u, h1, h2, Or.inr (Or.inl (by rw [h3]; rfl))⟩

/-- The issue phase either leaves the state as it is, or allocates the tail slot `i` of a
ROB that is not full and a free station `u` among `LOAD1`, `LOAD2`, `INT1`, `INT2`. -/
theorem issuePhase_cases {s t : MachineState} {b : Bool}
    (h : issuePhase s = Outcome.ok (b, t)) :
    t = s ∨ ∃ (i : Fin 16) (u : Fin 7), i.val = s.robTailIdx ∧
      wsub s.robHeadIdx s.robTailIdx % 16 ≠ 1 ∧ (s.reservation u).busy = false ∧
      (u.val = 1 ∨ u.val = 2 ∨ u.val = 5 ∨ u.val = 6) ∧
      t.robHeadIdx = s.robHeadIdx ∧ t.robTailIdx = (s.robTailIdx + 1) % 4294967296 % 16 ∧
      t.memory = s.memory ∧ t.regFile = s.regFile ∧ t.btb = s.btb ∧
      t.memorySize = s.memorySize ∧ t.cycles = s.cycles ∧
      (∀ j : Fin 16, j ≠ i → t.rob j = s.rob j) ∧
      (t.rob i).busy = true ∧ (t.rob i).instrStatus = ISSUING ∧ (t.rob i).execUnit = u.val ∧
      (t.rob i).valid = (s.rob i).valid ∧
      (∀ k : Fin 7, k ≠ u → t.reservation k = s.reservation k) ∧
      (t.reservation u).busy = true ∧ 1 ≤ (t.reservation u).exTimeLeft ∧
      (t.reservation u).exTimeLeft ≤ 3 := by
  unfold issuePhase at h
  split_ifs at h with h1
  · cases h
    exact Or.inl rfl
  · cases ha : idx? 10000 s.pc with
    | none => rw [ha] at h; cases h
    | some a =>
      rw [ha] at h
      dsimp only at h
      cases hu : chooseUnit s (opcode (s.memory a)) with
      | none => rw [hu] at h; cases h
      | some unit =>
        rw [hu] at h
        dsimp only at h
        split_ifs at h with h2
        · rcases hp : robPush s with ⟨_ | robIdx, s1⟩
          · rw [hp] at h
            cases h
            exact Or.inl (robPush_none hp)
          · rw [hp] at h
            dsimp only at h
            obtain ⟨hr, hfull, hs1⟩ := robPush_some hp
            obtain ⟨s2, h3, h4⟩ := Outcome.bind_eq_ok_iff.mp h
            obtain ⟨a1, a2, a3, -, a5, a6, a7, a8, a9⟩ := issueInstr_frame h3
            obtain ⟨b1, b2, b3, b4, b5, b6, b7, b8⟩ := afterIssue_frame h4
            obtain ⟨c1, -, c3⟩ := afterIssue_slot h4
            obtain ⟨u, i, d1, d2, d3, d4, d5, d6, d7, d8, d9, d10⟩ := issueInstr_slot h3
            obtain ⟨u2, e1, e2, e3⟩ := chooseUnit_spec hu h2
            have huu : u2 = u := Fin.ext (e1.trans d1.symm)
            subst huu
            subst hs1
            refine Or.inr ⟨i, u2, d2.trans hr, hfull, e2, e3, b1.trans a1, b2.trans a2,
              b5.trans a6, b6.trans a7, b7.trans a8, b4.trans a5, b8.trans a9, ?_, ?_, ?_, ?_,
              ?_, ?_, ?_, ?_, ?_⟩
            · intro j hj
              have hj2 : j.val ≠ robIdx := fun hh => hj (Fin.ext (hh.trans d2.symm))
              rw [b3 j hj2, a3 j hj2]
            · rw [(c3 i).1, d3]
            · rw [(c3 i).2.2.1, d4]
            · rw [(c3 i).2.2.2.1, d5, e1]
            · rw [(c3 i).2.1, d6]
            · intro k hk
              rw [c1, d7 k hk]
            · rw [c1, d8]
            · rw [c1]
              exact d9
            · rw [c1]
              exact d10
        · cases h
          exact Or.inl rfl

/-! ### Only the head commits -/

theorem commitPhase_of_idle_head {rnd : Fin 8} {s : MachineState}
    (h : s.robHeadIdx = s.robTailIdx ∨ ∀ i : Fin 16, i.val = s.robHeadIdx →
      ¬((s.rob i).busy = true ∧ (s.rob i).valid = true ∧ (s.rob i).instrStatus = COMMITTING))
    {r : Bool × MachineState} (hc : commitPhase rnd s = Outcome.ok r) : r = (false, s) := by
  unfold commitPhase robHead at hc
  by_cases he : s.robHeadIdx = s.robTailIdx
  · rw [if_pos he] at hc
    cases hc
    rfl
  · rw [if_neg he] at hc
    dsimp only at hc
    cases hi : idx? 16 s.robHeadIdx with
    | none => rw [hi] at hc; cases hc
    | some i =>
      rw [hi] at hc
      dsimp only at hc
      rcases h with h | h
      · exact absurd h he
      · rw [if_neg (h i (idx?_eq_some_iff.mp hi))] at hc
        cases hc
        rfl

theorem issuePhase_arch {s t : MachineState} {b : Bool}
    (h : issuePhase s = Outcome.ok (b, t)) :
    t.regFile = s.regFile ∧ t.memory = s.memory ∧ t.btb = s.btb := by
  rcases issuePhase_cases h with h1 | ⟨i, u, -, -, -, -, -, -, h2, h3, h4, -⟩
  · rw [h1]
    exact ⟨rfl, rfl, rfl⟩
  · exact ⟨h3, h2, h4⟩

/-- C19: only the head commits.  For every state in which the ROB is empty or its head entry
is not simultaneously busy, valid and `COMMITTING`, a call of `nextStep`, whether it returns
(with flag `b`, leaving `t`) or raises (leaving `t`), leaves `regFile`, `memory` and the BTB
unchanged. -/
theorem nextStep_idle_head_frame (rnd : Fin 8) (s : MachineState)
    (h : s.robHeadIdx = s.robTailIdx ∨ ∀ i : Fin 16, i.val = s.robHeadIdx →
      ¬((s.rob i).busy = true ∧ (s.rob i).valid = true ∧
        (s.rob i).instrStatus = COMMITTING)) :
    (∀ b t, nextStep rnd s = Outcome.ok (b, t) →
      t.regFile = s.regFile ∧ t.memory = s.memory ∧ t.btb = s.btb) ∧
    (∀ op pc t, nextStep rnd s = Outcome.raised op pc t →
      t.regFile = s.regFile ∧ t.memory = s.memory ∧ t.btb = s.btb) := by
  have hcommit : ∀ r, commitPhase rnd { s with cycles := wadd s.cycles 1 } = Outcome.ok r →
      r = (false, { s with cycles := wadd s.cycles 1 }) :=
    fun r hr => commitPhase_of_idle_head (s := { s with cycles := wadd s.cycles 1 }) h hr
  constructor
  · intro b t hn
    unfold nextStep at hn
    obtain ⟨r, h1, h2⟩ := Outcome.bind_eq_ok_iff.mp hn
    rw [hcommit r h1] at h2
    simp only [Bool.false_eq_true, if_false] at h2
    obtain ⟨x, h3, h4⟩ := Outcome.bind_eq_ok_iff.mp h2
    obtain ⟨-, -, -, -, -, a6, -, a8, a9⟩ := advanceFrom_sameOutside _ h3
    obtain ⟨b1, b2, b3⟩ := issuePhase_arch h4
    exact ⟨b1.trans a9, b2.trans a8, b3.trans a6⟩
  · intro op pc t hn
    unfold nextStep at hn
    rcases Outcome.bind_eq_raised_iff.mp hn with h1 | ⟨r, h1, h2⟩
    · exact absurd h1 (commitPhase_noRaise _ _ _ _ _)
    · rw [hcommit r h1] at h2
      simp only [Bool.false_eq_true, if_false] at h2
      rcases Outcome.bind_eq_raised_iff.mp h2 with h3 | ⟨x, h3, h4⟩
      · exact absurd h3 (advancePhase_noRaise _ _ _ _)
      · obtain ⟨-, -, -, -, -, a6, -, a8, a9⟩ := advanceFrom_sameOutside _ h3
        obtain ⟨-, -, h7, -⟩ := (issuePhase_raised_iff _ _ _ _).mp h4
        subst h7
        exact ⟨a9, a8, a6⟩

/-- An instance of C19: a tick of the machine holding a write-pending `ADDI r1, r0, 5` at the
head of the ROB returns `false` and changes neither the registers, the memory nor the BTB. -/
theorem nextStep_idle_head_frame_witness :
    (∀ i : Fin 16, i.val = pendingHead.robHeadIdx →
      ¬((pendingHead.rob i).busy = true ∧ (pendingHead.rob i).valid = true ∧
        (pendingHead.rob i).instrStatus = COMMITTING)) ∧
    nextStep 0 pendingHead = Outcome.ok (false, pendingNext) ∧
    pendingNext.regFile = pendingHead.regFile ∧ pendingNext.memory = pendingHead.memory ∧
    pendingNext.btb = pendingHead.btb :=
  ⟨by decide, rfl,
    (nextStep_idle_head_frame 0 pendingHead (Or.inr (by decide))).1 false pendingNext rfl⟩

/-! ### The commit phase, case by case -/

theorem CommitKeep.refl (s : MachineState) : CommitKeep s s :=
  ⟨rfl, rfl, fun _ => Or.inl rfl, fun _ => Or.inl rfl⟩

theorem robPop_commitPop {s : MachineState} {i : Fin 16} (hhead : i.val = s.robHeadIdx)
    (hne : s.robHeadIdx ≠ s.robTailIdx) (hbusy : (s.rob i).busy = true)
    {p : Option Nat × MachineState} (h : robPop s = Outcome.ok p) : CommitPop s p.2 := by
  rw [robPop_of_ne i hhead hne] at h
  cases h
  exact ⟨i, hhead, hne, hbusy, rfl, rfl, rfl, fun _ => Or.inl rfl⟩

theorem commitRegister_commitPop {s t : MachineState} {i : Fin 16}
    (hhead : i.val = s.robHeadIdx) (hne : s.robHeadIdx ≠ s.robTailIdx)
    (hbusy : (s.rob i).busy = true) {rd : Fin 32} {result : Nat}
    (h : commitRegister s s.robHeadIdx rd result = Outcome.ok t) : CommitPop s t := by
  rw [commitRegister_of_ne hhead hne] at h
  cases h
  exact ⟨i, hhead, hne, hbusy, rfl, rfl, rfl, fun _ => Or.inl rfl⟩

theorem commitStoreTransfer_keep (s : MachineState) (i : Fin 16)
    (hstatus : (s.rob i).instrStatus = COMMITTING) :
    CommitKeep s (commitStoreTransfer s s.robHeadIdx i) := by
  unfold commitStoreTransfer
  dsimp only
  have hrob : ∀ (x : Nat) (j : Fin 16),
      setIdx s.rob i { s.rob i with execUnit := x } j = s.rob j ∨
        ((s.rob j).instrStatus = COMMITTING ∧
          (setIdx s.rob i { s.rob i with execUnit := x } j).instrStatus = COMMITTING ∧
          (setIdx s.rob i { s.rob i with execUnit := x } j).busy = (s.rob j).busy ∧
          (setIdx s.rob i { s.rob i with execUnit := x } j).valid = (s.rob j).valid) := by
    intro x j
    by_cases hj : j = i
    · subst hj
      rw [setIdx_same]
      exact Or.inr ⟨hstatus, hstatus, rfl, rfl⟩
    · rw [setIdx_ne _ _ hj]
      exact Or.inl rfl
  have hres : ∀ (u : Fin 7) (r : ResStation), (u.val = 3 ∨ u.val = 4) → r.exTimeLeft = 1 →
      ∀ k : Fin 7, setIdx s.reservation u r k = s.reservation k ∨
        ((k.val = 3 ∨ k.val = 4) ∧ ((setIdx s.reservation u r k).exTimeLeft = 1 ∨
          ((s.reservation k).exTimeLeft ≠ 0 ∧
            (setIdx s.reservation u r k).exTimeLeft = wsub (s.reservation k).exTimeLeft 1))) := by
    intro u r hu hr k
    by_cases hk : k = u
    · subst hk
      rw [setIdx_same]
      exact Or.inr ⟨hu, Or.inl hr⟩
    · rw [setIdx_ne _ _ hk]
      exact Or.inl rfl
  split_ifs
  · exact ⟨rfl, rfl, hrob _, hres 3 _ (Or.inl rfl) rfl⟩
  · exact ⟨rfl, rfl, hrob _, hres 4 _ (Or.inr rfl) rfl⟩
  · exact CommitKeep.refl s

/-- The three outcomes of committing the head entry, as far as the ROB and the stations
go. -/
theorem commitInstr_cases {rnd : Fin 8} {s t : MachineState} {i : Fin 16}
    (hhead : i.val = s.robHeadIdx) (hne : s.robHeadIdx ≠ s.robTailIdx)
    (hbusy : (s.rob i).busy = true) (hstatus : (s.rob i).instrStatus = COMMITTING)
    (h : commitInstr rnd s s.robHeadIdx = Outcome.ok t) :
    CommitKeep s t ∨ CommitPop s t ∨ CommitReset t := by
  unfold commitInstr at h
  rw [idx?_eq_some_iff.mpr hhead] at h
  dsimp only at h
  by_cases h1 : opcode (s.rob i).instr = LW ∨ opcode (s.rob i).instr = ADDI ∨
      opcode (s.rob i).instr = ANDI
  · rw [if_pos h1] at h
    exact Or.inr (Or.inl (commitRegister_commitPop hhead hne hbusy h))
  rw [if_neg h1] at h
  by_cases h2 : opcode (s.rob i).instr = RR_ALU
  · rw [if_pos h2] at h
    exact Or.inr (Or.inl (commitRegister_commitPop hhead hne hbusy h))
  rw [if_neg h2] at h
  by_cases h3 : opcode (s.rob i).instr = BEQZ
  · rw [if_pos h3] at h
    obtain ⟨b, hb⟩ : ∃ b, updateBTB s (s.rob i).pc
        (wadd (wadd (immEx (s.rob i).instr) 1) (s.rob i).pc)
        (decide ((s.rob i).result = 0)) rnd = { s with btb := b } :=
      ⟨_, updateBTB_frame _ _ _ _ _⟩
    rw [hb] at h
    split_ifs at h
    · cases h
      exact Or.inr (Or.inr ⟨rfl, rfl, fun _ => rfl, fun _ => rfl⟩)
    · obtain ⟨p, hp, hq⟩ := Outcome.bind_eq_ok_iff.mp h
      cases hq
      exact Or.inr (Or.inl (robPop_commitPop (s := { s with btb := b }) hhead hne hbusy hp))
  rw [if_neg h3] at h
  by_cases h4 : opcode (s.rob i).instr = SW
  · rw [if_pos h4] at h
    by_cases h5 : (s.rob i).execUnit ≠ STORE1 ∧ (s.rob i).execUnit ≠ STORE2
    · rw [if_pos h5] at h
      cases h
      exact Or.inl (commitStoreTransfer_keep s i hstatus)
    · rw [if_neg h5] at h
      cases hu : idx? 7 (s.rob i).execUnit with
      | none => rw [hu] at h; cases h
      | some u =>
        rw [hu] at h
        dsimp only at h
        have hu2 := idx?_eq_some_iff.mp hu
        have hu34 : u.val = 3 ∨ u.val = 4 := by
          rw [hu2]
          by_contra hc
          exact h5 ⟨fun h6 => hc (Or.inl h6), fun h6 => hc (Or.inr h6)⟩
        by_cases h6 : (s.reservation u).exTimeLeft = 0
        · rw [if_pos h6] at h
          cases ha : idx? 10000 (s.reservation u).Vk with
          | none => rw [ha] at h; cases h
          | some a =>
            rw [ha] at h
            dsimp only at h
            obtain ⟨p, hp, hq⟩ := Outcome.bind_eq_ok_iff.mp h
            cases hq
            rw [robPop_of_ne (s := { s with
              memory := setIdx s.memory a (s.reservation u).Vj,
              reservation := setIdx s.reservation u ({} : ResStation) }) i hhead hne] at hp
            cases hp
            refine Or.inr (Or.inl ⟨i, hhead, hne, hbusy, rfl, rfl, rfl, fun k => ?_⟩)
            show setIdx s.reservation u _ k = s.reservation k ∨ _
            by_cases hk : k = u
            · subst hk
              exact Or.inr ⟨hu34, setIdx_same _ _ _⟩
            · exact Or.inl (setIdx_ne _ _ hk)
        · rw [if_neg h6] at h
          cases h
          refine Or.inl ⟨rfl, rfl, fun _ => Or.inl rfl, fun k => ?_⟩
          show setIdx s.reservation u _ k = s.reservation k ∨ _
          by_cases hk : k = u
          · subst hk
            refine Or.inr ⟨hu34, Or.inr ⟨h6, ?_⟩⟩
            show (setIdx s.reservation k _ k).exTimeLeft = _
            rw [setIdx_same]
          · exact Or.inl (setIdx_ne _ _ hk)
  rw [if_neg h4] at h
  by_cases h5 : opcode (s.rob i).instr = J
  · rw [if_pos h5] at h
    obtain ⟨p, hp, hq⟩ := Outcome.bind_eq_ok_iff.mp h
    cases hq
    exact Or.inr (Or.inl (robPop_commitPop hhead hne hbusy hp))
  · rw [if_neg h5] at h
    cases h
    exact Or.inl (CommitKeep.refl s)

/-- The three outcomes of the commit phase, as far as the ROB and the stations go. -/
theorem commitPhase_cases {rnd : Fin 8} {s t : MachineState} {b : Bool}
    (h : commitPhase rnd s = Outcome.ok (b, t)) :
    CommitKeep s t ∨ CommitPop s t ∨ CommitReset t := by
  unfold commitPhase robHead at h
  by_cases he : s.robHeadIdx = s.robTailIdx
  · rw [if_pos he] at h
    cases h
    exact Or.inl (CommitKeep.refl s)
  · rw [if_neg he] at h
    dsimp only at h
    cases hi : idx? 16 s.robHeadIdx with
    | none => rw [hi] at h; cases h
    | some i =>
      rw [hi] at h
      dsimp only at h
      have hhead := idx?_eq_some_iff.mp hi
      by_cases hc : (s.rob i).busy = true ∧ (s.rob i).valid = true ∧
          (s.rob i).instrStatus = COMMITTING
      · rw [if_pos hc] at h
        by_cases hh : opcode (s.rob i).instr ≠ HALT
        · rw [if_pos hh] at h
          obtain ⟨s1, h1, h2⟩ := Outcome.bind_eq_ok_iff.mp h
          cases h2
          exact commitInstr_cases hhead he hc.1 hc.2.2 h1
        · rw [if_neg hh] at h
          obtain ⟨p, hp, hq⟩ := Outcome.bind_eq_ok_iff.mp h
          cases hq
          exact Or.inr (Or.inl (robPop_commitPop hhead he hc.1 hp))
      · rw [if_neg hc] at h
        cases h
        exact Or.inl (CommitKeep.refl s)

/-! ### The ROB queue invariant -/

theorem broadcastROB_keeps (unit value : Nat) (e : ROBEntry) :
    (broadcastROB unit value e).busy = e.busy ∧
      (broadcastROB unit value e).instrStatus = e.instrStatus ∧
      (broadcastROB unit value e).execUnit = e.execUnit ∧
      (broadcastROB unit value e).instr = e.instr ∧
      (broadcastROB unit value e).address = e.address := by
  unfold broadcastROB
  split_ifs <;> exact ⟨rfl, rfl, rfl, rfl, rfl⟩

theorem writeResultEntry_keeps (e : ROBEntry) (r : ResStation) :
    (writeResultEntry e r).busy = e.busy ∧ (writeResultEntry e r).valid = e.valid ∧
      (writeResultEntry e r).instrStatus = WRITING_RESULT ∧
      (writeResultEntry e r).execUnit = e.execUnit ∧ (writeResultEntry e r).instr = e.instr ∧
      (writeResultEntry e r).result = e.result := by
  unfold writeResultEntry
  split_ifs <;> exact ⟨rfl, rfl, rfl, rfl, rfl, rfl⟩

/-- One iteration of the processing loop keeps the `busy` flag, the station and the
instruction of every ROB entry, and the status of every entry but the one it visits. -/
theorem advanceEntry_rob {s t : MachineState} {i : Fin 16}
    (h : advanceEntry s i = Outcome.ok t) (j : Fin 16) :
    (t.rob j).busy = (s.rob j).busy ∧ (t.rob j).execUnit = (s.rob j).execUnit ∧
      (t.rob j).instr = (s.rob j).instr ∧
      (j ≠ i → (t.rob j).instrStatus = (s.rob j).instrStatus) := by
  obtain ⟨u, -, h1 | h1 | h1 | h1 | h1⟩ := advanceEntry_cases h
  · rw [h1.1]
    exact ⟨rfl, rfl, rfl, fun _ => rfl⟩
  · rw [h1.2.2.2]
    exact ⟨rfl, rfl, rfl, fun _ => rfl⟩
  · obtain ⟨-, -, -, v, -, ht⟩ := h1
    rw [ht]
    show (broadcastROB _ _ _).busy = _ ∧ (broadcastROB _ _ _).execUnit = _ ∧
      (broadcastROB _ _ _).instr = _ ∧ (j ≠ i → (broadcastROB _ _ _).instrStatus = _)
    obtain ⟨a1, a2, a3, a4, -⟩ := broadcastROB_keeps u.val v
      (setIdx s.rob i (writeResultEntry (s.rob i) (s.reservation u)) j)
    rw [a1, a2, a3, a4]
    by_cases hj : j = i
    · subst hj
      rw [setIdx_same]
      obtain ⟨b1, -, -, b4, b5, -⟩ := writeResultEntry_keeps (s.rob j) (s.reservation u)
      exact ⟨b1, b4, b5, fun hh => absurd rfl hh⟩
    · rw [setIdx_ne _ _ hj]
      exact ⟨rfl, rfl, rfl, fun _ => rfl⟩
  · rw [h1.2.2]
    show (setIdx s.rob i _ j).busy = _ ∧ (setIdx s.rob i _ j).execUnit = _ ∧
      (setIdx s.rob i _ j).instr = _ ∧ (j ≠ i → (setIdx s.rob i _ j).instrStatus = _)
    by_cases hj : j = i
    · subst hj
      rw [setIdx_same]
      exact ⟨rfl, rfl, rfl, fun hh => absurd rfl hh⟩
    · rw [setIdx_ne _ _ hj]
      exact ⟨rfl, rfl, rfl, fun _ => rfl⟩
  · rw [h1.2.2.2.2]
    show (setIdx s.rob i _ j).busy = _ ∧ (setIdx s.rob i _ j).execUnit = _ ∧
      (setIdx s.rob i _ j).instr = _ ∧ (j ≠ i → (setIdx s.rob i _ j).instrStatus = _)
    by_cases hj : j = i
    · subst hj
      rw [setIdx_same]
      exact ⟨rfl, rfl, rfl, fun hh => absurd rfl hh⟩
    · rw [setIdx_ne _ _ hj]
      exact ⟨rfl, rfl, rfl, fun _ => rfl⟩

theorem advanceFrom_rob (l : List (Fin 16)) :
    ∀ {s t : MachineState}, advanceFrom l s = Outcome.ok t → ∀ j : Fin 16,
      (t.rob j).busy = (s.rob j).busy ∧ (t.rob j).execUnit = (s.rob j).execUnit ∧
        (t.rob j).instr = (s.rob j).instr ∧
        (j ∉ l → (t.rob j).instrStatus = (s.rob j).instrStatus) := by
  induction l with
  | nil =>
    intro s t h j
    cases h
    exact ⟨rfl, rfl, rfl, fun _ => rfl⟩
  | cons i rest ih =>
    intro s t h j
    obtain ⟨s1, h1, h2⟩ := Outcome.bind_eq_ok_iff.mp h
    obtain ⟨a1, a2, a3, a4⟩ := advanceEntry_rob h1 j
    obtain ⟨b1, b2, b3, b4⟩ := ih h2 j
    refine ⟨b1.trans a1, b2.trans a2, b3.trans a3, fun hj => ?_⟩
    rw [b4 (fun hm => hj (List.mem_cons_of_mem _ hm)),
      a4 (fun hm => hj (hm ▸ List.mem_cons_self _ _))]

/-- The phases of a tick that returned: the commit phase returned its flag and state; when
the flag is `true` that is the result, otherwise the advance and issue phases ran. -/
theorem nextStep_phases {rnd : Fin 8} {s t : MachineState} {b : Bool}
    (h : nextStep rnd s = Outcome.ok (b, t)) :
    ∃ (c : Bool) (s1 : MachineState),
      commitPhase rnd { s with cycles := wadd s.cycles 1 } = Outcome.ok (c, s1) ∧
      ((c = true ∧ b = true ∧ t = s1) ∨
        (c = false ∧ ∃ s2, advancePhase s1 = Outcome.ok s2 ∧
          issuePhase s2 = Outcome.ok (b, t))) := by
  unfold nextStep at h
  obtain ⟨r, h1, h2⟩ := Outcome.bind_eq_ok_iff.mp h
  obtain ⟨c, s1⟩ := r
  refine ⟨c, s1, h1, ?_⟩
  cases c with
  | true =>
    simp only [if_true] at h2
    cases h2
    exact Or.inl ⟨rfl, rfl, rfl⟩
  | false =>
    simp only [Bool.false_eq_true, if_false] at h2
    obtain ⟨s2, h3, h4⟩ := Outcome.bind_eq_ok_iff.mp h2
    exact Or.inr ⟨rfl, s2, h3, h4⟩

set_option maxRecDepth 1000000 in
theorem pop_range : ∀ h t j : Fin 16, h ≠ t → j ≠ h →
    ((j.val + 16 - h.val) % 16 < (t.val + 16 - h.val) % 16 ↔
      (j.val + 16 - (h.val + 1) % 16) % 16 < (t.val + 16 - (h.val + 1) % 16) % 16) := by
  decide

set_option maxRecDepth 1000000 in
theorem push_range : ∀ h t j : Fin 16, (t.val + 16 - h.val) % 16 ≠ 15 → j ≠ t →
    ((j.val + 16 - h.val) % 16 < (t.val + 16 - h.val) % 16 ↔
      (j.val + 16 - h.val) % 16 < ((t.val + 1) % 16 + 16 - h.val) % 16) := by
  decide

theorem robInv_commitPhase {rnd : Fin 8} {s t : MachineState} {b : Bool} (hs : RobInv s)
    (h : commitPhase rnd s = Outcome.ok (b, t)) : RobInv t := by
  obtain ⟨hh, ht, hb⟩ := hs
  rcases commitPhase_cases h with ⟨a1, a2, a3, -⟩ | ⟨i, a1, a2, -, a4, a5, a6, -⟩ |
    ⟨a1, a2, a3, -⟩
  · refine ⟨a1 ▸ hh, a2 ▸ ht, fun j => ?_⟩
    rw [a1, a2, ← hb j]
    rcases a3 j with h1 | ⟨-, -, h1, -⟩
    · rw [h1]
    · rw [h1]
  · refine ⟨?_, a5 ▸ ht, fun j => ?_⟩
    · rw [a4]
      omega
    · rw [a4, a5, a6]
      by_cases hj : j = i
      · subst hj
        rw [setIdx_same]
        constructor
        · intro hc
          cases hc
        · intro hc
          rw [a1] at hc
          omega
      · rw [setIdx_ne _ _ hj, hb j, ← a1]
        exact pop_range i ⟨s.robTailIdx, ht⟩ j
          (fun hc => a2 (a1.symm.trans (congrArg Fin.val hc))) hj
  · refine ⟨a1 ▸ (by decide), a2 ▸ (by decide), fun j => ?_⟩
    rw [a1, a2, a3 j]
    constructor
    · intro hc
      cases hc
    · intro hc
      omega

theorem robInv_advanceFrom {l : List (Fin 16)} {s t : MachineState} (hs : RobInv s)
    (h : advanceFrom l s = Outcome.ok t) : RobInv t := by
  obtain ⟨hh, ht, hb⟩ := hs
  obtain ⟨-, -, a3, a4, -⟩ := advanceFrom_sameOutside l h
  refine ⟨a3 ▸ hh, a4 ▸ ht, fun j => ?_⟩
  rw [a3, a4, (advanceFrom_rob l h j).1]
  exact hb j

theorem robInv_issuePhase {s t : MachineState} {b : Bool} (hs : RobInv s)
    (h : issuePhase s = Outcome.ok (b, t)) : RobInv t := by
  rcases issuePhase_cases h with h1 | ⟨i, u, a1, a2, -, -, a5, a6, -, -, -, -, -, a12, a13, -⟩
  · rw [h1]
    exact hs
  · obtain ⟨hh, ht, hb⟩ := hs
    have hfull : (s.robHeadIdx + (4294967296 - s.robTailIdx % 4294967296)) % 4294967296
        % 16 ≠ 1 := a2
    refine ⟨a5 ▸ hh, ?_, fun j => ?_⟩
    · rw [a6]
      omega
    · rw [a5, a6]
      by_cases hj : j = i
      · subst hj
        rw [a13, a1]
        constructor
        · intro _
          omega
        · intro _
          rfl
      · rw [a12 j hj, hb j]
        have hnf : (s.robTailIdx + 16 - s.robHeadIdx) % 16 ≠ 15 := by omega
        have hmod : (s.robTailIdx + 1) % 4294967296 % 16 = (s.robTailIdx + 1) % 16 := by
          omega
        rw [hmod, ← a1]
        rw [← a1] at hnf
        exact push_range ⟨s.robHeadIdx, hh⟩ i j hnf hj

theorem robInv_nextStep {rnd : Fin 8} {s t : MachineState} {b : Bool} (hs : RobInv s)
    (h : nextStep rnd s = Outcome.ok (b, t)) : RobInv t := by
  obtain ⟨c, s1, h1, h2⟩ := nextStep_phases h
  have hs1 : RobInv s1 := robInv_commitPhase (s := { s with cycles := wadd s.cycles 1 }) hs h1
  rcases h2 with ⟨-, -, h3⟩ | ⟨-, s2, h3, h4⟩
  · rw [h3]
    exact hs1
  · exact robInv_issuePhase (robInv_advanceFrom hs1 h3) h4

theorem reachable_robInv {s : MachineState} (h : Reachable s) : RobInv s := by
  induction h with
  | init =>
    refine ⟨by decide, by decide, fun i => ?_⟩
    constructor
    · intro hc
      cases hc
    · intro hc
      change (i.val + 16 - 0) % 16 < (0 + 16 - 0) % 16 at hc
      omega
  | load pc instr _ hl ih =>
    unfold loadInstr at hl
    cases ha : idx? 10000 pc with
    | none => rw [ha] at hl; cases hl
    | some a =>
      rw [ha] at hl
      cases hl
      exact ih
  | size n _ ih => exact ih
  | step rnd b _ hn ih => exact robInv_nextStep ih hn

theorem reachable_loadProgram (prog : List Nat) :
    ∀ {pc : Nat} {s t : MachineState}, Reachable s →
      loadProgram prog pc s = Outcome.ok t → Reachable t := by
  induction prog with
  | nil =>
    intro pc s t hs h
    cases h
    exact hs
  | cons w rest ih =>
    intro pc s t hs h
    obtain ⟨s1, h1, h2⟩ := Outcome.bind_eq_ok_iff.mp h
    exact ih (Reachable.load pc w hs h1) h2

theorem reachable_startState {prog : List Nat} {s t : MachineState} (hs : Reachable s)
    (h : startState prog s = Outcome.ok t) : Reachable t := by
  obtain ⟨s1, h1, h2⟩ := Outcome.bind_eq_ok_iff.mp h
  cases h2
  exact Reachable.size _ (reachable_loadProgram prog hs h1)

theorem reachable_idleSteps {rnd : Nat → Fin 8} {s : MachineState} (hs : Reachable s) :
    ∀ {n : Nat} {t : MachineState}, idleSteps rnd n s = some t → Reachable t := by
  intro n
  induction n with
  | zero =>
    intro t h
    cases h
    exact hs
  | succ n ih =>
    intro t h
    obtain ⟨s1, h1, h2⟩ := idleSteps_succ h
    exact Reachable.step _ _ (ih h1) h2

theorem runState_reachable (prog : List Nat) (n : Nat) : Reachable (runState prog n) := by
  unfold runState
  cases h0 : startState prog newMachineState with
  | ok s0 =>
    dsimp only
    have hs0 := reachable_startState Reachable.init h0
    cases h1 : idleSteps (fun _ => 0) n s0 with
    | none => exact hs0
    | some t => exact reachable_idleSteps hs0 h1
  | raised op pc s1 => exact Reachable.init
  | undef => exact Reachable.init

set_option maxRecDepth 100000 in
theorem circular_range_count : ∀ h t : Fin 16,
    ((List.finRange 16).filter fun i : Fin 16 =>
      decide ((i.val + 16 - h.val) % 16 < (t.val + 16 - h.val) % 16)).length =
      (t.val + 16 - h.val) % 16 := by
  decide

theorem robInv_busyCount {s : MachineState} (hs : RobInv s) :
    busyCount s = (s.robTailIdx + 16 - s.robHeadIdx) % 16 := by
  obtain ⟨hh, ht, hb⟩ := hs
  have := circular_range_count ⟨s.robHeadIdx, hh⟩ ⟨s.robTailIdx, ht⟩
  rw [← this]
  unfold busyCount
  congr 1
  apply List.filter_congr
  intro i _
  by_cases hi : (s.rob i).busy = true
  · rw [hi]
    exact (decide_eq_true ((hb i).mp hi)).symm
  · rw [Bool.not_eq_true] at hi
    rw [hi]
    refine (decide_eq_false ?_).symm
    intro hc
    rw [(hb i).mpr hc] at hi
    cases hi

/-- C17: in every state reachable from `newMachineState` by `loadInstr`, `setMemorySize` and
returning `nextStep` calls, `robHeadIdx` and `robTailIdx` are in `[0, 16)`, the busy ROB
entries are exactly those whose index lies in the circular range from `robHeadIdx`
(inclusive) to `robTailIdx` (exclusive), and the number of busy entries equals
`(robTailIdx - robHeadIdx) mod 16` and is at most 15. -/
theorem reachable_rob_queue (s : MachineState) (h : Reachable s) :
    s.robHeadIdx < 16 ∧ s.robTailIdx < 16 ∧
    (∀ i : Fin 16, (s.rob i).busy = true ↔
      (i.val + 16 - s.robHeadIdx) % 16 < (s.robTailIdx + 16 - s.robHeadIdx) % 16) ∧
    busyCount s = (s.robTailIdx + 16 - s.robHeadIdx) % 16 ∧
    ((busyCount s : Nat) : Int) = ((s.robTailIdx : Int) - (s.robHeadIdx : Int)) % 16 ∧
    busyCount s ≤ 15 := by
  have hinv := reachable_robInv h
  have hc := robInv_busyCount hinv
  obtain ⟨hh, ht, hb⟩ := hinv
  refine ⟨hh, ht, hb, hc, ?_, ?_⟩
  · rw [hc]
    omega
  · rw [hc]
    omega

/-- An instance of C17: the state of `branchProgram` after three ticks, with three
instructions in flight in ROB slots 0 to 2. -/
theorem reachable_rob_queue_witness :
    (Reachable (runState branchProgram 3) ∧ (runState branchProgram 3).robHeadIdx = 0 ∧
      (runState branchProgram 3).robTailIdx = 3) ∧
    (runState branchProgram 3).robHeadIdx < 16 ∧ (runState branchProgram 3).robTailIdx < 16 ∧
    (∀ i : Fin 16, ((runState branchProgram 3).rob i).busy = true ↔
      (i.val + 16 - (runState branchProgram 3).robHeadIdx) % 16 <
        ((runState branchProgram 3).robTailIdx + 16 -
          (runState branchProgram 3).robHeadIdx) % 16) ∧
    busyCount (runState branchProgram 3) =
      ((runState branchProgram 3).robTailIdx + 16 -
        (runState branchProgram 3).robHeadIdx) % 16 ∧
    ((busyCount (runState branchProgram 3) : Nat) : Int) =
      (((runState branchProgram 3).robTailIdx : Int) -
        ((runState branchProgram 3).robHeadIdx : Int)) % 16 ∧
    busyCount (runState branchProgram 3) ≤ 15 :=
  ⟨⟨runState_reachable branchProgram 3, rfl, rfl⟩,
    reachable_rob_queue (runState branchProgram 3) (runState_reachable branchProgram 3)⟩

/-! ### The register status after a branch -/

theorem dangling_generic : DanglingObserved (Classical.epsilon fun p => ¬ DanglingObserved p) :=
  rfl

/-- C18, as the code behaves: in the run of `branchProgram` (`ADDI r1, r0, 5` at 16,
`BEQZ r1` with `reg2` field 2 at 17, `HALT` at 18, `memorySize` 19), whatever the random
draws, the calls number 0 to 7 of `nextStep` return `false` and lead to a reachable state in
which `regResult[2]` is invalid and names ROB slot 1, which is not busy: the issue of the
`BEQZ` renamed its `reg2` field, and nothing clears that rename when the `BEQZ` commits. -/
theorem regResult_dangling_after_beqz (rnd : Nat → Fin 8) :
    ∃ s0, startState branchProgram newMachineState = Outcome.ok s0 ∧
      ∃ s7 s, idleSteps rnd 7 s0 = some s7 ∧ nextStep (rnd 7) s7 = Outcome.ok (false, s) ∧
        Reachable s ∧ (s.regResult 2).valid = false ∧ (s.regResult 2).robIdx = 1 ∧
        (s.rob 1).busy = false := by
  have h : DanglingObserved rnd := forall_of_generic DanglingObserved dangling_generic rnd
  obtain ⟨s0, h0, s7, s, h7, hstep, hobs⟩ := observeCall_eq_some h
  have hr : Reachable s :=
    Reachable.step _ _ (reachable_idleSteps (reachable_startState Reachable.init h0) h7) hstep
  exact ⟨s0, h0, s7, s, h7, hstep, hr, (Prod.mk.inj hobs).1,
    (Prod.mk.inj (Prod.mk.inj hobs).2).1, (Prod.mk.inj (Prod.mk.inj hobs).2).2⟩

/-! ### ROB entries in flight and their stations -/

theorem wsub_one {x : Nat} (h1 : 1 ≤ x) (h3 : x ≤ 3) : wsub x 1 = x - 1 := by
  show (x + (4294967296 - 1 % 4294967296)) % 4294967296 = x - 1
  omega

theorem broadcastStation_keeps (unit value : Nat) (r : ResStation) :
    (broadcastStation unit value r).busy = r.busy ∧
      (broadcastStation unit value r).exTimeLeft = r.exTimeLeft := by
  unfold broadcastStation
  dsimp only
  split_ifs <;> exact ⟨rfl, rfl⟩

theorem broadcastStation_of_idle (unit value : Nat) {r : ResStation} (h : r.busy = false) :
    broadcastStation unit value r = r := by
  unfold broadcastStation
  rw [if_neg (by rw [h]; decide)]

theorem broadcastROB_of_other (unit value : Nat) {e : ROBEntry} (h : e.execUnit ≠ unit) :
    broadcastROB unit value e = e := by
  unfold broadcastROB
  rw [if_neg (fun hc => h hc.2.2)]

theorem broadcastROB_of_idle (unit value : Nat) {e : ROBEntry} (h : e.busy = false) :
    broadcastROB unit value e = e := by
  unfold broadcastROB
  rw [if_neg (fun hc => by rw [h] at hc; exact absurd hc.1 (by decide))]

theorem broadcastROB_fires (unit value : Nat) {e : ROBEntry} (hb : e.busy = true)
    (hv : e.valid = false) (hu : e.execUnit = unit) :
    (broadcastROB unit value e).valid = true ∧ (broadcastROB unit value e).result = value := by
  unfold broadcastROB
  rw [if_pos ⟨hb, hv, hu⟩]
  exact ⟨rfl, rfl⟩

/-- The five cases of one iteration of the processing loop, cell by cell. -/
theorem advanceEntry_cells {s t : MachineState} {i : Fin 16}
    (h : advanceEntry s i = Outcome.ok t) :
    ∃ u : Fin 7, u.val = (s.rob i).execUnit ∧
      ((t = s ∧ ¬((s.rob i).busy = true ∧ ((s.rob i).instrStatus = EXECUTING ∨
          (s.rob i).instrStatus = WRITING_RESULT ∨
          ((s.rob i).instrStatus = ISSUING ∧ (s.reservation u).Qj = READY ∧
            (s.reservation u).Qk = READY)))) ∨
       ((s.rob i).busy = true ∧ (s.rob i).instrStatus = EXECUTING ∧
          (s.reservation u).exTimeLeft ≠ 0 ∧ t.rob = s.rob ∧
          (t.reservation u).busy = (s.reservation u).busy ∧
          (t.reservation u).exTimeLeft = wsub (s.reservation u).exTimeLeft 1 ∧
          ∀ k : Fin 7, k ≠ u → t.reservation k = s.reservation k) ∨
       ((s.rob i).busy = true ∧ (s.rob i).instrStatus = EXECUTING ∧
          (s.reservation u).exTimeLeft = 0 ∧
          ∃ v, getResult s u.val = Outcome.ok v ∧
            t.rob i = broadcastROB u.val v (writeResultEntry (s.rob i) (s.reservation u)) ∧
            (∀ j : Fin 16, j ≠ i → t.rob j = broadcastROB u.val v (s.rob j)) ∧
            t.reservation u = {} ∧
            ∀ k : Fin 7, k ≠ u → t.reservation k = broadcastStation u.val v (s.reservation k)) ∨
       ((s.rob i).busy = true ∧ (s.rob i).instrStatus = WRITING_RESULT ∧
          t.reservation = s.reservation ∧
          (t.rob i).instrStatus = COMMITTING ∧ (t.rob i).busy = (s.rob i).busy ∧
          (t.rob i).valid = (s.rob i).valid ∧
          ∀ j : Fin 16, j ≠ i → t.rob j = s.rob j) ∨
       ((s.rob i).busy = true ∧ (s.rob i).instrStatus = ISSUING ∧
          (s.reservation u).Qj = READY ∧ (s.reservation u).Qk = READY ∧
          (t.rob i).instrStatus = EXECUTING ∧ (t.rob i).busy = (s.rob i).busy ∧
          (t.rob i).valid = (s.rob i).valid ∧ (t.rob i).execUnit = (s.rob i).execUnit ∧
          (∀ j : Fin 16, j ≠ i → t.rob j = s.rob j) ∧
          (t.reservation u).busy = (s.reservation u).busy ∧
          (t.reservation u).exTimeLeft = wsub (s.reservation u).exTimeLeft 1 ∧
          ∀ k : Fin 7, k ≠ u → t.reservation k = s.reservation k)) := by
  obtain ⟨u, hu, h1 | h1 | h1 | h1 | h1⟩ := advanceEntry_cases h
  · exact ⟨u, hu, Or.inl h1⟩
  · obtain ⟨a1, a2, a3, ht⟩ := h1
    refine ⟨u, hu, Or.inr (Or.inl ⟨a1, a2, a3, ?_, ?_, ?_, ?_⟩)⟩
    · rw [ht]
    · rw [ht]
      show (setIdx s.reservation u _ u).busy = _
      rw [setIdx_same]
    · rw [ht]
      show (setIdx s.reservation u _ u).exTimeLeft = _
      rw [setIdx_same]
    · intro k hk
      rw [ht]
      exact setIdx_ne _ _ hk
  · obtain ⟨a1, a2, a3, v, hv, ht⟩ := h1
    refine ⟨u, hu, Or.inr (Or.inr (Or.inl ⟨a1, a2, a3, v, hv, ?_, ?_, ?_, ?_⟩))⟩
    · rw [ht]
      show broadcastROB _ _ (setIdx s.rob i _ i) = _
      rw [setIdx_same]
    · intro j hj
      rw [ht]
      show broadcastROB _ _ (setIdx s.rob i _ j) = _
      rw [setIdx_ne _ _ hj]
    · rw [ht]
      dsimp only
      rw [setIdx_same]
    · intro k hk
      rw [ht]
      dsimp only
      rw [setIdx_ne _ _ hk]
  · obtain ⟨a1, a2, ht⟩ := h1
    refine ⟨u, hu, Or.inr (Or.inr (Or.inr (Or.inl ⟨a1, a2, ?_, ?_, ?_, ?_, ?_⟩)))⟩
    · rw [ht]
    · rw [ht]
      show (setIdx s.rob i _ i).instrStatus = _
      rw [setIdx_same]
    · rw [ht]
      show (setIdx s.rob i _ i).busy = _
      rw [setIdx_same]
    · rw [ht]
      show (setIdx s.rob i _ i).valid = _
      rw [setIdx_same]
    · intro j hj
      rw [ht]
      exact setIdx_ne _ _ hj
  · obtain ⟨a1, a2, a3, a4, ht⟩ := h1
    refine ⟨u, hu, Or.inr (Or.inr (Or.inr (Or.inr ⟨a1, a2, a3, a4, ?_, ?_, ?_, ?_, ?_, ?_, ?_,
      ?_⟩)))⟩
    · rw [ht]
      show (setIdx s.rob i _ i).instrStatus = _
      rw [setIdx_same]
    · rw [ht]
      show (setIdx s.rob i _ i).busy = _
      rw [setIdx_same]
    · rw [ht]
      show (setIdx s.rob i _ i).valid = _
      rw [setIdx_same]
    · rw [ht]
      show (setIdx s.rob i _ i).execUnit = _
      rw [setIdx_same]
    · intro j hj
      rw [ht]
      exact setIdx_ne _ _ hj
    · rw [ht]
      show (setIdx s.reservation u _ u).busy = _
      rw [setIdx_same]
    · rw [ht]
      show (setIdx s.reservation u _ u).exTimeLeft = _
      rw [setIdx_same]
    · intro k hk
      rw [ht]
      exact setIdx_ne _ _ hk

/-- The invariant carries over to a state whose entries in flight were in flight before,
on the same station and with the same `valid` flag, and whose stations kept their `busy`
flag and, under an `ISSUING` entry, did not lose time. -/
theorem UnitInv.transfer {s t : MachineState} (hs : UnitInv s)
    (hact : ∀ j : Fin 16, Active t j → Active s j ∧
      (t.rob j).execUnit = (s.rob j).execUnit ∧ (t.rob j).valid = (s.rob j).valid ∧
      ((t.rob j).instrStatus = ISSUING → (s.rob j).instrStatus = ISSUING))
    (hst : ∀ (j : Fin 16) (u : Fin 7), Active t j → u.val = (s.rob j).execUnit →
      (t.reservation u).busy = (s.reservation u).busy ∧
      ((t.rob j).instrStatus = ISSUING →
        (s.reservation u).exTimeLeft ≤ (t.reservation u).exTimeLeft))
    (hbound : ∀ u : Fin 7, (t.reservation u).exTimeLeft ≤ 3)
    (hidle : ∀ j : Fin 16, (t.rob j).busy = false → (t.rob j).valid = false) :
    UnitInv t := by
  refine ⟨?_, ?_, ?_, ?_, ?_, hbound, hidle⟩
  · intro j hj
    obtain ⟨a1, a2, -, -⟩ := hact j hj
    rw [a2]
    exact hs.unit j a1
  · intro j hj
    obtain ⟨a1, -, a3, -⟩ := hact j hj
    rw [a3]
    exact hs.fresh j a1
  · intro j u hj hu
    obtain ⟨a1, a2, -, -⟩ := hact j hj
    rw [a2] at hu
    rw [(hst j u hj hu).1]
    exact hs.held j u a1 hu
  · intro j u hb hi hu
    have hj : Active t j := ⟨hb, Or.inl hi⟩
    obtain ⟨a1, a2, -, a4⟩ := hact j hj
    rw [a2] at hu
    exact le_trans (hs.timed j u a1.1 (a4 hi) hu) ((hst j u hj hu).2 hi)
  · intro i j hi hj he
    obtain ⟨a1, a2, -, -⟩ := hact i hi
    obtain ⟨b1, b2, -, -⟩ := hact j hj
    rw [a2, b2] at he
    exact hs.own i j a1 b1 he

theorem UnitInv.ne_unit {s : MachineState} (hs : UnitInv s) {i j : Fin 16} {u k : Fin 7}
    (hi : Active s i) (hj : Active s j) (hij : j ≠ i) (hu : u.val = (s.rob i).execUnit)
    (hk : k.val = (s.rob j).execUnit) : k ≠ u := by
  rintro rfl
  exact hij (hs.own j i hj hi (hk.symm.trans hu))

/-- One iteration of the processing loop keeps the invariant. -/
theorem unitInv_advanceEntry {s t : MachineState} {i : Fin 16} (hs : UnitInv s)
    (h : advanceEntry s i = Outcome.ok t) : UnitInv t := by
  have hrob := advanceEntry_rob h
  obtain ⟨u, hu, h1 | h1 | h1 | h1 | h1⟩ := advanceEntry_cells h
  · rw [h1.1]
    exact hs
  · obtain ⟨a1, a2, a3, a4, a5, a6, a7⟩ := h1
    have hi : Active s i := ⟨a1, Or.inr a2⟩
    have hact : ∀ j, Active t j → Active s j := by
      intro j hj
      unfold Active at hj ⊢
      rw [a4] at hj
      exact hj
    refine hs.transfer (fun j hj => ⟨hact j hj, by rw [a4], by rw [a4], fun hh => ?_⟩)
      (fun j k hj hk => ?_) (fun k => ?_) (fun j hj => ?_)
    · rw [a4] at hh
      exact hh
    · by_cases hku : k = u
      · subst hku
        refine ⟨a5, fun hh => ?_⟩
        have hji : j = i := hs.own j i (hact j hj) hi (hk.symm.trans hu)
        subst hji
        rw [a4, a2] at hh
        cases hh
      · rw [a7 k hku]
        exact ⟨rfl, fun _ => le_refl _⟩
    · by_cases hku : k = u
      · subst hku
        rw [a6, wsub_one (Nat.one_le_iff_ne_zero.mpr a3) (hs.bound k)]
        exact le_trans (Nat.sub_le _ _) (hs.bound k)
      · rw [a7 k hku]
        exact hs.bound k
    · rw [a4] at hj ⊢
      exact hs.idle j hj
  · obtain ⟨a1, a2, a3, v, -, a5, a6, a7, a8⟩ := h1
    have hi : Active s i := ⟨a1, Or.inr a2⟩
    have hti : (t.rob i).instrStatus = WRITING_RESULT := by
      rw [a5, (broadcastROB_keeps _ _ _).2.1, (writeResultEntry_keeps _ _).2.2.1]
    have hact : ∀ j, Active t j → j ≠ i ∧ Active s j ∧ t.rob j = s.rob j := by
      intro j hj
      have hji : j ≠ i := by
        rintro rfl
        rcases hj.2 with hh | hh
        · rw [hti] at hh
          cases hh
        · rw [hti] at hh
          cases hh
      have hsj : Active s j := by
        unfold Active at hj ⊢
        rw [(hrob j).1, (hrob j).2.2.2 hji] at hj
        exact hj
      refine ⟨hji, hsj, ?_⟩
      rw [a6 j hji]
      exact broadcastROB_of_other _ _ (fun hc => hji (hs.own j i hsj hi (hc.trans hu)))
    refine hs.transfer (fun j hj => ?_) (fun j k hj hk => ?_) (fun k => ?_) (fun j hj => ?_)
    · obtain ⟨-, b2, b3⟩ := hact j hj
      rw [b3]
      exact ⟨b2, rfl, rfl, fun hh => hh⟩
    · obtain ⟨b1, b2, b3⟩ := hact j hj
      have hku : k ≠ u := hs.ne_unit hi b2 b1 hu hk
      rw [a8 k hku, (broadcastStation_keeps _ _ _).1, (broadcastStation_keeps _ _ _).2]
      exact ⟨rfl, fun _ => le_refl _⟩
    · by_cases hku : k = u
      · subst hku
        rw [a7]
        exact Nat.zero_le _
      · rw [a8 k hku, (broadcastStation_keeps _ _ _).2]
        exact hs.bound k
    · have hsj : (s.rob j).busy = false := by
        rw [← (hrob j).1]
        exact hj
      have hji : j ≠ i := by
        rintro rfl
        rw [a1] at hsj
        cases hsj
      rw [a6 j hji, broadcastROB_of_idle _ _ hsj]
      exact hs.idle j hsj
  · obtain ⟨a1, a2, a3, a4, a5, a6, a7⟩ := h1
    have hact : ∀ j, Active t j → j ≠ i ∧ Active s j ∧ t.rob j = s.rob j := by
      intro j hj
      have hji : j ≠ i := by
        rintro rfl
        rcases hj.2 with hh | hh
        · rw [a4] at hh
          cases hh
        · rw [a4] at hh
          cases hh
      refine ⟨hji, ?_, a7 j hji⟩
      unfold Active at hj ⊢
      rw [a7 j hji] at hj
      exact hj
    refine hs.transfer (fun j hj => ?_) (fun j k hj hk => ?_) (fun k => ?_) (fun j hj => ?_)
    · obtain ⟨-, b2, b3⟩ := hact j hj
      rw [b3]
      exact ⟨b2, rfl, rfl, fun hh => hh⟩
    · rw [a3]
      exact ⟨rfl, fun _ => le_refl _⟩
    · rw [a3]
      exact hs.bound k
    · by_cases hji : j = i
      · subst hji
        rw [a6]
        rw [a5] at hj
        exact hs.idle j hj
      · rw [a7 j hji] at hj ⊢
        exact hs.idle j hj
  · obtain ⟨a1, a2, -, -, a5, a6, a7, a8, a9, a10, a11, a12⟩ := h1
    have hi : Active s i := ⟨a1, Or.inl a2⟩
    have hact : ∀ j, Active t j → Active s j ∧ (t.rob j).execUnit = (s.rob j).execUnit ∧
        (t.rob j).valid = (s.rob j).valid ∧
        ((t.rob j).instrStatus = ISSUING → j ≠ i ∧ (s.rob j).instrStatus = ISSUING) := by
      intro j hj
      by_cases hji : j = i
      · subst hji
        refine ⟨hi, a8, a7, fun hh => ?_⟩
        rw [a5] at hh
        cases hh
      · refine ⟨?_, by rw [a9 j hji], by rw [a9 j hji], fun hh => ⟨hji, ?_⟩⟩
        · unfold Active at hj ⊢
          rw [a9 j hji] at hj
          exact hj
        · rw [a9 j hji] at hh
          exact hh
    refine hs.transfer (fun j hj => ?_) (fun j k hj hk => ?_) (fun k => ?_) (fun j hj => ?_)
    · obtain ⟨b1, b2, b3, b4⟩ := hact j hj
      exact ⟨b1, b2, b3, fun hh => (b4 hh).2⟩
    · obtain ⟨b1, b2, b3, b4⟩ := hact j hj
      by_cases hku : k = u
      · subst hku
        refine ⟨a10, fun hh => ?_⟩
        exact absurd (hs.own j i b1 hi (hk.symm.trans hu)) (b4 hh).1
      · rw [a12 k hku]
        exact ⟨rfl, fun _ => le_refl _⟩
    · by_cases hku : k = u
      · subst hku
        rw [a11, wsub_one (hs.timed i k a1 a2 hu) (hs.bound k)]
        exact le_trans (Nat.sub_le _ _) (hs.bound k)
      · rw [a12 k hku]
        exact hs.bound k
    · by_cases hji : j = i
      · subst hji
        rw [a6, a1] at hj
        cases hj
      · rw [a9 j hji] at hj ⊢
        exact hs.idle j hj

theorem unitInv_advanceFrom (l : List (Fin 16)) :
    ∀ {s t : MachineState}, UnitInv s → advanceFrom l s = Outcome.ok t →
      UnitInv t := by
  induction l with
  | nil =>
    intro s t hs h
    cases h
    exact hs
  | cons i rest ih =>
    intro s t hs h
    obtain ⟨s1, h1, h2⟩ := Outcome.bind_eq_ok_iff.mp h
    exact ih (unitInv_advanceEntry hs h1) h2

theorem unitInv_commitPhase {rnd : Fin 8} {s t : MachineState} {b : Bool} (hs : UnitInv s)
    (h : commitPhase rnd s = Outcome.ok (b, t)) : UnitInv t := by
  have hnot : ∀ {e : ROBEntry}, e.instrStatus = COMMITTING →
      ¬(e.instrStatus = ISSUING ∨ e.instrStatus = EXECUTING) := by
    intro e he hc
    rw [he] at hc
    rcases hc with hc | hc <;> cases hc
  rcases commitPhase_cases h with ⟨-, -, a3, a4⟩ | ⟨i, -, -, -, -, -, a6, a7⟩ | ⟨-, -, a3, a4⟩
  · have hact : ∀ j, Active t j → Active s j ∧ t.rob j = s.rob j := by
      intro j hj
      rcases a3 j with h1 | ⟨-, h1, -, -⟩
      · refine ⟨?_, h1⟩
        unfold Active at hj ⊢
        rw [h1] at hj
        exact hj
      · exact absurd hj.2 (hnot h1)
    have hsame : ∀ (j : Fin 16) (k : Fin 7), Active s j → k.val = (s.rob j).execUnit →
        t.reservation k = s.reservation k := by
      intro j k hj hk
      rcases a4 k with h1 | ⟨h1, -⟩
      · exact h1
      · rw [hk] at h1
        rcases hs.unit j hj with h2 | h2 | h2 | h2 <;> rw [h2] at h1 <;>
          rcases h1 with h1 | h1 <;> cases h1
    refine hs.transfer (fun j hj => ?_) (fun j k hj hk => ?_) (fun k => ?_) (fun j hj => ?_)
    · obtain ⟨b1, b2⟩ := hact j hj
      rw [b2]
      exact ⟨b1, rfl, rfl, fun hh => hh⟩
    · rw [hsame j k (hact j hj).1 hk]
      exact ⟨rfl, fun _ => le_refl _⟩
    · rcases a4 k with h1 | ⟨-, h1 | ⟨h1, h2⟩⟩
      · rw [h1]
        exact hs.bound k
      · rw [h1]
        decide
      · rw [h2, wsub_one (Nat.one_le_iff_ne_zero.mpr h1) (hs.bound k)]
        exact le_trans (Nat.sub_le _ _) (hs.bound k)
    · rcases a3 j with h1 | ⟨-, -, h1, h2⟩
      · rw [h1] at hj ⊢
        exact hs.idle j hj
      · rw [h1] at hj
        rw [h2]
        exact hs.idle j hj
  · have hact : ∀ j, Active t j → Active s j ∧ t.rob j = s.rob j := by
      intro j hj
      have hji : j ≠ i := by
        rintro rfl
        have := hj.1
        rw [a6, setIdx_same] at this
        cases this
      have hr : t.rob j = s.rob j := by
        rw [a6]
        exact setIdx_ne _ _ hji
      refine ⟨?_, hr⟩
      unfold Active at hj ⊢
      rw [hr] at hj
      exact hj
    have hsame : ∀ (j : Fin 16) (k : Fin 7), Active s j → k.val = (s.rob j).execUnit →
        t.reservation k = s.reservation k := by
      intro j k hj hk
      rcases a7 k with h1 | ⟨h1, -⟩
      · exact h1
      · rw [hk] at h1
        rcases hs.unit j hj with h2 | h2 | h2 | h2 <;> rw [h2] at h1 <;>
          rcases h1 with h1 | h1 <;> cases h1
    refine hs.transfer (fun j hj => ?_) (fun j k hj hk => ?_) (fun k => ?_) (fun j hj => ?_)
    · obtain ⟨b1, b2⟩ := hact j hj
      rw [b2]
      exact ⟨b1, rfl, rfl, fun hh => hh⟩
    · rw [hsame j k (hact j hj).1 hk]
      exact ⟨rfl, fun _ => le_refl _⟩
    · rcases a7 k with h1 | ⟨-, h1⟩
      · rw [h1]
        exact hs.bound k
      · rw [h1]
        exact Nat.zero_le _
    · by_cases hji : j = i
      · subst hji
        rw [a6, setIdx_same]
      · have hr : t.rob j = s.rob j := by
          rw [a6]
          exact setIdx_ne _ _ hji
        rw [hr] at hj ⊢
        exact hs.idle j hj
  · have hno : ∀ j, ¬ Active t j := by
      intro j hj
      have := hj.1
      rw [a3 j] at this
      cases this
    refine hs.transfer (fun j hj => absurd hj (hno j)) (fun j k hj _ => absurd hj (hno j))
      (fun k => ?_) (fun j _ => ?_)
    · rw [a4 k]
      exact Nat.zero_le _
    · rw [a3 j]

theorem unitInv_issuePhase {s t : MachineState} {b : Bool} (hs : UnitInv s) (hq : RobInv s)
    (h : issuePhase s = Outcome.ok (b, t)) : UnitInv t := by
  rcases issuePhase_cases h with h1 |
    ⟨i, u, a1, a2, a3, a4, -, -, -, -, -, -, -, a12, a13, a14, a15, a16, a17, a18, a19, a20⟩
  · rw [h1]
    exact hs
  · obtain ⟨hh, ht, hb⟩ := hq
    have hibusy : (s.rob i).busy = false := by
      rw [← Bool.not_eq_true, hb i, a1]
      exact lt_irrefl _
    have hti : Active t i := ⟨a13, Or.inl a14⟩
    have hold : ∀ j, j ≠ i → Active t j → Active s j := by
      intro j hji hj
      unfold Active at hj ⊢
      rw [a12 j hji] at hj
      exact hj
    have hunit : ∀ (j : Fin 16) (k : Fin 7), Active s j → k.val = (s.rob j).execUnit →
        k ≠ u := by
      rintro j k hj hk rfl
      have := hs.held j k hj hk
      rw [a3] at this
      cases this
    refine ⟨?_, ?_, ?_, ?_, ?_, ?_, ?_⟩
    · intro j hj
      by_cases hji : j = i
      · subst hji
        rw [a15]
        exact a4
      · rw [a12 j hji]
        exact hs.unit j (hold j hji hj)
    · intro j hj
      by_cases hji : j = i
      · subst hji
        rw [a16]
        exact hs.idle j hibusy
      · rw [a12 j hji]
        exact hs.fresh j (hold j hji hj)
    · intro j k hj hk
      by_cases hji : j = i
      · subst hji
        rw [a15] at hk
        rw [Fin.ext hk]
        exact a18
      · rw [a12 j hji] at hk
        rw [a17 k (hunit j k (hold j hji hj) hk)]
        exact hs.held j k (hold j hji hj) hk
    · intro j k hjb hji2 hk
      by_cases hji : j = i
      · subst hji
        rw [a15] at hk
        rw [Fin.ext hk]
        exact a19
      · rw [a12 j hji] at hk hjb hji2
        rw [a17 k (hunit j k ⟨hjb, Or.inl hji2⟩ hk)]
        exact hs.timed j k hjb hji2 hk
    · intro j1 j2 h1 h2 he
      by_cases hj1 : j1 = i
      · by_cases hj2 : j2 = i
        · rw [hj1, hj2]
        · subst hj1
          rw [a15, a12 j2 hj2] at he
          exact absurd rfl (hunit j2 u (hold j2 hj2 h2) he)
      · by_cases hj2 : j2 = i
        · subst hj2
          rw [a15, a12 j1 hj1] at he
          exact absurd rfl (hunit j1 u (hold j1 hj1 h1) he.symm)
        · rw [a12 j1 hj1, a12 j2 hj2] at he
          exact hs.own j1 j2 (hold j1 hj1 h1) (hold j2 hj2 h2) he
    · intro k
      by_cases hku : k = u
      · subst hku
        exact a20
      · rw [a17 k hku]
        exact hs.bound k
    · intro j hj
      by_cases hji : j = i
      · subst hji
        rw [a13] at hj
        cases hj
      · rw [a12 j hji] at hj ⊢
        exact hs.idle j hj

theorem unitInv_nextStep {rnd : Fin 8} {s t : MachineState} {b : Bool} (hs : UnitInv s)
    (hq : RobInv s) (h : nextStep rnd s = Outcome.ok (b, t)) : UnitInv t := by
  obtain ⟨c, s1, h1, h2⟩ := nextStep_phases h
  have hs1 : UnitInv s1 :=
    unitInv_commitPhase (s := { s with cycles := wadd s.cycles 1 }) ⟨hs.unit, hs.fresh,
      hs.held, hs.timed, hs.own, hs.bound, hs.idle⟩ h1
  have hq1 : RobInv s1 := robInv_commitPhase (s := { s with cycles := wadd s.cycles 1 }) hq h1
  rcases h2 with ⟨-, -, h3⟩ | ⟨-, s2, h3, h4⟩
  · rw [h3]
    exact hs1
  · exact unitInv_issuePhase (unitInv_advanceFrom _ hs1 h3) (robInv_advanceFrom hq1 h3) h4

theorem reachable_unitInv {s : MachineState} (h : Reachable s) : UnitInv s := by
  induction h with
  | init =>
    have hno : ∀ j, ¬ Active newMachineState j := by
      intro j hj
      cases hj.1
    exact ⟨fun j hj => absurd hj (hno j), fun j hj => absurd hj (hno j),
      fun j _ hj => absurd hj (hno j), fun j _ hj => (by cases hj),
      fun i _ hi => absurd hi (hno i), fun _ => Nat.zero_le _, fun _ _ => rfl⟩
  | load pc instr _ hl ih =>
    unfold loadInstr at hl
    cases ha : idx? 10000 pc with
    | none => rw [ha] at hl; cases hl
    | some a =>
      rw [ha] at hl
      cases hl
      exact ⟨ih.unit, ih.fresh, ih.held, ih.timed, ih.own, ih.bound, ih.idle⟩
  | size n _ ih => exact ⟨ih.unit, ih.fresh, ih.held, ih.timed, ih.own, ih.bound, ih.idle⟩
  | step rnd b hr hn ih => exact unitInv_nextStep ih (reachable_robInv hr) hn

/-! ### The advance-phase step rule -/

/-- A visit of another entry `j` leaves an entry in flight `i` and the time left on its
station as they are, leaves a valid entry as it is, and leaves a free station as it is. -/
theorem advanceEntry_other {x y : MachineState} {i j : Fin 16} (hx : UnitInv x)
    (h : advanceEntry x j = Outcome.ok y) (hij : i ≠ j) :
    (Active x i → y.rob i = x.rob i ∧ ∀ u : Fin 7, u.val = (x.rob i).execUnit →
      (y.reservation u).exTimeLeft = (x.reservation u).exTimeLeft) ∧
    ((x.rob i).valid = true → y.rob i = x.rob i) ∧
    (∀ k : Fin 7, (x.reservation k).busy = false → y.reservation k = x.reservation k) := by
  have hfree : ∀ (w k : Fin 7), Active x j → w.val = (x.rob j).execUnit →
      (x.reservation k).busy = false → k ≠ w := by
    rintro w k hj hw hk rfl
    rw [hx.held j k hj hw] at hk
    cases hk
  obtain ⟨w, hw, h1 | h1 | h1 | h1 | h1⟩ := advanceEntry_cells h
  · rw [h1.1]
    exact ⟨fun _ => ⟨rfl, fun _ _ => rfl⟩, fun _ => rfl, fun _ _ => rfl⟩
  · obtain ⟨a1, a2, -, a4, -, -, a7⟩ := h1
    have hj : Active x j := ⟨a1, Or.inr a2⟩
    refine ⟨fun hi => ⟨by rw [a4], fun u hu => ?_⟩, fun _ => by rw [a4],
      fun k hk => a7 k (hfree w k hj hw hk)⟩
    rw [a7 u (hx.ne_unit hj hi hij hw hu)]
  · obtain ⟨a1, a2, -, v, -, -, a6, -, a8⟩ := h1
    have hj : Active x j := ⟨a1, Or.inr a2⟩
    refine ⟨fun hi => ⟨?_, fun u hu => ?_⟩, fun hv => ?_, fun k hk => ?_⟩
    · rw [a6 i hij]
      exact broadcastROB_of_other _ _ (fun hc => hij (hx.own i j hi hj (hc.trans hw)))
    · rw [a8 u (hx.ne_unit hj hi hij hw hu), (broadcastStation_keeps _ _ _).2]
    · rw [a6 i hij]
      exact broadcastROB_of_valid _ _ _ hv
    · rw [a8 k (hfree w k hj hw hk)]
      exact broadcastStation_of_idle _ _ hk
  · obtain ⟨-, -, a3, -, -, -, a7⟩ := h1
    exact ⟨fun _ => ⟨a7 i hij, fun _ _ => by rw [a3]⟩, fun _ => a7 i hij,
      fun _ _ => by rw [a3]⟩
  · obtain ⟨a1, a2, -, -, -, -, -, -, a9, -, -, a12⟩ := h1
    have hj : Active x j := ⟨a1, Or.inl a2⟩
    refine ⟨fun hi => ⟨a9 i hij, fun u hu => ?_⟩, fun _ => a9 i hij,
      fun k hk => a12 k (hfree w k hj hw hk)⟩
    rw [a12 u (hx.ne_unit hj hi hij hw hu)]

theorem advanceFrom_other (l : List (Fin 16)) (i : Fin 16) (hi : i ∉ l) :
    ∀ {x y : MachineState}, UnitInv x → advanceFrom l x = Outcome.ok y →
      (Active x i → y.rob i = x.rob i ∧ ∀ u : Fin 7, u.val = (x.rob i).execUnit →
        (y.reservation u).exTimeLeft = (x.reservation u).exTimeLeft) ∧
      ((x.rob i).valid = true → y.rob i = x.rob i) ∧
      (∀ k : Fin 7, (x.reservation k).busy = false → y.reservation k = x.reservation k) := by
  induction l with
  | nil =>
    intro x y _ h
    cases h
    exact ⟨fun _ => ⟨rfl, fun _ _ => rfl⟩, fun _ => rfl, fun _ _ => rfl⟩
  | cons j rest ih =>
    intro x y hx h
    obtain ⟨x1, h1, h2⟩ := Outcome.bind_eq_ok_iff.mp h
    have hij : i ≠ j := fun hc => hi (hc ▸ List.mem_cons_self _ _)
    obtain ⟨a1, a2, a3⟩ := advanceEntry_other hx h1 hij
    obtain ⟨b1, b2, b3⟩ :=
      ih (fun hm => hi (List.mem_cons_of_mem _ hm)) (unitInv_advanceEntry hx h1) h2
    refine ⟨fun hact => ?_, fun hv => ?_, fun k hk => ?_⟩
    · obtain ⟨c1, c2⟩ := a1 hact
      have hact1 : Active x1 i := by
        unfold Active at hact ⊢
        rw [c1]
        exact hact
      obtain ⟨d1, d2⟩ := b1 hact1
      refine ⟨d1.trans c1, fun u hu => ?_⟩
      rw [d2 u (by rw [c1]; exact hu), c2 u hu]
    · have c1 := a2 hv
      rw [b2 (by rw [c1]; exact hv), c1]
    · have c1 := a3 k hk
      rw [b3 k (by rw [c1]; exact hk), c1]

theorem advanceFrom_append (l1 l2 : List (Fin 16)) :
    ∀ s : MachineState,
      advanceFrom (l1 ++ l2) s = (advanceFrom l1 s).bind (advanceFrom l2) := by
  induction l1 with
  | nil => intro s; rfl
  | cons i rest ih =>
    intro s
    show (advanceEntry s i).bind (advanceFrom (rest ++ l2)) =
      ((advanceEntry s i).bind (advanceFrom rest)).bind (advanceFrom l2)
    cases advanceEntry s i with
    | ok s1 => exact ih s1
    | raised op pc s1 => rfl
    | undef => rfl

/-- The advance phase seen from ROB slot `i`: the visits of the slots before `i` lead to a
state `x`, the visit of `i` to `y`, the visits of the slots after `i` to the final state. -/
theorem advancePhase_split {s t : MachineState} (h : advancePhase s = Outcome.ok t)
    (i : Fin 16) :
    ∃ x y, advanceFrom ((List.finRange 16).filter fun k => decide (k < i)) s = Outcome.ok x ∧
      advanceEntry x i = Outcome.ok y ∧
      advanceFrom ((List.finRange 16).filter fun k => decide (i < k)) y = Outcome.ok t := by
  unfold advancePhase at h
  rw [finRange16_split i, advanceFrom_append] at h
  obtain ⟨x, h1, h2⟩ := Outcome.bind_eq_ok_iff.mp h
  obtain ⟨y, h3, h4⟩ := Outcome.bind_eq_ok_iff.mp h2
  exact ⟨x, y, h1, h3, h4⟩

theorem writeResultEntry_address {e : ROBEntry} (r : ResStation) (h : opcode e.instr = SW) :
    (writeResultEntry e r).address = wadd r.Vj (immEx e.instr) := by
  unfold writeResultEntry
  rw [if_pos h]

theorem not_mem_filter_lt (i : Fin 16) :
    i ∉ (List.finRange 16).filter (fun k => decide (k < i)) ∧
      i ∉ (List.finRange 16).filter (fun k => decide (i < k)) := by
  constructor <;>
  · intro hm
    have := (List.mem_filter.mp hm).2
    exact lt_irrefl i (of_decide_eq_true this)

/-- C20: the advance-phase step rule.  Let `r` be reachable, let the commit phase of a tick
on `r` return `false` leaving `s`, and let the advance phase on `s` return `t`.  Let ROB
entry `i` be busy in `s`, `u` be its `execUnit`, and `x` be the state in which the loop
visits `i` (after the visits of the slots before `i`).  Then: (a) if the entry is
`EXECUTING` and `reservation[u].exTimeLeft = n > 0`, in `t` it is still `EXECUTING` and
`exTimeLeft = n - 1`; (b) if it is `EXECUTING` and `exTimeLeft = 0`, in `t` it is
`WRITING_RESULT` and valid, its result is `getResult(u)` computed in `x`, station `u` is the
default one, and for `SW` its address is `Vj + immEx` of the station in `x`; (c) if it is
`WRITING_RESULT` it is `COMMITTING` in `t`; (d) if it is `ISSUING` and station `u` has
`Qj = Qk = READY` in `x`, in `t` it is `EXECUTING` and `exTimeLeft`, which was at least 1, is
one less; and the status in `t` is the status in `s` or the next one. -/
theorem advancePhase_step_rule (rnd : Fin 8) (r s t : MachineState) (hr : Reachable r)
    (hc : commitPhase rnd { r with cycles := wadd r.cycles 1 } = Outcome.ok (false, s))
    (ha : advancePhase s = Outcome.ok t) (i : Fin 16) (hb : (s.rob i).busy = true)
    (u : Fin 7) (hu : u.val = (s.rob i).execUnit) :
    ∃ x, advanceFrom ((List.finRange 16).filter fun k => decide (k < i)) s = Outcome.ok x ∧
      ((s.rob i).instrStatus = EXECUTING → 0 < (s.reservation u).exTimeLeft →
        (t.rob i).instrStatus = EXECUTING ∧
        (t.reservation u).exTimeLeft = (s.reservation u).exTimeLeft - 1) ∧
      ((s.rob i).instrStatus = EXECUTING → (s.reservation u).exTimeLeft = 0 →
        (t.rob i).instrStatus = WRITING_RESULT ∧ (t.rob i).valid = true ∧
        getResult x u.val = Outcome.ok (t.rob i).result ∧ t.reservation u = {} ∧
        (opcode (s.rob i).instr = SW →
          (t.rob i).address = wadd (x.reservation u).Vj (immEx (s.rob i).instr))) ∧
      ((s.rob i).instrStatus = WRITING_RESULT → (t.rob i).instrStatus = COMMITTING) ∧
      ((s.rob i).instrStatus = ISSUING → (x.reservation u).Qj = READY →
        (x.reservation u).Qk = READY →
        (t.rob i).instrStatus = EXECUTING ∧ 1 ≤ (s.reservation u).exTimeLeft ∧
        (t.reservation u).exTimeLeft = (s.reservation u).exTimeLeft - 1) ∧
      ((t.rob i).instrStatus = (s.rob i).instrStatus ∨
        (t.rob i).instrStatus = (s.rob i).instrStatus + 1) := by
  have hr1 := reachable_unitInv hr
  have hs : UnitInv s :=
    unitInv_commitPhase (s := { r with cycles := wadd r.cycles 1 })
      ⟨hr1.unit, hr1.fresh, hr1.held, hr1.timed, hr1.own, hr1.bound, hr1.idle⟩ hc
  obtain ⟨x, y, h1, h2, h3⟩ := advancePhase_split ha i
  obtain ⟨hpre, hsuf⟩ := not_mem_filter_lt i
  have hx : UnitInv x := unitInv_advanceFrom _ hs h1
  have hy : UnitInv y := unitInv_advanceEntry hx h2
  obtain ⟨p1, -, -⟩ := advanceFrom_other _ i hpre hs h1
  obtain ⟨q1, q2, q3⟩ := advanceFrom_other _ i hsuf hy h3
  obtain ⟨rx1, rx2, rx3, rx4⟩ := advanceFrom_rob _ h1 i
  obtain ⟨rt1, rt2, rt3, rt4⟩ := advanceFrom_rob _ h3 i
  have rx4 := rx4 hpre
  have rt4 := rt4 hsuf
  obtain ⟨ry1, ry2, ry3, -⟩ := advanceEntry_rob h2 i
  have hxb : (x.rob i).busy = true := rx1.trans hb
  have hux : u.val = (x.rob i).execUnit := hu.trans rx2.symm
  have huy : u.val = (y.rob i).execUnit := hux.trans ry2.symm
  obtain ⟨w, hw, hcases⟩ := advanceEntry_cells h2
  have hwu : w = u := Fin.ext (hw.trans hux.symm)
  subst hwu
  refine ⟨x, h1, ?_, ?_, ?_, ?_, ?_⟩
  · intro hst hn
    have hact : Active s i := ⟨hb, Or.inr hst⟩
    obtain ⟨c1, c2⟩ := p1 hact
    have hxs : (x.rob i).instrStatus = EXECUTING := rx4.trans hst
    have hxn : (x.reservation w).exTimeLeft = (s.reservation w).exTimeLeft := c2 w hu
    rcases hcases with a | a | a | a | a
    · exact absurd ⟨hxb, Or.inl hxs⟩ a.2
    · obtain ⟨-, -, -, a4, -, a6, -⟩ := a
      have hyact : Active y i := by
        unfold Active
        rw [a4]
        exact ⟨hxb, Or.inr hxs⟩
      obtain ⟨d1, d2⟩ := q1 hyact
      refine ⟨?_, ?_⟩
      · rw [d1, a4]
        exact hxs
      · rw [d2 w huy, a6, hxn, wsub_one hn (hs.bound w)]
    · rw [hxn] at a
      rw [a.2.2.1] at hn
      exact absurd hn (lt_irrefl 0)
    · rw [hxs] at a
      cases a.2.1
    · rw [hxs] at a
      cases a.2.1
  · intro hst hn
    have hact : Active s i := ⟨hb, Or.inr hst⟩
    obtain ⟨c1, c2⟩ := p1 hact
    have hxs : (x.rob i).instrStatus = EXECUTING := rx4.trans hst
    have hxn : (x.reservation w).exTimeLeft = 0 := (c2 w hu).trans hn
    have hxv : (x.rob i).valid = false := hx.fresh i ⟨hxb, Or.inr hxs⟩
    rcases hcases with a | a | a | a | a
    · exact absurd ⟨hxb, Or.inl hxs⟩ a.2
    · exact absurd hxn a.2.2.1
    · obtain ⟨-, -, -, v, a4, a5, -, a7, -⟩ := a
      obtain ⟨e1, e2, e3, e4, e5, e6⟩ := writeResultEntry_keeps (x.rob i) (x.reservation w)
      obtain ⟨f1, f2⟩ := broadcastROB_fires w.val v
        (e := writeResultEntry (x.rob i) (x.reservation w)) (e1.trans hxb) (e2.trans hxv)
        (e4.trans hux.symm)
      obtain ⟨g1, g2, g3, g4, g5⟩ := broadcastROB_keeps w.val v
        (writeResultEntry (x.rob i) (x.reservation w))
      have hyv : (y.rob i).valid = true := by rw [a5]; exact f1
      have hty : t.rob i = y.rob i := q2 hyv
      have hyfree : (y.reservation w).busy = false := by rw [a7]
      refine ⟨?_, ?_, ?_, ?_, ?_⟩
      · rw [hty, a5, g2, e3]
      · rw [hty]
        exact hyv
      · rw [hty, a5, f2]
        exact a4
      · rw [q3 w hyfree, a7]
      · intro hsw
        rw [hty, a5, g5, writeResultEntry_address _ (by rw [rx3]; exact hsw), rx3]
    · rw [hxs] at a
      cases a.2.1
    · rw [hxs] at a
      cases a.2.1
  · intro hst
    have hxs : (x.rob i).instrStatus = WRITING_RESULT := rx4.trans hst
    rw [rt4]
    rcases hcases with a | a | a | a | a
    · exact absurd ⟨hxb, Or.inr (Or.inl hxs)⟩ a.2
    · rw [hxs] at a
      cases a.2.1
    · rw [hxs] at a
      cases a.2.1
    · exact a.2.2.2.1
    · rw [hxs] at a
      cases a.2.1
  · intro hst hq1 hq2
    have hact : Active s i := ⟨hb, Or.inl hst⟩
    obtain ⟨c1, c2⟩ := p1 hact
    have hxs : (x.rob i).instrStatus = ISSUING := rx4.trans hst
    have hxn : (x.reservation w).exTimeLeft = (s.reservation w).exTimeLeft := c2 w hu
    have hm : 1 ≤ (s.reservation w).exTimeLeft := hs.timed i w hb hst hu
    rcases hcases with a | a | a | a | a
    · exact absurd ⟨hxb, Or.inr (Or.inr ⟨hxs, hq1, hq2⟩)⟩ a.2
    · rw [hxs] at a
      cases a.2.1
    · rw [hxs] at a
      cases a.2.1
    · rw [hxs] at a
      cases a.2.1
    · obtain ⟨-, -, -, -, a5, a6, -, -, -, -, a11, -⟩ := a
      have hyact : Active y i := ⟨a6.trans hxb, Or.inr a5⟩
      obtain ⟨d1, d2⟩ := q1 hyact
      refine ⟨?_, hm, ?_⟩
      · rw [d1]
        exact a5
      · rw [d2 w huy, a11, hxn, wsub_one hm (hs.bound w)]
  · rw [rt4, ← rx4]
    rcases hcases with a | a | a | a | a
    · rw [a.1]
      exact Or.inl rfl
    · rw [a.2.2.2.1]
      exact Or.inl rfl
    · obtain ⟨-, a2, -, v, -, a5, -⟩ := a
      right
      rw [a5, (broadcastROB_keeps _ _ _).2.1, (writeResultEntry_keeps _ _).2.2.1, a2]
    · obtain ⟨-, a2, -, a4, -⟩ := a
      right
      rw [a4, a2]
    · obtain ⟨-, a2, -, -, a5, -⟩ := a
      right
      rw [a5, a2]

/-- An instance of C20: the fourth tick of `branchProgram`, seen from the `BEQZ` in ROB
slot 1, which is `EXECUTING` on `INT2` with two cycles left. -/
theorem advancePhase_step_rule_witness :
    (Reachable (runState branchProgram 3) ∧
      commitPhase 0 { runState branchProgram 3 with
        cycles := wadd (runState branchProgram 3).cycles 1 } = Outcome.ok (false, midTick) ∧
      advancePhase midTick = Outcome.ok (advanced midTick) ∧
      (midTick.rob 1).busy = true ∧ (6 : Fin 7).val = (midTick.rob 1).execUnit ∧
      (midTick.rob 1).instrStatus = EXECUTING ∧ (midTick.reservation 6).exTimeLeft = 2) ∧
    ∃ x, advanceFrom ((List.finRange 16).filter fun k => decide (k < (1 : Fin 16))) midTick =
        Outcome.ok x ∧
      ((midTick.rob 1).instrStatus = EXECUTING → 0 < (midTick.reservation 6).exTimeLeft →
        ((advanced midTick).rob 1).instrStatus = EXECUTING ∧
        ((advanced midTick).reservation 6).exTimeLeft =
          (midTick.reservation 6).exTimeLeft - 1) ∧
      ((midTick.rob 1).instrStatus = EXECUTING → (midTick.reservation 6).exTimeLeft = 0 →
        ((advanced midTick).rob 1).instrStatus = WRITING_RESULT ∧
        ((advanced midTick).rob 1).valid = true ∧
        getResult x (6 : Fin 7).val = Outcome.ok ((advanced midTick).rob 1).result ∧
        (advanced midTick).reservation 6 = {} ∧
        (opcode (midTick.rob 1).instr = SW →
          ((advanced midTick).rob 1).address =
            wadd (x.reservation 6).Vj (immEx (midTick.rob 1).instr))) ∧
      ((midTick.rob 1).instrStatus = WRITING_RESULT →
        ((advanced midTick).rob 1).instrStatus = COMMITTING) ∧
      ((midTick.rob 1).instrStatus = ISSUING → (x.reservation 6).Qj = READY →
        (x.reservation 6).Qk = READY →
        ((advanced midTick).rob 1).instrStatus = EXECUTING ∧
        1 ≤ (midTick.reservation 6).exTimeLeft ∧
        ((advanced midTick).reservation 6).exTimeLeft =
          (midTick.reservation 6).exTimeLeft - 1) ∧
      (((advanced midTick).rob 1).instrStatus = (midTick.rob 1).instrStatus ∨
        ((advanced midTick).rob 1).instrStatus = (midTick.rob 1).instrStatus + 1) :=
  ⟨⟨runState_reachable branchProgram 3, rfl, rfl, rfl, rfl, rfl, rfl⟩,
    advancePhase_step_rule 0 (runState branchProgram 3) midTick (advanced midTick)
      (runState_reachable branchProgram 3) rfl rfl 1 rfl 6 rfl⟩

/-! ### The pc after a squash -/

/-- C24, as the code behaves: in the run of `loopProgram`, after 15 calls of `nextStep` the
head of the ROB (slot 2) is the second instance of the `BEQZ` at 17, busy, valid and
`COMMITTING`, with result 1 (not taken) and speculative next pc 19 (the BTB predicted
taken).  The commit phase of the next call squashes (the ROB is reset) and leaves `pc = 19`,
the taken target `e.pc + 1 + immEx(e.instr)`, not the fall-through `e.pc + 1 = 18`. -/
theorem beqz_squash_resumes_at_target :
    Reachable (runState loopProgram 15) ∧
    (runState loopProgram 15).robHeadIdx = 2 ∧ (runState loopProgram 15).robTailIdx = 7 ∧
    ((runState loopProgram 15).rob 2).busy = true ∧
    ((runState loopProgram 15).rob 2).valid = true ∧
    ((runState loopProgram 15).rob 2).instrStatus = COMMITTING ∧
    opcode ((runState loopProgram 15).rob 2).instr = BEQZ ∧
    immEx ((runState loopProgram 15).rob 2).instr = 1 ∧
    ((runState loopProgram 15).rob 2).pc = 17 ∧
    ((runState loopProgram 15).rob 2).result = 1 ∧
    ((runState loopProgram 15).rob 2).address = 19 ∧
    commitPhase 0 { runState loopProgram 15 with
        cycles := wadd (runState loopProgram 15).cycles 1 } =
      Outcome.ok (false, committed 0 (runState loopProgram 15)) ∧
    (committed 0 (runState loopProgram 15)).robHeadIdx = 0 ∧
    (committed 0 (runState loopProgram 15)).robTailIdx = 0 ∧
    (∀ j : Fin 16, ((committed 0 (runState loopProgram 15)).rob j).busy = false) ∧
    (committed 0 (runState loopProgram 15)).pc = 19 ∧
    (committed 0 (runState loopProgram 15)).pc ≠
      (((runState loopProgram 15).rob 2).pc + 1) % 4294967296 :=
  ⟨runState_reachable loopProgram 15, rfl, rfl, rfl, rfl, rfl, rfl, rfl, rfl, rfl, rfl, rfl,
    rfl, rfl, by decide, rfl, by decide⟩

/-! ### Idle reservation stations -/

/-- What the commit of the head does to a station: nothing, or it clears it, or it leaves
it busy, or it decrements a non-zero `exTimeLeft` keeping the `busy` flag. -/
theorem commitInstr_stations {rnd : Fin 8} {s t : MachineState}
    (h : commitInstr rnd s s.robHeadIdx = Outcome.ok t) (k : Fin 7) :
    t.reservation k = s.reservation k ∨ t.reservation k = {} ∨
      (t.reservation k).busy = true ∨
      ((s.reservation k).exTimeLeft ≠ 0 ∧ (t.reservation k).busy = (s.reservation k).busy) := by
  have hpop : ∀ {x : MachineState} {p : Option Nat × MachineState},
      robPop x = Outcome.ok p → p.2.reservation = x.reservation := by
    intro x p hp
    unfold robPop at hp
    split_ifs at hp
    · cases hp
      rfl
    · cases hi : idx? 16 x.robHeadIdx with
      | none => rw [hi] at hp; cases hp
      | some i =>
        rw [hi] at hp
        cases hp
        rfl
  have hreg : ∀ {rd : Fin 32} {result : Nat},
      commitRegister s s.robHeadIdx rd result = Outcome.ok t →
        t.reservation = s.reservation := by
    intro rd result hc
    unfold commitRegister at hc
    obtain ⟨p, hp, hq⟩ := Outcome.bind_eq_ok_iff.mp hc
    cases hq
    have hr := hpop hp
    exact hr
  unfold commitInstr at h
  cases hi : idx? 16 s.robHeadIdx with
  | none => rw [hi] at h; cases h
  | some i =>
    rw [hi] at h
    dsimp only at h
    by_cases h1 : opcode (s.rob i).instr = LW ∨ opcode (s.rob i).instr = ADDI ∨
        opcode (s.rob i).instr = ANDI
    · rw [if_pos h1] at h
      exact Or.inl (by rw [hreg h])
    rw [if_neg h1] at h
    by_cases h2 : opcode (s.rob i).instr = RR_ALU
    · rw [if_pos h2] at h
      exact Or.inl (by rw [hreg h])
    rw [if_neg h2] at h
    by_cases h3 : opcode (s.rob i).instr = BEQZ
    · rw [if_pos h3] at h
      obtain ⟨b, hb⟩ : ∃ b, updateBTB s (s.rob i).pc
          (wadd (wadd (immEx (s.rob i).instr) 1) (s.rob i).pc)
          (decide ((s.rob i).result = 0)) rnd = { s with btb := b } :=
        ⟨_, updateBTB_frame _ _ _ _ _⟩
      rw [hb] at h
      split_ifs at h
      · cases h
        exact Or.inr (Or.inl rfl)
      · obtain ⟨p, hp, hq⟩ := Outcome.bind_eq_ok_iff.mp h
        cases hq
        have hr := hpop hp
        exact Or.inl (by rw [hr])
    rw [if_neg h3] at h
    by_cases h4 : opcode (s.rob i).instr = SW
    · rw [if_pos h4] at h
      by_cases h5 : (s.rob i).execUnit ≠ STORE1 ∧ (s.rob i).execUnit ≠ STORE2
      · rw [if_pos h5] at h
        cases h
        unfold commitStoreTransfer
        dsimp only
        split_ifs
        · dsimp only
          by_cases hk : k = 3
          · subst hk
            rw [setIdx_same]
            exact Or.inr (Or.inr (Or.inl rfl))
          · rw [setIdx_ne _ _ hk]
            exact Or.inl rfl
        · dsimp only
          by_cases hk : k = 4
          · subst hk
            rw [setIdx_same]
            exact Or.inr (Or.inr (Or.inl rfl))
          · rw [setIdx_ne _ _ hk]
            exact Or.inl rfl
        · exact Or.inl rfl
      · rw [if_neg h5] at h
        cases hu : idx? 7 (s.rob i).execUnit with
        | none => rw [hu] at h; cases h
        | some u =>
          rw [hu] at h
          dsimp only at h
          by_cases h6 : (s.reservation u).exTimeLeft = 0
          · rw [if_pos h6] at h
            cases ha : idx? 10000 (s.reservation u).Vk with
            | none => rw [ha] at h; cases h
            | some a =>
              rw [ha] at h
              dsimp only at h
              obtain ⟨p, hp, hq⟩ := Outcome.bind_eq_ok_iff.mp h
              cases hq
              have hr := hpop hp
              rw [hr]
              dsimp only
              by_cases hk : k = u
              · subst hk
                rw [setIdx_same]
                exact Or.inr (Or.inl rfl)
              · rw [setIdx_ne _ _ hk]
                exact Or.inl rfl
          · rw [if_neg h6] at h
            cases h
            dsimp only
            by_cases hk : k = u
            · subst hk
              rw [setIdx_same]
              exact Or.inr (Or.inr (Or.inr ⟨h6, rfl⟩))
            · rw [setIdx_ne _ _ hk]
              exact Or.inl rfl
    rw [if_neg h4] at h
    by_cases h5 : opcode (s.rob i).instr = J
    · rw [if_pos h5] at h
      obtain ⟨p, hp, hq⟩ := Outcome.bind_eq_ok_iff.mp h
      cases hq
      exact Or.inl (by rw [hpop hp])
    · rw [if_neg h5] at h
      cases h
      exact Or.inl rfl

theorem commitPhase_stations {rnd : Fin 8} {s t : MachineState} {b : Bool}
    (h : commitPhase rnd s = Outcome.ok (b, t)) (k : Fin 7) :
    t.reservation k = s.reservation k ∨ t.reservation k = {} ∨
      (t.reservation k).busy = true ∨
      ((s.reservation k).exTimeLeft ≠ 0 ∧ (t.reservation k).busy = (s.reservation k).busy) := by
  unfold commitPhase robHead at h
  by_cases he : s.robHeadIdx = s.robTailIdx
  · rw [if_pos he] at h
    cases h
    exact Or.inl rfl
  · rw [if_neg he] at h
    dsimp only at h
    cases hi : idx? 16 s.robHeadIdx with
    | none => rw [hi] at h; cases h
    | some i =>
      rw [hi] at h
      dsimp only at h
      split_ifs at h
      · obtain ⟨s1, h1, h2⟩ := Outcome.bind_eq_ok_iff.mp h
        cases h2
        exact commitInstr_stations h1 k
      · obtain ⟨p, hp, hq⟩ := Outcome.bind_eq_ok_iff.mp h
        cases hq
        rw [robPop_of_ne i (idx?_eq_some_iff.mp hi) he] at hp
        cases hp
        exact Or.inl rfl
      · cases h
        exact Or.inl rfl

theorem idleZero_commitPhase {rnd : Fin 8} {s t : MachineState} {b : Bool} (hs : IdleZero s)
    (h : commitPhase rnd s = Outcome.ok (b, t)) : IdleZero t := by
  intro k hk
  rcases commitPhase_stations h k with h1 | h1 | h1 | ⟨h1, h2⟩
  · rw [h1] at hk ⊢
    exact hs k hk
  · exact h1
  · rw [h1] at hk
    cases hk
  · rw [h2] at hk
    rw [hs k hk] at h1
    exact absurd rfl h1

theorem idleZero_advanceEntry {s t : MachineState} {i : Fin 16} (hs : IdleZero s)
    (hu : UnitInv s) (h : advanceEntry s i = Outcome.ok t) : IdleZero t := by
  intro k hk
  obtain ⟨u, hui, h1 | h1 | h1 | h1 | h1⟩ := advanceEntry_cells h
  · rw [h1.1] at hk ⊢
    exact hs k hk
  · obtain ⟨a1, a2, -, -, a5, -, a7⟩ := h1
    by_cases hku : k = u
    · subst hku
      rw [a5, hu.held i k ⟨a1, Or.inr a2⟩ hui] at hk
      cases hk
    · rw [a7 k hku] at hk ⊢
      exact hs k hk
  · obtain ⟨-, -, -, v, -, -, -, a7, a8⟩ := h1
    by_cases hku : k = u
    · subst hku
      exact a7
    · rw [a8 k hku] at hk ⊢
      rw [(broadcastStation_keeps _ _ _).1] at hk
      rw [broadcastStation_of_idle _ _ hk]
      exact hs k hk
  · rw [h1.2.2.1] at hk ⊢
    exact hs k hk
  · obtain ⟨a1, a2, -, -, -, -, -, -, -, a10, -, a12⟩ := h1
    by_cases hku : k = u
    · subst hku
      rw [a10, hu.held i k ⟨a1, Or.inl a2⟩ hui] at hk
      cases hk
    · rw [a12 k hku] at hk ⊢
      exact hs k hk

theorem idleZero_advanceFrom (l : List (Fin 16)) :
    ∀ {s t : MachineState}, IdleZero s → UnitInv s → advanceFrom l s = Outcome.ok t →
      IdleZero t := by
  induction l with
  | nil =>
    intro s t hs _ h
    cases h
    exact hs
  | cons i rest ih =>
    intro s t hs hu h
    obtain ⟨s1, h1, h2⟩ := Outcome.bind_eq_ok_iff.mp h
    exact ih (idleZero_advanceEntry hs hu h1) (unitInv_advanceEntry hu h1) h2

theorem idleZero_issuePhase {s t : MachineState} {b : Bool} (hs : IdleZero s)
    (h : issuePhase s = Outcome.ok (b, t)) : IdleZero t := by
  rcases issuePhase_cases h with h1 |
    ⟨i, u, -, -, -, -, -, -, -, -, -, -, -, -, -, -, -, -, a17, a18, -, -⟩
  · rw [h1]
    exact hs
  · intro k hk
    by_cases hku : k = u
    · subst hku
      rw [a18] at hk
      cases hk
    · rw [a17 k hku] at hk ⊢
      exact hs k hk

theorem idleZero_nextStep {rnd : Fin 8} {s t : MachineState} {b : Bool} (hs : IdleZero s)
    (hu : UnitInv s) (h : nextStep rnd s = Outcome.ok (b, t)) : IdleZero t := by
  obtain ⟨c, s1, h1, h2⟩ := nextStep_phases h
  have hs1 : IdleZero s1 :=
    idleZero_commitPhase (s := { s with cycles := wadd s.cycles 1 }) hs h1
  have hu1 : UnitInv s1 :=
    unitInv_commitPhase (s := { s with cycles := wadd s.cycles 1 })
      ⟨hu.unit, hu.fresh, hu.held, hu.timed, hu.own, hu.bound, hu.idle⟩ h1
  rcases h2 with ⟨-, -, h3⟩ | ⟨-, s2, h3, h4⟩
  · rw [h3]
    exact hs1
  · exact idleZero_issuePhase (idleZero_advanceFrom _ hs1 hu1 h3) h4

theorem reachable_idleZero {s : MachineState} (h : Reachable s) : IdleZero s := by
  induction h with
  | init => exact fun _ _ => rfl
  | load pc instr _ hl ih =>
    unfold loadInstr at hl
    cases ha : idx? 10000 pc with
    | none => rw [ha] at hl; cases hl
    | some a =>
      rw [ha] at hl
      cases hl
      exact ih
  | size n _ ih => exact ih
  | step rnd b hr hn ih => exact idleZero_nextStep ih (reachable_unitInv hr) hn

theorem captureJ_second {s : MachineState} {rg : RegResultEntry} {rs : Fin 32}
    {r r2 : ResStation} (h : captureJ s rg rs r = Outcome.ok r2) :
    r2.Qk = r.Qk ∧ r2.Vk = r.Vk := by
  unfold captureJ at h
  split_ifs at h
  · cases h
    exact ⟨rfl, rfl⟩
  · cases hp : idx? 16 rg.robIdx with
    | none => rw [hp] at h; cases h
    | some p =>
      rw [hp] at h
      dsimp only at h
      split_ifs at h <;> (cases h; exact ⟨rfl, rfl⟩)

/-- The issue of an instruction without a second source operand leaves `Qk` and `Vk` of its
station as they were; the ROB entry holds the instruction fetched. -/
theorem issueInstr_second {s t : MachineState} {pc unit robIdx : Nat}
    (h : issueInstr s pc unit robIdx = Outcome.ok t) (a : Fin 10000) (u : Fin 7)
    (i : Fin 16) (ha : a.val = pc) (hu : u.val = unit) (hi : i.val = robIdx) :
    (t.rob i).instr = s.memory a ∧
    (opcode (s.memory a) ∈ singleSource →
      (t.reservation u).Qk = (s.reservation u).Qk ∧
      (t.reservation u).Vk = (s.reservation u).Vk) := by
  unfold issueInstr at h
  rw [idx?_eq_some_iff.mpr ha, idx?_eq_some_iff.mpr hu, idx?_eq_some_iff.mpr hi] at h
  dsimp only at h
  by_cases hn : opcode (s.memory a) = NOOP ∨ opcode (s.memory a) = HALT
  · rw [if_pos hn] at h
    cases h
    dsimp only
    rw [setIdx_same, setIdx_same]
    exact ⟨rfl, fun _ => ⟨rfl, rfl⟩⟩
  · rw [if_neg hn] at h
    cases he : issueExTime (opcode (s.memory a)) with
    | none => rw [he] at h; cases h
    | some x =>
      rw [he] at h
      dsimp only at h
      obtain ⟨-, -, b3, -⟩ := issueOperands_frame h
      refine ⟨?_, fun hop => ?_⟩
      · rw [b3]
        dsimp only
        rw [setIdx_same]
      · have hop2 : opcode (s.memory a) = LW ∨ opcode (s.memory a) = ADDI ∨
            opcode (s.memory a) = ANDI ∨ opcode (s.memory a) = BEQZ := by
          simp only [singleSource, List.mem_cons, List.mem_singleton, List.not_mem_nil,
            or_false] at hop
          rcases hop with h1 | h1 | h1 | h1 | h1 | h1
          · exact Or.inr (Or.inl h1)
          · exact Or.inr (Or.inr (Or.inl h1))
          · exact Or.inl h1
          · exact Or.inr (Or.inr (Or.inr h1))
          · exact absurd (Or.inr h1) hn
          · exact absurd (Or.inl h1) hn
        have hr : ¬ opcode (s.memory a) = RR_ALU := by
          rcases hop2 with h1 | h1 | h1 | h1 <;> (rw [h1]; decide)
        unfold issueOperands at h
        dsimp only at h
        rw [if_neg hr, if_pos hop2] at h
        obtain ⟨r2, h1, h2⟩ := Outcome.bind_eq_ok_iff.mp h
        cases h2
        obtain ⟨c1, c2⟩ := captureJ_second h1
        dsimp only
        rw [setIdx_same, c1, c2]
        exact ⟨rfl, rfl⟩

/-- The issue phase, with the instruction it fetched: either the state is left as it is, or
the tail slot `i` and a free station `u` are allocated to `memory[pc]`, every other slot and
station being left as it is; `Qk` and `Vk` of the station are kept when the instruction has
no second source operand. -/
theorem issuePhase_single {s t : MachineState} {b : Bool}
    (h : issuePhase s = Outcome.ok (b, t)) :
    t = s ∨ ∃ (i : Fin 16) (u : Fin 7) (a : Fin 10000), i.val = s.robTailIdx ∧
      a.val = s.pc ∧ (s.reservation u).busy = false ∧ (t.reservation u).busy = true ∧
      (∀ j : Fin 16, j ≠ i → t.rob j = s.rob j) ∧
      (∀ k : Fin 7, k ≠ u → t.reservation k = s.reservation k) ∧
      (t.rob i).busy = true ∧ (t.rob i).execUnit = u.val ∧ (t.rob i).instr = s.memory a ∧
      (opcode (s.memory a) ∈ singleSource →
        (t.reservation u).Qk = (s.reservation u).Qk ∧
        (t.reservation u).Vk = (s.reservation u).Vk) := by
  unfold issuePhase at h
  split_ifs at h with h1
  · cases h
    exact Or.inl rfl
  · cases ha : idx? 10000 s.pc with
    | none => rw [ha] at h; cases h
    | some a =>
      rw [ha] at h
      dsimp only at h
      cases hu : chooseUnit s (opcode (s.memory a)) with
      | none => rw [hu] at h; cases h
      | some unit =>
        rw [hu] at h
        dsimp only at h
        split_ifs at h with h2
        · rcases hp : robPush s with ⟨_ | robIdx, s1⟩
          · rw [hp] at h
            cases h
            exact Or.inl (robPush_none hp)
          · rw [hp] at h
            dsimp only at h
            obtain ⟨hr, -, hs1⟩ := robPush_some hp
            obtain ⟨s2, h3, h4⟩ := Outcome.bind_eq_ok_iff.mp h
            obtain ⟨-, -, a3, -⟩ := issueInstr_frame h3
            obtain ⟨-, -, b3, -⟩ := afterIssue_frame h4
            obtain ⟨c1, -, c3⟩ := afterIssue_slot h4
            obtain ⟨u, i, d1, d2, d3, -, d5, -, d7, d8, -, -⟩ := issueInstr_slot h3
            obtain ⟨u2, e1, e2, -⟩ := chooseUnit_spec hu h2
            have huu : u2 = u := Fin.ext (e1.trans d1.symm)
            subst huu
            subst hs1
            obtain ⟨f1, f2⟩ := issueInstr_second h3 a u2 i (idx?_eq_some_iff.mp ha) d1 d2
            refine Or.inr ⟨i, u2, a, d2.trans hr, idx?_eq_some_iff.mp ha, e2, ?_, ?_, ?_, ?_,
              ?_, ?_, ?_⟩
            · rw [c1]
              exact d8
            · intro j hj
              have hj2 : j.val ≠ robIdx := fun hh => hj (Fin.ext (hh.trans d2.symm))
              rw [b3 j hj2, a3 j hj2]
            · intro k hk
              rw [c1, d7 k hk]
            · rw [(c3 i).1, d3]
            · rw [(c3 i).2.2.2.1, d5, e1]
            · rw [(c3 i).2.2.2.2]
              exact f1
            · rw [c1]
              exact f2
        · cases h
          exact Or.inl rfl

theorem broadcastStation_second {unit value : Nat} {r : ResStation} (hq : r.Qk = READY)
    (hu : unit ≠ 0) :
    (broadcastStation unit value r).Qk = READY ∧ (broadcastStation unit value r).Vk = r.Vk := by
  unfold broadcastStation
  dsimp only
  have hne : ¬ r.Qk = unit := fun hc => hu (hc.symm.trans hq)
  split_ifs <;> exact ⟨hq, rfl⟩

/-- What the commit phase leaves in flight was in flight before, with the same entry and the
same station. -/
theorem commitPhase_active {rnd : Fin 8} {s t : MachineState} {b : Bool} (hs : UnitInv s)
    (h : commitPhase rnd s = Outcome.ok (b, t)) (j : Fin 16) (hj : Active t j) :
    Active s j ∧ t.rob j = s.rob j ∧
      ∀ k : Fin 7, k.val = (s.rob j).execUnit → t.reservation k = s.reservation k := by
  have hnot : ∀ {e : ROBEntry}, e.instrStatus = COMMITTING →
      ¬(e.instrStatus = ISSUING ∨ e.instrStatus = EXECUTING) := by
    intro e he hc
    rw [he] at hc
    rcases hc with hc | hc <;> cases hc
  have hsame : ∀ (k : Fin 7), Active s j → k.val = (s.rob j).execUnit →
      (k.val = 3 ∨ k.val = 4) → False := by
    intro k hsj hk h1
    rw [hk] at h1
    rcases hs.unit j hsj with h2 | h2 | h2 | h2 <;> rw [h2] at h1 <;>
      rcases h1 with h1 | h1 <;> cases h1
  rcases commitPhase_cases h with ⟨-, -, a3, a4⟩ | ⟨i, -, -, -, -, -, a6, a7⟩ | ⟨-, -, a3, -⟩
  · rcases a3 j with h1 | ⟨-, h1, -, -⟩
    · have hsj : Active s j := by
        unfold Active at hj ⊢
        rw [h1] at hj
        exact hj
      refine ⟨hsj, h1, fun k hk => ?_⟩
      rcases a4 k with h2 | ⟨h2, -⟩
      · exact h2
      · exact absurd h2 (hsame k hsj hk)
    · exact absurd hj.2 (hnot h1)
  · have hji : j ≠ i := by
      rintro rfl
      have := hj.1
      rw [a6, setIdx_same] at this
      cases this
    have hr : t.rob j = s.rob j := by
      rw [a6]
      exact setIdx_ne _ _ hji
    have hsj : Active s j := by
      unfold Active at hj ⊢
      rw [hr] at hj
      exact hj
    refine ⟨hsj, hr, fun k hk => ?_⟩
    rcases a7 k with h2 | ⟨h2, -⟩
    · exact h2
    · exact absurd h2 (hsame k hsj hk)
  · have := hj.1
    rw [a3 j] at this
    cases this

theorem singleReady_commitPhase {rnd : Fin 8} {s t : MachineState} {b : Bool}
    (hs : SingleReady s) (hu : UnitInv s) (h : commitPhase rnd s = Outcome.ok (b, t)) :
    SingleReady t := by
  intro j k hj hk hop
  obtain ⟨a1, a2, a3⟩ := commitPhase_active hu h j hj
  rw [a2] at hk hop
  rw [a3 k hk]
  exact hs j k a1 hk hop

/-- An entry in flight after one iteration of the processing loop was in flight before. -/
theorem advanceEntry_active {s t : MachineState} {i : Fin 16}
    (h : advanceEntry s i = Outcome.ok t) (j : Fin 16) (hj : Active t j) : Active s j := by
  obtain ⟨r1, -, -, r4⟩ := advanceEntry_rob h j
  by_cases hji : j = i
  · subst hji
    obtain ⟨u, -, h1 | h1 | h1 | h1 | h1⟩ := advanceEntry_cells h
    · rw [h1.1] at hj
      exact hj
    · unfold Active at hj ⊢
      rw [h1.2.2.2.1] at hj
      exact hj
    · obtain ⟨-, -, -, v, -, a5, -⟩ := h1
      have hst : (t.rob j).instrStatus = WRITING_RESULT := by
        rw [a5, (broadcastROB_keeps _ _ _).2.1, (writeResultEntry_keeps _ _).2.2.1]
      rcases hj.2 with hh | hh <;> (rw [hst] at hh; cases hh)
    · rcases hj.2 with hh | hh <;> (rw [h1.2.2.2.1] at hh; cases hh)
    · exact ⟨h1.1, Or.inl h1.2.1⟩
  · unfold Active at hj ⊢
    rw [r1, r4 hji] at hj
    exact hj

/-- One iteration of the processing loop keeps a `READY` tag `Qk`, and keeps `Vk` under it
or zeroes it (when it clears the station). -/
theorem advanceEntry_second {s t : MachineState} {i : Fin 16} (hs : UnitInv s)
    (h : advanceEntry s i = Outcome.ok t) (k : Fin 7) (hq : (s.reservation k).Qk = READY) :
    (t.reservation k).Qk = READY ∧
      ((t.reservation k).Vk = (s.reservation k).Vk ∨ (t.reservation k).Vk = 0) := by
  obtain ⟨u, hu, h1 | h1 | h1 | h1 | h1⟩ := advanceEntry_cases h
  · rw [h1.1]
    exact ⟨hq, Or.inl rfl⟩
  · rw [h1.2.2.2]
    dsimp only
    by_cases hk : k = u
    · subst hk
      rw [setIdx_same]
      exact ⟨hq, Or.inl rfl⟩
    · rw [setIdx_ne _ _ hk]
      exact ⟨hq, Or.inl rfl⟩
  · obtain ⟨a1, a2, -, v, -, ht⟩ := h1
    rw [ht]
    dsimp only
    by_cases hk : k = u
    · subst hk
      rw [setIdx_same]
      exact ⟨rfl, Or.inr rfl⟩
    · rw [setIdx_ne _ _ hk]
      have hu0 : u.val ≠ 0 := by
        rw [hu]
        rcases hs.unit i ⟨a1, Or.inr a2⟩ with h2 | h2 | h2 | h2 <;> (rw [h2]; decide)
      obtain ⟨b1, b2⟩ := @broadcastStation_second _ v _ hq hu0
      exact ⟨b1, Or.inl b2⟩
  · rw [h1.2.2]
    exact ⟨hq, Or.inl rfl⟩
  · rw [h1.2.2.2.2]
    dsimp only
    by_cases hk : k = u
    · subst hk
      rw [setIdx_same]
      exact ⟨hq, Or.inl rfl⟩
    · rw [setIdx_ne _ _ hk]
      exact ⟨hq, Or.inl rfl⟩

theorem singleReady_advanceEntry {s t : MachineState} {i : Fin 16} (hs : SingleReady s)
    (hu : UnitInv s) (h : advanceEntry s i = Outcome.ok t) : SingleReady t := by
  intro j k hj hk hop
  obtain ⟨-, r2, r3, -⟩ := advanceEntry_rob h j
  rw [r2] at hk
  rw [r3] at hop
  obtain ⟨a1, a2⟩ := hs j k (advanceEntry_active h j hj) hk hop
  obtain ⟨b1, b2⟩ := advanceEntry_second hu h k a1
  refine ⟨b1, ?_⟩
  rcases b2 with b2 | b2
  · rw [b2]
    exact a2
  · exact b2

theorem singleReady_advanceFrom (l : List (Fin 16)) :
    ∀ {s t : MachineState}, SingleReady s → UnitInv s → advanceFrom l s = Outcome.ok t →
      SingleReady t := by
  induction l with
  | nil =>
    intro s t hs _ h
    cases h
    exact hs
  | cons i rest ih =>
    intro s t hs hu h
    obtain ⟨s1, h1, h2⟩ := Outcome.bind_eq_ok_iff.mp h
    exact ih (singleReady_advanceEntry hs hu h1) (unitInv_advanceEntry hu h1) h2

theorem singleReady_issuePhase {s t : MachineState} {b : Bool} (hs : SingleReady s)
    (hz : IdleZero s) (hu : UnitInv s) (h : issuePhase s = Outcome.ok (b, t)) :
    SingleReady t := by
  rcases issuePhase_single h with h1 | ⟨i, u, a, -, -, a3, -, a5, a6, -, a8, a9, a10⟩
  · rw [h1]
    exact hs
  · intro j k hj hk hop
    by_cases hji : j = i
    · subst hji
      rw [a8] at hk
      rw [a9] at hop
      rw [Fin.ext hk]
      obtain ⟨b1, b2⟩ := a10 hop
      rw [b1, b2, hz u a3]
      exact ⟨rfl, rfl⟩
    · have hsj : Active s j := by
        unfold Active at hj ⊢
        rw [a5 j hji] at hj
        exact hj
      rw [a5 j hji] at hk hop
      have hku : k ≠ u := by
        rintro rfl
        have := hu.held j k hsj hk
        rw [a3] at this
        cases this
      rw [a6 k hku]
      exact hs j k hsj hk hop

theorem singleReady_nextStep {rnd : Fin 8} {s t : MachineState} {b : Bool}
    (hs : SingleReady s) (hz : IdleZero s) (hu : UnitInv s)
    (h : nextStep rnd s = Outcome.ok (b, t)) : SingleReady t := by
  obtain ⟨c, s1, h1, h2⟩ := nextStep_phases h
  have hu0 : UnitInv { s with cycles := wadd s.cycles 1 } :=
    ⟨hu.unit, hu.fresh, hu.held, hu.timed, hu.own, hu.bound, hu.idle⟩
  have hs1 : SingleReady s1 :=
    singleReady_commitPhase (s := { s with cycles := wadd s.cycles 1 }) hs hu0 h1
  have hz1 : IdleZero s1 :=
    idleZero_commitPhase (s := { s with cycles := wadd s.cycles 1 }) hz h1
  have hu1 : UnitInv s1 := unitInv_commitPhase hu0 h1
  rcases h2 with ⟨-, -, h3⟩ | ⟨-, s2, h3, h4⟩
  · rw [h3]
    exact hs1
  · exact singleReady_issuePhase (singleReady_advanceFrom _ hs1 hu1 h3)
      (idleZero_advanceFrom _ hz1 hu1 h3) (unitInv_advanceFrom _ hu1 h3) h4

theorem reachable_singleReady {s : MachineState} (h : Reachable s) : SingleReady s := by
  induction h with
  | init =>
    intro j k hj
    cases hj.1
  | load pc instr _ hl ih =>
    unfold loadInstr at hl
    cases ha : idx? 10000 pc with
    | none => rw [ha] at hl; cases hl
    | some a =>
      rw [ha] at hl
      cases hl
      exact ih
  | size n _ ih => exact ih
  | step rnd b hr hn ih =>
    exact singleReady_nextStep ih (reachable_idleZero hr) (reachable_unitInv hr) hn

/-- C22: in every reachable state `s`, every reservation station that is not busy, index 0
included, is the all-zero one.  Consequently, in a tick on `s` whose commit phase returns
`false` leaving `s1`, whose advance phase leaves `s2` and whose issue phase leaves `t`, if
the instruction fetched is an `ADDI`, `ANDI`, `LW`, `BEQZ`, `HALT` or `NOOP` and station `u`
is the one it is issued into (free in `s2`, busy in `t`), then in `t` station `u` has
`Qk = READY` and `Vk = 0`; and in `s` every entry in flight holding such an instruction has
`Qk = READY` and `Vk = 0` in its station, so it never waits on a second operand. -/
theorem idle_stations_zero (s : MachineState) (hr : Reachable s) :
    (∀ u : Fin 7, (s.reservation u).busy = false →
      (s.reservation u).instr = 0 ∧ (s.reservation u).Vj = 0 ∧ (s.reservation u).Vk = 0 ∧
      (s.reservation u).Qj = 0 ∧ (s.reservation u).Qk = 0 ∧
      (s.reservation u).exTimeLeft = 0 ∧ (s.reservation u).robIdx = 0) ∧
    (∀ (rnd : Fin 8) (s1 s2 t : MachineState) (b : Bool),
      commitPhase rnd { s with cycles := wadd s.cycles 1 } = Outcome.ok (false, s1) →
      advancePhase s1 = Outcome.ok s2 → issuePhase s2 = Outcome.ok (b, t) →
      ∀ (a : Fin 10000) (u : Fin 7), a.val = s2.pc → opcode (s2.memory a) ∈ singleSource →
        (s2.reservation u).busy = false → (t.reservation u).busy = true →
        (t.reservation u).Qk = READY ∧ (t.reservation u).Vk = 0) ∧
    (∀ (i : Fin 16) (u : Fin 7), Active s i → u.val = (s.rob i).execUnit →
      opcode (s.rob i).instr ∈ singleSource →
      (s.reservation u).Qk = READY ∧ (s.reservation u).Vk = 0) := by
  have hz := reachable_idleZero hr
  have hu := reachable_unitInv hr
  refine ⟨fun u hb => ?_, ?_, reachable_singleReady hr⟩
  · rw [hz u hb]
    exact ⟨rfl, rfl, rfl, rfl, rfl, rfl, rfl⟩
  · intro rnd s1 s2 t b hc ha hi a u hpc hop hfree hbusy
    have hu0 : UnitInv { s with cycles := wadd s.cycles 1 } :=
      ⟨hu.unit, hu.fresh, hu.held, hu.timed, hu.own, hu.bound, hu.idle⟩
    have hz2 : IdleZero s2 :=
      idleZero_advanceFrom _
        (idleZero_commitPhase (s := { s with cycles := wadd s.cycles 1 }) hz hc)
        (unitInv_commitPhase hu0 hc) ha
    rcases issuePhase_single hi with h1 | ⟨i, w, a2, -, a2pc, -, -, -, a6, -, -, -, a10⟩
    · rw [h1, hfree] at hbusy
      cases hbusy
    · have hwu : u = w := by
        by_contra hne
        rw [a6 u hne, hfree] at hbusy
        cases hbusy
      subst hwu
      have haa : a2 = a := Fin.ext (a2pc.trans hpc.symm)
      subst haa
      obtain ⟨b1, b2⟩ := a10 hop
      rw [b1, b2, hz2 u hfree]
      exact ⟨rfl, rfl⟩

/-- An instance of C22: the second tick of `branchProgram` issues the `BEQZ` at 17 into
`INT2`, which was free, and leaves it with `Qk = READY` and `Vk = 0`. -/
theorem idle_stations_zero_witness :
    (Reachable (runState branchProgram 1) ∧
      commitPhase 0 { runState branchProgram 1 with
          cycles := wadd (runState branchProgram 1).cycles 1 } =
        Outcome.ok (false, committed 0 (runState branchProgram 1)) ∧
      advancePhase (committed 0 (runState branchProgram 1)) = Outcome.ok beforeIssue ∧
      issuePhase beforeIssue = Outcome.ok (false, issued beforeIssue) ∧
      (17 : Fin 10000).val = beforeIssue.pc ∧ opcode (beforeIssue.memory 17) = BEQZ ∧
      (beforeIssue.reservation 6).busy = false ∧
      ((issued beforeIssue).reservation 6).busy = true) ∧
    ((issued beforeIssue).reservation 6).Qk = READY ∧
    ((issued beforeIssue).reservation 6).Vk = 0 :=
  ⟨⟨runState_reachable branchProgram 1, rfl, rfl, rfl, rfl, rfl, rfl, rfl⟩,
    (idle_stations_zero (runState branchProgram 1) (runState_reachable branchProgram 1)).2.1
      0 (committed 0 (runState branchProgram 1)) beforeIssue (issued beforeIssue) false
      rfl rfl rfl 17 6 rfl (by decide) rfl rfl⟩

/-! ### Wake-up by a broadcast within the tick -/

theorem broadcastStation_tags (unit value : Nat) {r : ResStation} (hb : r.busy = true) :
    (broadcastStation unit value r).Qj = (if r.Qj = unit then READY else r.Qj) ∧
      (broadcastStation unit value r).Qk = (if r.Qk = unit then READY else r.Qk) := by
  unfold broadcastStation
  rw [if_pos hb]
  dsimp only
  split_ifs <;> exact ⟨rfl, rfl⟩

/-- What a visit of another entry `j` does to the tags of the station of an entry in flight
`c`: nothing, unless `j` writes back on a unit `uj`, which turns the tags equal to `uj` into
`READY`. -/
theorem advanceEntry_tags {x y : MachineState} {c j : Fin 16} {w : Fin 7} (hx : UnitInv x)
    (h : advanceEntry x j = Outcome.ok y) (hcj : c ≠ j) (hact : Active x c)
    (hw : w.val = (x.rob c).execUnit) :
    ((y.reservation w).Qj = (x.reservation w).Qj ∧
      (y.reservation w).Qk = (x.reservation w).Qk) ∨
    ((x.rob j).busy = true ∧ (x.rob j).instrStatus = EXECUTING ∧
      ∃ uj : Fin 7, uj.val = (x.rob j).execUnit ∧ (x.reservation uj).exTimeLeft = 0 ∧
        uj.val ≠ 0 ∧
        (y.reservation w).Qj =
          (if (x.reservation w).Qj = uj.val then READY else (x.reservation w).Qj) ∧
        (y.reservation w).Qk =
          (if (x.reservation w).Qk = uj.val then READY else (x.reservation w).Qk)) := by
  obtain ⟨uj, huj, h1 | h1 | h1 | h1 | h1⟩ := advanceEntry_cells h
  · rw [h1.1]
    exact Or.inl ⟨rfl, rfl⟩
  · obtain ⟨a1, a2, -, -, -, -, a7⟩ := h1
    rw [a7 w (hx.ne_unit ⟨a1, Or.inr a2⟩ hact hcj huj hw)]
    exact Or.inl ⟨rfl, rfl⟩
  · obtain ⟨a1, a2, a3, v, -, -, -, -, a8⟩ := h1
    have hj : Active x j := ⟨a1, Or.inr a2⟩
    have hu0 : uj.val ≠ 0 := by
      rw [huj]
      rcases hx.unit j hj with h2 | h2 | h2 | h2 <;> (rw [h2]; decide)
    obtain ⟨b1, b2⟩ := broadcastStation_tags uj.val v (hx.held c w hact hw)
    rw [a8 w (hx.ne_unit hj hact hcj huj hw)]
    exact Or.inr ⟨a1, a2, uj, huj, a3, hu0, b1, b2⟩
  · rw [h1.2.2.1]
    exact Or.inl ⟨rfl, rfl⟩
  · obtain ⟨a1, a2, -, -, -, -, -, -, -, -, -, a12⟩ := h1
    rw [a12 w (hx.ne_unit ⟨a1, Or.inl a2⟩ hact hcj huj hw)]
    exact Or.inl ⟨rfl, rfl⟩

/-- The visit of a producer `p` that writes back on unit `u` turns the tags of the station
of a consumer `c` in flight that are `READY` or `u` into `READY`. -/
theorem advanceEntry_producer {x y : MachineState} {c p : Fin 16} {u w : Fin 7}
    (hx : UnitInv x) (h : advanceEntry x p = Outcome.ok y) (hcp : c ≠ p) (hact : Active x c)
    (hw : w.val = (x.rob c).execUnit)
    (hp : (x.rob p).busy = true ∧ (x.rob p).instrStatus = EXECUTING ∧
      u.val = (x.rob p).execUnit ∧ (x.reservation u).exTimeLeft = 0)
    (hj : (x.reservation w).Qj = READY ∨ (x.reservation w).Qj = u.val)
    (hk : (x.reservation w).Qk = READY ∨ (x.reservation w).Qk = u.val) :
    (y.reservation w).Qj = READY ∧ (y.reservation w).Qk = READY := by
  have hpact : Active x p := ⟨hp.1, Or.inr hp.2.1⟩
  obtain ⟨v, hv, hcase⟩ := advanceEntry_cells h
  have hvu : v = u := Fin.ext (hv.trans hp.2.2.1.symm)
  subst hvu
  rcases hcase with d | d | d | d | d
  · exact absurd ⟨hp.1, Or.inl hp.2.1⟩ d.2
  · exact absurd hp.2.2.2 d.2.2.1
  · obtain ⟨-, -, -, val, -, -, -, -, d8⟩ := d
    obtain ⟨e1, e2⟩ := broadcastStation_tags v.val val (hx.held c w hact hw)
    rw [d8 w (hx.ne_unit hpact hact hcp hv hw), e1, e2]
    constructor
    · rcases hj with hj | hj
      · rw [hj]
        split_ifs <;> rfl
      · rw [hj, if_pos rfl]
    · rcases hk with hk | hk
      · rw [hk]
        split_ifs <;> rfl
      · rw [hk, if_pos rfl]
  · rw [hp.2.1] at d
    cases d.2.1
  · rw [hp.2.1] at d
    cases d.2.1

/-- Tags that are `READY` stay `READY` through the visits of other entries. -/
theorem advanceFrom_ready (l : List (Fin 16)) (c : Fin 16) (w : Fin 7) (hc : c ∉ l) :
    ∀ {x y : MachineState}, UnitInv x → advanceFrom l x = Outcome.ok y → Active x c →
      w.val = (x.rob c).execUnit → (x.reservation w).Qj = READY →
      (x.reservation w).Qk = READY →
      (y.reservation w).Qj = READY ∧ (y.reservation w).Qk = READY := by
  induction l with
  | nil =>
    intro x y _ h _ _ hj hk
    cases h
    exact ⟨hj, hk⟩
  | cons j rest ih =>
    intro x y hx h hact hw hj hk
    obtain ⟨x1, h1, h2⟩ := Outcome.bind_eq_ok_iff.mp h
    have hcj : c ≠ j := fun hh => hc (hh ▸ List.mem_cons_self _ _)
    obtain ⟨a1, -, -⟩ := advanceEntry_other hx h1 hcj
    obtain ⟨b1, -⟩ := a1 hact
    have hact1 : Active x1 c := by
      unfold Active at hact ⊢
      rw [b1]
      exact hact
    have hw1 : w.val = (x1.rob c).execUnit := by rw [b1]; exact hw
    have htags : (x1.reservation w).Qj = READY ∧ (x1.reservation w).Qk = READY := by
      rcases advanceEntry_tags hx h1 hcj hact hw with ⟨c1, c2⟩ | ⟨-, -, uj, -, -, c3, c4, c5⟩
      · exact ⟨c1.trans hj, c2.trans hk⟩
      · rw [c4, c5, hj, hk, if_neg (fun hh => c3 hh.symm)]
        exact ⟨rfl, rfl⟩
    exact ih (fun hm => hc (List.mem_cons_of_mem _ hm)) (unitInv_advanceEntry hx h1) h2 hact1
      hw1 htags.1 htags.2

/-- The loop seen from a consumer `c` in flight whose tags are `READY` or the unit `u` of a
producer `p` that is `EXECUTING` with no cycle left: through the visits of a list of slots
without `c`, the tags are all `READY` once `p` has been visited, and are unchanged, with `p`
still about to write back, as long as it has not. -/
theorem advanceFrom_wakeup (l : List (Fin 16)) (c p : Fin 16) (u w : Fin 7) (hc : c ∉ l)
    (hcp : c ≠ p) :
    ∀ {x y : MachineState}, UnitInv x → advanceFrom l x = Outcome.ok y → Active x c →
      w.val = (x.rob c).execUnit →
      ((x.rob p).busy = true ∧ (x.rob p).instrStatus = EXECUTING ∧
        u.val = (x.rob p).execUnit ∧ (x.reservation u).exTimeLeft = 0) →
      ((x.reservation w).Qj = READY ∨ (x.reservation w).Qj = u.val) →
      ((x.reservation w).Qk = READY ∨ (x.reservation w).Qk = u.val) →
      (p ∈ l → (y.reservation w).Qj = READY ∧ (y.reservation w).Qk = READY) ∧
      (p ∉ l → (y.reservation w).Qj = (x.reservation w).Qj ∧
        (y.reservation w).Qk = (x.reservation w).Qk ∧
        ((y.rob p).busy = true ∧ (y.rob p).instrStatus = EXECUTING ∧
          u.val = (y.rob p).execUnit ∧ (y.reservation u).exTimeLeft = 0)) := by
  induction l with
  | nil =>
    intro x y _ h _ _ hp _ _
    cases h
    exact ⟨fun hm => absurd hm (List.not_mem_nil _), fun _ => ⟨rfl, rfl, hp⟩⟩
  | cons j rest ih =>
    intro x y hx h hact hw hp hj hk
    obtain ⟨x1, h1, h2⟩ := Outcome.bind_eq_ok_iff.mp h
    have hcj : c ≠ j := fun hh => hc (hh ▸ List.mem_cons_self _ _)
    have hcr : c ∉ rest := fun hm => hc (List.mem_cons_of_mem _ hm)
    have hx1 := unitInv_advanceEntry hx h1
    obtain ⟨a1, -, -⟩ := advanceEntry_other hx h1 hcj
    obtain ⟨b1, -⟩ := a1 hact
    have hact1 : Active x1 c := by
      unfold Active at hact ⊢
      rw [b1]
      exact hact
    have hw1 : w.val = (x1.rob c).execUnit := by rw [b1]; exact hw
    have hpact : Active x p := ⟨hp.1, Or.inr hp.2.1⟩
    have hu0 : u.val ≠ 0 := by
      rw [hp.2.2.1]
      rcases hx.unit p hpact with h3 | h3 | h3 | h3 <;> (rw [h3]; decide)
    by_cases hjp : j = p
    · subst hjp
      have hready := advanceEntry_producer hx h1 hcj hact hw hp hj hk
      exact ⟨fun _ => advanceFrom_ready rest c w hcr hx1 h2 hact1 hw1 hready.1 hready.2,
        fun hm => absurd (List.mem_cons_self _ _) hm⟩
    · have hpj : p ≠ j := fun hh => hjp hh.symm
      obtain ⟨p1, -, -⟩ := advanceEntry_other hx h1 hpj
      obtain ⟨q1, q2⟩ := p1 hpact
      have hp1 : (x1.rob p).busy = true ∧ (x1.rob p).instrStatus = EXECUTING ∧
          u.val = (x1.rob p).execUnit ∧ (x1.reservation u).exTimeLeft = 0 := by
        rw [q1, q2 u hp.2.2.1]
        exact hp
      have htags : (x1.reservation w).Qj = (x.reservation w).Qj ∧
          (x1.reservation w).Qk = (x.reservation w).Qk := by
        rcases advanceEntry_tags hx h1 hcj hact hw with hsame |
          ⟨c1, c2, uj, c3, -, c5, c6, c7⟩
        · exact hsame
        · have hne : uj.val ≠ u.val := by
            intro hh
            exact hjp (hx.own j p ⟨c1, Or.inr c2⟩ hpact
              (c3.symm.trans (hh.trans hp.2.2.1)))
          have hqj : ¬ (x.reservation w).Qj = uj.val := by
            rcases hj with hj | hj
            · rw [hj]
              exact fun hh => c5 hh.symm
            · rw [hj]
              exact fun hh => hne hh.symm
          have hqk : ¬ (x.reservation w).Qk = uj.val := by
            rcases hk with hk | hk
            · rw [hk]
              exact fun hh => c5 hh.symm
            · rw [hk]
              exact fun hh => hne hh.symm
          rw [c6, c7, if_neg hqj, if_neg hqk]
          exact ⟨rfl, rfl⟩
      obtain ⟨r1, r2⟩ := ih hcr hx1 h2 hact1 hw1 hp1 (by rw [htags.1]; exact hj)
        (by rw [htags.2]; exact hk)
      refine ⟨fun hm => ?_, fun hm => ?_⟩
      · rcases List.mem_cons.mp hm with hh | hh
        · exact absurd hh.symm hjp
        · exact r1 hh
      · obtain ⟨s1, s2, s3⟩ := r2 (fun hh => hm (List.mem_cons_of_mem _ hh))
        exact ⟨s1.trans htags.1, s2.trans htags.2, s3⟩

/-- A busy ROB entry and a busy station are left as they are by the issue phase, which
allocates a slot and a station that are free. -/
theorem issuePhase_keeps_busy {s t : MachineState} {b : Bool} (hq : RobInv s)
    (h : issuePhase s = Outcome.ok (b, t)) :
    (∀ c : Fin 16, (s.rob c).busy = true → t.rob c = s.rob c) ∧
      (∀ w : Fin 7, (s.reservation w).busy = true → t.reservation w = s.reservation w) := by
  rcases issuePhase_cases h with h1 |
    ⟨i, u, a1, a2, a3, -, -, -, -, -, -, -, -, a12, -, -, -, -, a17, -⟩
  · rw [h1]
    exact ⟨fun _ _ => rfl, fun _ _ => rfl⟩
  · obtain ⟨-, -, hb⟩ := hq
    refine ⟨fun c hc => a12 c ?_, fun w hw => a17 w ?_⟩
    · rintro rfl
      have := (hb c).mp hc
      rw [a1] at this
      exact lt_irrefl _ this
    · rintro rfl
      rw [a3] at hw
      cases hw

/-- C21, as the code behaves: the advance loop visits the ROB slots in index order.  Let `r`
be reachable, let the commit phase of a tick on `r` return `false` leaving `s`, the advance
phase leave `t` and the issue phase leave `t2`.  Let the producer `p` be busy and
`EXECUTING` on unit `u` with `exTimeLeft = 0` in `s`, and the consumer `c` be busy and
`ISSUING` in `s`, on a station `w` whose tags `Qj` and `Qk` are each `READY` or `u`.  If
`p`'s index is smaller than `c`'s, `c` is `EXECUTING` at the end of the tick.  If `c`'s
index is smaller than `p`'s and one of the tags is `u`, then at the end of the tick `c` is
still `ISSUING`, with both tags of its station `READY`. -/
theorem wakeup_by_index (rnd : Fin 8) (r s t t2 : MachineState) (b : Bool)
    (hr : Reachable r)
    (hc : commitPhase rnd { r with cycles := wadd r.cycles 1 } = Outcome.ok (false, s))
    (ha : advancePhase s = Outcome.ok t) (hi : issuePhase t = Outcome.ok (b, t2))
    (p c : Fin 16) (u w : Fin 7)
    (hp : (s.rob p).busy = true ∧ (s.rob p).instrStatus = EXECUTING ∧
      u.val = (s.rob p).execUnit ∧ (s.reservation u).exTimeLeft = 0)
    (hcb : (s.rob c).busy = true) (hcs : (s.rob c).instrStatus = ISSUING)
    (hw : w.val = (s.rob c).execUnit)
    (hj : (s.reservation w).Qj = READY ∨ (s.reservation w).Qj = u.val)
    (hk : (s.reservation w).Qk = READY ∨ (s.reservation w).Qk = u.val) :
    (p < c → (t2.rob c).instrStatus = EXECUTING) ∧
    (c < p → ((s.reservation w).Qj = u.val ∨ (s.reservation w).Qk = u.val) →
      (t2.rob c).instrStatus = ISSUING ∧ (t2.reservation w).Qj = READY ∧
      (t2.reservation w).Qk = READY) := by
  have hr1 := reachable_unitInv hr
  have hs : UnitInv s :=
    unitInv_commitPhase (s := { r with cycles := wadd r.cycles 1 })
      ⟨hr1.unit, hr1.fresh, hr1.held, hr1.timed, hr1.own, hr1.bound, hr1.idle⟩ hc
  have hq0 := reachable_robInv hr
  have hqs : RobInv s :=
    robInv_commitPhase (s := { r with cycles := wadd r.cycles 1 })
      ⟨hq0.1, hq0.2.1, hq0.2.2⟩ hc
  have hqt : RobInv t := robInv_advanceFrom hqs ha
  have hut : UnitInv t := unitInv_advanceFrom _ hs ha
  obtain ⟨k1, k2⟩ := issuePhase_keeps_busy hqt hi
  obtain ⟨x, y, h1, h2, h3⟩ := advancePhase_split ha c
  obtain ⟨hpre, hsuf⟩ := not_mem_filter_lt c
  have hcact : Active s c := ⟨hcb, Or.inl hcs⟩
  have hcp : c ≠ p := by
    rintro rfl
    rw [hcs] at hp
    cases hp.2.1
  have hu0 : u.val ≠ 0 := by
    rw [hp.2.2.1]
    rcases hs.unit p ⟨hp.1, Or.inr hp.2.1⟩ with h4 | h4 | h4 | h4 <;> (rw [h4]; decide)
  have hx : UnitInv x := unitInv_advanceFrom _ hs h1
  obtain ⟨w1, w2⟩ := advanceFrom_wakeup _ c p u w hpre hcp hs h1 hcact hw hp hj hk
  obtain ⟨o1, -, -⟩ := advanceFrom_other _ c hpre hs h1
  obtain ⟨xc, -⟩ := o1 hcact
  have hxb : (x.rob c).busy = true := by rw [xc]; exact hcb
  have hxs : (x.rob c).instrStatus = ISSUING := by rw [xc]; exact hcs
  have hxw : w.val = (x.rob c).execUnit := by rw [xc]; exact hw
  obtain ⟨rt1, -, -, rt4⟩ := advanceFrom_rob _ h3 c
  have rt4 := rt4 hsuf
  obtain ⟨ry1, -, -, -⟩ := advanceEntry_rob h2 c
  have htb : (t.rob c).busy = true := rt1.trans (ry1.trans hxb)
  obtain ⟨v, hv, hcases⟩ := advanceEntry_cells h2
  have hvw : v = w := Fin.ext (hv.trans hxw.symm)
  subst hvw
  constructor
  · intro hlt
    have hmem : p ∈ (List.finRange 16).filter fun k => decide (k < c) :=
      List.mem_filter.mpr ⟨List.mem_finRange p, decide_eq_true hlt⟩
    obtain ⟨g1, g2⟩ := w1 hmem
    rw [k1 c htb, rt4]
    rcases hcases with a | a | a | a | a
    · exact absurd ⟨hxb, Or.inr (Or.inr ⟨hxs, g1, g2⟩)⟩ a.2
    · rw [hxs] at a
      cases a.2.1
    · rw [hxs] at a
      cases a.2.1
    · rw [hxs] at a
      cases a.2.1
    · exact a.2.2.2.2.1
  · intro hlt htag
    have hnot : p ∉ (List.finRange 16).filter fun k => decide (k < c) := by
      intro hm
      exact lt_asymm hlt (of_decide_eq_true (List.mem_filter.mp hm).2)
    obtain ⟨g1, g2, g3⟩ := w2 hnot
    have hnr : ¬((x.reservation v).Qj = READY ∧ (x.reservation v).Qk = READY) := by
      rintro ⟨e1, e2⟩
      rw [g1] at e1
      rw [g2] at e2
      rcases htag with h4 | h4
      · exact hu0 (h4.symm.trans e1)
      · exact hu0 (h4.symm.trans e2)
    have hyx : y = x := by
      rcases hcases with a | a | a | a | a
      · exact a.1
      · rw [hxs] at a
        cases a.2.1
      · rw [hxs] at a
        cases a.2.1
      · rw [hxs] at a
        cases a.2.1
      · exact absurd ⟨a.2.2.1, a.2.2.2.1⟩ hnr
    subst hyx
    have hmem : p ∈ (List.finRange 16).filter fun k => decide (c < k) :=
      List.mem_filter.mpr ⟨List.mem_finRange p, decide_eq_true hlt⟩
    obtain ⟨z1, -⟩ := advanceFrom_wakeup _ c p u v hsuf hcp hx h3 ⟨hxb, Or.inl hxs⟩ hxw g3
      (by rw [g1]; exact hj) (by rw [g2]; exact hk)
    obtain ⟨z2, z3⟩ := z1 hmem
    have hts : (t.rob c).instrStatus = ISSUING := rt4.trans hxs
    have htw : v.val = (t.rob c).execUnit := by
      rw [(advanceFrom_rob _ h3 c).2.1]
      exact hxw
    have htv : (t.reservation v).busy = true := hut.held c v ⟨htb, Or.inl hts⟩ htw
    rw [k1 c htb, k2 v htv]
    exact ⟨hts, z2, z3⟩

/-- An instance of C21 as amended: the third tick of `branchProgram`, in which the `ADDI` in
slot 0 writes back on `INT1` and the `BEQZ` in slot 1, waiting on `INT1`, starts
executing. -/
theorem wakeup_by_index_witness :
    (Reachable (runState branchProgram 2) ∧
      commitPhase 0 { runState branchProgram 2 with
          cycles := wadd (runState branchProgram 2).cycles 1 } =
        Outcome.ok (false, committed 0 (runState branchProgram 2)) ∧
      advancePhase (committed 0 (runState branchProgram 2)) =
        Outcome.ok (advanced (committed 0 (runState branchProgram 2))) ∧
      issuePhase (advanced (committed 0 (runState branchProgram 2))) =
        Outcome.ok (false, issued (advanced (committed 0 (runState branchProgram 2)))) ∧
      ((committed 0 (runState branchProgram 2)).rob 0).instrStatus = EXECUTING ∧
      ((committed 0 (runState branchProgram 2)).rob 1).instrStatus = ISSUING ∧
      ((committed 0 (runState branchProgram 2)).reservation 6).Qj = (5 : Fin 7).val ∧
      (0 : Fin 16) < 1) ∧
    ((issued (advanced (committed 0 (runState branchProgram 2)))).rob 1).instrStatus =
      EXECUTING :=
  ⟨⟨runState_reachable branchProgram 2, rfl, rfl, rfl, rfl, rfl, rfl, by decide⟩,
    (wakeup_by_index 0 (runState branchProgram 2) (committed 0 (runState branchProgram 2))
      (advanced (committed 0 (runState branchProgram 2)))
      (issued (advanced (committed 0 (runState branchProgram 2)))) false
      (runState_reachable branchProgram 2) rfl rfl rfl 0 1 5 6 ⟨rfl, rfl, rfl, rfl⟩ rfl rfl rfl
      (Or.inr rfl) (Or.inl rfl)).1 (by decide)⟩

set_option maxRecDepth 100000 in
/-- C21 as stated fails: in the eighteenth tick of `wrapProgram` the producer in ROB slot 15
is `EXECUTING` on `INT2` with no cycle left and writes back, the consumer in slot 0 is busy
and `ISSUING` on `INT1` with `Qj = INT2` and `Qk = READY`, and at the end of the tick the
consumer is still `ISSUING`, not `EXECUTING`. -/
theorem wakeup_wrap_counterexample :
    Reachable (runState wrapProgram 17) ∧
    commitPhase 0 { runState wrapProgram 17 with
        cycles := wadd (runState wrapProgram 17).cycles 1 } =
      Outcome.ok (false, committed 0 (runState wrapProgram 17)) ∧
    advancePhase (committed 0 (runState wrapProgram 17)) =
      Outcome.ok (advanced (committed 0 (runState wrapProgram 17))) ∧
    issuePhase (advanced (committed 0 (runState wrapProgram 17))) =
      Outcome.ok (false, issued (advanced (committed 0 (runState wrapProgram 17)))) ∧
    ((committed 0 (runState wrapProgram 17)).rob 15).busy = true ∧
    ((committed 0 (runState wrapProgram 17)).rob 15).instrStatus = EXECUTING ∧
    ((committed 0 (runState wrapProgram 17)).rob 15).execUnit = INT2 ∧
    ((committed 0 (runState wrapProgram 17)).reservation 6).exTimeLeft = 0 ∧
    ((committed 0 (runState wrapProgram 17)).rob 0).busy = true ∧
    ((committed 0 (runState wrapProgram 17)).rob 0).instrStatus = ISSUING ∧
    ((committed 0 (runState wrapProgram 17)).rob 0).execUnit = INT1 ∧
    ((committed 0 (runState wrapProgram 17)).reservation 5).Qj = INT2 ∧
    ((committed 0 (runState wrapProgram 17)).reservation 5).Qk = READY ∧
    ((advanced (committed 0 (runState wrapProgram 17))).rob 15).instrStatus =
      WRITING_RESULT ∧
    ((issued (advanced (committed 0 (runState wrapProgram 17)))).rob 0).instrStatus =
      ISSUING ∧
    ((issued (advanced (committed 0 (runState wrapProgram 17)))).rob 0).instrStatus ≠
      EXECUTING :=
  ⟨runState_reachable wrapProgram 17, rfl, rfl, rfl, rfl, rfl, rfl, rfl, rfl, rfl, rfl, rfl,
    rfl, rfl, rfl, by decide⟩

/-! ### A load after a store to the same address -/

theorem issueInstr_immediate {s : MachineState} {a : Fin 10000} {i : Fin 16} {u : Fin 7}
    {m : Nat} {r1 r2 : Fin 32} (hm : s.memory a = m)
    (hop : opcode m = ADDI) (h1 : reg1Idx m = r1) (h2 : reg2Idx m = r2)
    (hv : (s.regResult r1).valid = true) :
    issueInstr s a.val u.val i.val = Outcome.ok
      { s with
        rob := setIdx s.rob i { s.rob i with busy := true, instr := m, instrStatus := ISSUING, execUnit := u.val, pc := a.val },
        regResult := setIdx s.regResult r2 { valid := false, robIdx := i.val },
        reservation := setIdx s.reservation u { s.reservation u with busy := true, robIdx := i.val, instr := m, exTimeLeft := INTEXEC, Qj := READY, Vj := s.regFile r1 } } := by
  subst hm
  have hn : ¬(opcode (s.memory a) = NOOP ∨ opcode (s.memory a) = HALT) := by
    rw [hop]
    decide
  have ht : issueExTime (opcode (s.memory a)) = some INTEXEC := by
    rw [hop]
    rfl
  have ha : ¬ opcode (s.memory a) = RR_ALU := by
    rw [hop]
    decide
  have hb : opcode (s.memory a) = LW ∨ opcode (s.memory a) = ADDI ∨ opcode (s.memory a) = ANDI ∨
      opcode (s.memory a) = BEQZ := Or.inr (Or.inl hop)
  unfold issueInstr
  rw [idx?_val, idx?_val, idx?_val]
  dsimp only
  rw [if_neg hn, ht]
  dsimp only
  unfold issueOperands
  dsimp only
  rw [if_neg ha, if_pos hb, h1, h2]
  unfold captureJ
  rw [if_pos hv]
  rfl

theorem issuePhase_immediate {s : MachineState} {a : Fin 10000} {i : Fin 16} {u : Fin 7}
    {m : Nat} {r1 r2 : Fin 32}
    (hpc : a.val = s.pc) (hsz : s.pc < s.memorySize) (hm : s.memory a = m)
    (hop : opcode m = ADDI) (h1 : reg1Idx m = r1) (h2 : reg2Idx m = r2)
    (hc : chooseUnit s ADDI = some u.val) (hfull : wsub s.robHeadIdx s.robTailIdx % ROBSIZE ≠ 1)
    (hi : i.val = s.robTailIdx) (hv : (s.regResult r1).valid = true)
    (hnext : s.pc < wsub s.memorySize 1) :
    issuePhase s = Outcome.ok (false, issuedImmediate s i u m r1 r2) := by
  have hne : u.val ≠ INVALID := by
    have := u.isLt
    change u.val ≠ 4294967295
    omega
  have hp : robPush s = (some i.val, { s with robTailIdx := wadd s.robTailIdx 1 % ROBSIZE }) := by
    unfold robPush
    rw [if_neg hfull, hi]
  have hb : ¬ opcode m = BEQZ := by
    rw [hop]
    decide
  have hj : ¬ opcode m = J := by
    rw [hop]
    decide
  unfold issuePhase
  rw [if_neg (not_le.mpr hsz), idx?_eq_some_iff.mpr hpc]
  dsimp only
  rw [hm, hop, hc]
  dsimp only
  rw [if_pos hne, hp]
  dsimp only
  have hI := issueInstr_immediate (s := { s with robTailIdx := wadd s.robTailIdx 1 % ROBSIZE }) (i := i) (u := u) hm hop h1 h2 hv
  rw [hpc] at hI
  rw [hI]
  unfold afterIssue
  dsimp only [Outcome.bind]
  rw [if_neg hb, if_neg hj, if_pos hnext]
  unfold issuedImmediate
  rw [← hi]
theorem getResult_immediate {s : MachineState} {u : Fin 7} {m x : Nat}
    (hm : (s.reservation u).instr = m) (hop : opcode m = ADDI) (hx : immEx m = x) :
    getResult s u.val = Outcome.ok (wadd (s.reservation u).Vj x) := by
  unfold getResult
  rw [idx?_val]
  dsimp only
  rw [hm, hop, hx, if_neg (by decide), if_pos rfl]

theorem advanceEntry_immediate {s : MachineState} {i : Fin 16} {u : Fin 7} {m x : Nat}
    (hu : u.val = (s.rob i).execUnit) (hb : (s.rob i).busy = true)
    (hs : (s.rob i).instrStatus = EXECUTING) (ht : (s.reservation u).exTimeLeft = 0)
    (hr : (s.rob i).instr = m) (hm : (s.reservation u).instr = m)
    (hop : opcode m = ADDI) (hx : immEx m = x) :
    advanceEntry s i = Outcome.ok (wroteBack s i u (wadd (s.reservation u).Vj x)) := by
  unfold advanceEntry
  dsimp only
  rw [idx?_eq_some_iff.mpr hu]
  dsimp only
  have hsw : ¬ opcode (s.rob i).instr = SW := by
    rw [hr, hop]
    decide
  rw [if_pos hb, if_pos hs, if_neg (not_not.mpr ht), if_neg hsw]
  have hg := getResult_immediate (s := { s with rob := setIdx s.rob i { s.rob i with instrStatus := WRITING_RESULT } }) (u := u) hm hop hx
  rw [hu] at hg
  rw [hg]
  rfl

theorem commitPhase_immediate {rnd : Fin 8} {s : MachineState} {i : Fin 16} {m : Nat}
    {r2 : Fin 32}
    (hhead : i.val = s.robHeadIdx) (hne : s.robHeadIdx ≠ s.robTailIdx)
    (hbusy : (s.rob i).busy = true) (hvalid : (s.rob i).valid = true)
    (hstatus : (s.rob i).instrStatus = COMMITTING) (hm : (s.rob i).instr = m)
    (hop : opcode m = ADDI) (h2 : reg2Idx m = r2) :
    commitPhase rnd s = Outcome.ok (false, retiredRegister s i r2) := by
  have hh : opcode (s.rob i).instr ≠ HALT := by
    rw [hm, hop]
    decide
  rw [commitPhase_of_committable hhead hne hbusy hvalid hstatus hh]
  unfold commitInstr
  rw [idx?_eq_some_iff.mpr hhead]
  dsimp only
  rw [hm, hop, if_pos (by decide), h2, commitRegister_of_ne hhead hne]
  rfl

theorem nextStep_of_commit {rnd : Fin 8} {s s1 : MachineState} {r : Outcome (Bool × MachineState)}
    (hc : commitPhase rnd (ticked s) = Outcome.ok (false, s1))
    (h : (advancePhase s1).bind issuePhase = r) : nextStep rnd s = r := by
  unfold nextStep
  change (commitPhase rnd (ticked s)).bind _ = r
  rw [hc]
  exact h

theorem nextStep_of_phases {rnd : Fin 8} {s s1 s2 : MachineState}
    {r : Outcome (Bool × MachineState)}
    (hc : commitPhase rnd (ticked s) = Outcome.ok (false, s1))
    (ha : advancePhase s1 = Outcome.ok s2) (h : issuePhase s2 = r) : nextStep rnd s = r := by
  refine nextStep_of_commit hc ?_
  rw [ha]
  exact h

theorem nextStep_of_head {rnd : Fin 8} {s s1 s2 : MachineState}
    {r : Outcome (Bool × MachineState)}
    (hc : commitPhase rnd (ticked s) = Outcome.ok (false, s1))
    (ha : advanceEntry s1 firstSlot = Outcome.ok s2)
    (h : (advanceFrom laterSlots s2).bind issuePhase = r) : nextStep rnd s = r := by
  refine nextStep_of_commit hc ?_
  have hs : advancePhase s1 = (advanceEntry s1 firstSlot).bind (advanceFrom laterSlots) := rfl
  rw [hs, ha]
  exact h

theorem storeLoad_generic :
    ∀ a, StoreLoadTrace (Classical.epsilon fun p => ¬ ∀ a, StoreLoadTrace p a) a := by
  intro a
  fin_cases a <;>
  exact ⟨rfl, rfl, rfl, ⟨rfl, rfl, rfl, rfl, rfl, rfl, rfl, rfl, rfl⟩, rfl, rfl,
    ⟨rfl, rfl, rfl, rfl, rfl, rfl⟩, rfl, rfl, ⟨rfl, rfl, rfl, rfl, rfl, rfl, rfl⟩,
    rfl, rfl, rfl, rfl, rfl, rfl, rfl, rfl, rfl⟩

theorem storeLoad_trace (p : (Nat → Fin 8) × Nat × Nat) (a : Fin 16) : StoreLoadTrace p a :=
  forall_of_generic (fun p => ∀ a, StoreLoadTrace p a) storeLoad_generic p a

/-- The store-then-load run for any first word that decodes as `ADDI r1, r0, _` with extended
immediate `x`: call number 9 is the first to return `true`, and it leaves `memory[a]` and
`regFile[1]` equal to `x` and `regFile[2]` zero. -/
theorem storeLoad_run (rnd : Nat → Fin 8) (w x : Nat) (a : Fin 16)
    (hop : opcode (w % WORD) = ADDI) (h1 : reg1Idx (w % WORD) = regZero)
    (h2 : reg2Idx (w % WORD) = regOne) (hx : immEx (w % WORD) = x) :
    ∃ s0 t, startState (storeLoadWords w a.val) newMachineState = Outcome.ok s0 ∧
      HaltsAt rnd s0 9 t ∧ t.memory (dataCell a) = wadd 0 x ∧
      t.regFile regOne = wadd 0 x ∧ t.regFile regTwo = 0 := by
  obtain ⟨hA, hB1, hB2, ⟨hpa, hpc, hms, hmem, hpu, hh, ht, hti, hv⟩, hC, hD1,
    ⟨du, db, ds, dt, dr, dm⟩, hD3, hE, ⟨ehi, eh, et, eb, ev, es, em⟩, hF, hG5, hG6, hG7, hG8,
    hG9, hM, hR1, hR2⟩ := storeLoad_trace (rnd, w, x) a
  dsimp only at hA hB1 hB2 hpa hpc hms hmem hpu hh ht hti hv hC hD1 du db ds dt dr dm hD3 hE ehi eh et eb ev es em hF hG5 hG6 hG7 hG8 hG9 hM hR1 hR2
  have hsz : (ticked (loaded (storeLoadWords w a.val))).pc <
      (ticked (loaded (storeLoadWords w a.val))).memorySize := by
    rw [hpc, hms]
    decide
  have hfull : wsub (ticked (loaded (storeLoadWords w a.val))).robHeadIdx
      (ticked (loaded (storeLoadWords w a.val))).robTailIdx % ROBSIZE ≠ 1 := by
    rw [hh, ht]
    decide
  have hnext : (ticked (loaded (storeLoadWords w a.val))).pc <
      wsub (ticked (loaded (storeLoadWords w a.val))).memorySize 1 := by
    rw [hpc, hms]
    decide
  have hne : (ticked (storeLoadBeforeRetire rnd w x a.val)).robHeadIdx ≠
      (ticked (storeLoadBeforeRetire rnd w x a.val)).robTailIdx := by
    rw [eh, et]
    decide
  have j0 : issuePhase (ticked (loaded (storeLoadWords w a.val))) =
      Outcome.ok (false, storeLoadIssued w a.val) :=
    issuePhase_immediate hpa hsz hmem hop h1 h2 hpu hfull hti hv hnext
  have j2 : advanceEntry (storeLoadBeforeWrite rnd w a.val) firstSlot =
      Outcome.ok (storeLoadWritten rnd w x a.val) :=
    advanceEntry_immediate du db ds dt dr dm hop hx
  have j4 : commitPhase (rnd 4) (ticked (storeLoadBeforeRetire rnd w x a.val)) =
      Outcome.ok (false, storeLoadRetired rnd w x a.val) :=
    commitPhase_immediate ehi hne eb ev es em hop h2
  have k0 : nextStep (rnd 0) (loaded (storeLoadWords w a.val)) =
      Outcome.ok (false, storeLoadIssued w a.val) := nextStep_of_phases hB1 hB2 j0
  have k2 : nextStep (rnd 2) (stepped (rnd 1) (storeLoadIssued w a.val)) =
      Outcome.ok (false, finished laterSlots (storeLoadWritten rnd w x a.val)) :=
    nextStep_of_head hD1 j2 hD3
  have k4 : nextStep (rnd 4) (storeLoadBeforeRetire rnd w x a.val) =
      Outcome.ok (false, storeLoadAfter rnd w x a.val 0) := nextStep_of_commit j4 hF
  have i0 : idleSteps rnd 0 (loaded (storeLoadWords w a.val)) =
      some (loaded (storeLoadWords w a.val)) := rfl
  have i1 := idleSteps_step i0 k0
  have i2 := idleSteps_step i1 hC
  have i3 := idleSteps_step i2 k2
  have i4 := idleSteps_step i3 hE
  have i5 := idleSteps_step i4 k4
  have i6 := idleSteps_step i5 hG5
  have i7 := idleSteps_step i6 hG6
  have i8 := idleSteps_step i7 hG7
  have i9 := idleSteps_step i8 hG8
  exact ⟨loaded (storeLoadWords w a.val), storeLoadAfter rnd w x a.val 5, hA,
    ⟨storeLoadAfter rnd w x a.val 4, i9, hG9⟩, hM, hR1, hR2⟩

theorem encodeI_immediate (v : Nat) (hv : v < 65536) :
    encodeI ADDI 0 1 v % WORD = encodeI ADDI 0 1 v ∧ opcode (encodeI ADDI 0 1 v) = ADDI ∧
      reg1Idx (encodeI ADDI 0 1 v) = 0 ∧ reg2Idx (encodeI ADDI 0 1 v) = 1 ∧
      immEx (encodeI ADDI 0 1 v) = if v < 32768 then v else v + 4294901760 := by
  have he : encodeI ADDI 0 1 v = 536936448 + v := by
    unfold encodeI
    norm_num
  have hf : getField (536936448 + v) 15 0 = v := by
    rw [getField_eq]
    change (536936448 + v) / 1 % 65536 = v
    omega
  rw [he]
  refine ⟨?_, ?_, ?_, ?_, ?_⟩
  · change (536936448 + v) % 4294967296 = _
    omega
  · unfold opcode
    rw [getField_eq]
    change (536936448 + v) / 67108864 % 64 = 8
    omega
  · apply Fin.ext
    change getField (536936448 + v) 25 21 = 0
    rw [getField_eq]
    change (536936448 + v) / 2097152 % 32 = 0
    omega
  · apply Fin.ext
    change getField (536936448 + v) 20 16 = 1
    rw [getField_eq]
    change (536936448 + v) / 65536 % 32 = 1
    omega
  · unfold immEx
    rw [hf, signExtend16_eq v hv]
    split_ifs <;> omega

/-- C23 (amended): for every 16-bit immediate `v`, every data address `a < 16` and whatever
the random draws, the run of `ADDI r1, r0, v` at 16, `SW r1, a(r0)` at 17, `LW r2, a(r0)` at
18, `HALT` at 19 (`memorySize` 20) from the reset machine reaches a call of `nextStep` that
returns `true`, call number 9, and that call leaves `memory[a]` and `regFile[1]` equal to the
sign extension of `v` but `regFile[2] = 0`, the word `memory[a]` held before the store: the
load reads memory when it writes back, before the older store commits, so `regFile[2]` equals
`memory[a]` only for `v = 0`. -/
theorem store_then_load_reads_old (rnd : Nat → Fin 8) (v a : Nat) (hv : v < 65536)
    (ha : a < 16) :
    ∃ s0 t, startState (storeLoadProgram v a) newMachineState = Outcome.ok s0 ∧
      s0.memorySize = 20 ∧ HaltsAt rnd s0 9 t ∧
      (∀ m : Fin 10000, m.val = a → t.memory m = immEx (encodeI ADDI 0 1 v) ∧
        (t.regFile 2 = t.memory m ↔ v = 0)) ∧
      t.regFile 1 = immEx (encodeI ADDI 0 1 v) ∧ t.regFile 2 = 0 ∧
      immEx (encodeI ADDI 0 1 v) = (if v < 32768 then v else v + 4294901760) := by
  obtain ⟨hw, hop, h1, h2, hx⟩ := encodeI_immediate v hv
  obtain ⟨s0, t, h0, hh, hm, hr1, hr2⟩ := storeLoad_run rnd (encodeI ADDI 0 1 v)
    (immEx (encodeI ADDI 0 1 v)) ⟨a, ha⟩ (hw.symm ▸ hop) (hw.symm ▸ h1) (hw.symm ▸ h2)
    (hw.symm ▸ rfl)
  have hlt : immEx (encodeI ADDI 0 1 v) < 4294967296 := by
    rw [hx]
    split_ifs <;> omega
  have hz : wadd 0 (immEx (encodeI ADDI 0 1 v)) = immEx (encodeI ADDI 0 1 v) := by
    unfold wadd
    rw [Nat.zero_add]
    exact Nat.mod_eq_of_lt hlt
  rw [hz] at hm hr1
  change t.regFile 1 = _ at hr1
  change t.regFile 2 = 0 at hr2
  have hsz : s0.memorySize = 20 := by
    unfold startState at h0
    obtain ⟨s1, _, h3⟩ := Outcome.bind_eq_ok_iff.mp h0
    cases h3
    rfl
  refine ⟨s0, t, h0, hsz, hh, ?_, hr1, hr2, hx⟩
  intro m hma
  have hmm : m = dataCell ⟨a, ha⟩ := Fin.ext hma
  rw [hmm, hm, hr2, hx]
  refine ⟨rfl, ?_⟩
  by_cases hlow : v < 32768
  · rw [if_pos hlow]
    exact ⟨fun h => h.symm, fun h => h.symm⟩
  · rw [if_neg hlow]
    exact ⟨fun h => by omega, fun h => by omega⟩

/-- The instance `v = 7`, `a = 3` of the amended C23. -/
theorem store_then_load_reads_old_witness :
    (7 : Nat) < 65536 ∧ (3 : Nat) < 16 ∧
    ∃ s0 t, startState (storeLoadProgram 7 3) newMachineState = Outcome.ok s0 ∧
      s0.memorySize = 20 ∧ HaltsAt (fun _ => 0) s0 9 t ∧
      (∀ m : Fin 10000, m.val = 3 → t.memory m = immEx (encodeI ADDI 0 1 7) ∧
        (t.regFile 2 = t.memory m ↔ 7 = 0)) ∧
      t.regFile 1 = immEx (encodeI ADDI 0 1 7) ∧ t.regFile 2 = 0 ∧
      immEx (encodeI ADDI 0 1 7) = (if 7 < 32768 then 7 else 7 + 4294901760) :=
  ⟨by decide, by decide, store_then_load_reads_old (fun _ => 0) 7 3 (by decide) (by decide)⟩

/-- C23 as stated fails at `v = 7`, `a = 3`: the run of `ADDI r1, r0, 7`, `SW r1, 3(r0)`,
`LW r2, 3(r0)`, `HALT` from the reset machine halts at call number 9 with `memory[3] = 7`,
the extended immediate, but `regFile[2] = 0`. -/
theorem store_then_load_counterexample :
    Reachable (runState (storeLoadProgram 7 3) 9) ∧
    startState (storeLoadProgram 7 3) newMachineState =
      Outcome.ok (loaded (storeLoadProgram 7 3)) ∧
    (loaded (storeLoadProgram 7 3)).memorySize = 20 ∧
    idleSteps (fun _ => 0) 9 (loaded (storeLoadProgram 7 3)) =
      some (runState (storeLoadProgram 7 3) 9) ∧
    nextStep 0 (runState (storeLoadProgram 7 3) 9) =
      Outcome.ok (true, stepped 0 (runState (storeLoadProgram 7 3) 9)) ∧
    immEx (encodeI ADDI 0 1 7) = 7 ∧
    (stepped 0 (runState (storeLoadProgram 7 3) 9)).memory 3 = 7 ∧
    (stepped 0 (runState (storeLoadProgram 7 3) 9)).regFile 2 = 0 ∧
    (stepped 0 (runState (storeLoadProgram 7 3) 9)).regFile 2 ≠ immEx (encodeI ADDI 0 1 7) :=
  ⟨runState_reachable (storeLoadProgram 7 3) 9, rfl, rfl, rfl, rfl, rfl, rfl, rfl, by decide⟩

end Tomasulo
